import Mathlib

/-!
# migu: schema diff and DDL generation

A shallow embedding of the diff engine of `migu` (Go): the MySQL dialect
(`dialect/mysql.go`), the column renderer and `Diff` (`migu.go`), the desired side
`TableAST` with its tag mini-language and the ALTER plan (`table_ast.go`), and the
observed side `Table` (`table.go`).

Conventions of the embedding:

* Go strings are Lean strings; helpers that inspect a string work on its character
  list.  Go compares and splits strings bytewise on UTF-8, which for the ASCII
  separators used here and for ordering agrees with working on code points.
* `uint64` values are natural numbers; the only producer, `strconv.ParseUint`, is
  modelled with its range check.
* A Go call that may return an error or panic yields a `Res`.  An error is its
  message; `fmt.Errorf(prefix + err.Error())` is the concatenation of the two texts (a
  `%` inside the message is not read as a formatting verb).
* A Go `map[string]V` is a `GoMap V`.  The order in which `for k := range m` visits
  the keys is chosen by the Go runtime; it is an explicit argument `ρ : IterOrder`
  of every function that ranges over a map.
* Parts used by the sources but declared elsewhere (the snake-case library, the
  column comparison `hasDifference`) are the fields of `Ext`.
-/

namespace Migu

/-! ## Go runtime values -/

/-- Outcome of a Go call: a value, a returned error, or a panic.  Where the sources
wrap an error with `fmt.Errorf(prefix + err.Error())`, the message is the concatenation
of the two texts, which is what `fmt.Errorf` returns for a text without `%`. -/
inductive Res (α : Type) where
  | ok (val : α)
  | err (msg : String)
  | panic (msg : String)
deriving DecidableEq, Repr

/-- Go map keyed by strings, as a list of entries with pairwise distinct keys. -/
structure GoMap (V : Type) where
  entries : List (String × V)
deriving DecidableEq, Repr

namespace GoMap

variable {V : Type}

/-- The empty map, as made by `map[string]V{}`. -/
def empty : GoMap V := ⟨[]⟩

/-- Lookup in an entry list: `v, exist := m[k]`. -/
def lookup (k : String) : List (String × V) → Option V
  | [] => none
  | (k', v) :: rest => if k' = k then some v else lookup k rest

/-- Map lookup `m[k]` with its presence flag. -/
def get? (m : GoMap V) (k : String) : Option V := lookup k m.entries

/-- Assignment in an entry list: overwrite the entry of `k`, or add one. -/
def assign (k : String) (v : V) : List (String × V) → List (String × V)
  | [] => [(k, v)]
  | (k', v') :: rest => if k' = k then (k, v) :: rest else (k', v') :: assign k v rest

/-- Map assignment `m[k] = v`. -/
def set (m : GoMap V) (k : String) (v : V) : GoMap V := ⟨assign k v m.entries⟩

/-- Builtin `delete(m, k)`. -/
def delete (m : GoMap V) (k : String) : GoMap V := ⟨m.entries.filter (fun e => !decide (e.1 = k))⟩

/-- The keys of the map. -/
def keys (m : GoMap V) : List String := m.entries.map Prod.fst

end GoMap

/-- The order in which the runtime visits the keys of a map in a `range` loop: given
the keys, the sequence in which they are visited.  One order serves all `range` loops of
a run, so two loops over the same keys visit them in the same sequence; the Go runtime
draws the order of each loop anew. -/
abbrev IterOrder := List String → List String

/-- An iteration order visits every key exactly once. -/
def IterOrder.Valid (ρ : IterOrder) : Prop := ∀ ks : List String, (ρ ks).Perm ks

/-- The entries of `m` in the order `for k, v := range m` visits them under `ρ`. -/
def GoMap.range {V : Type} (ρ : IterOrder) (m : GoMap V) : List (String × V) :=
  (ρ m.keys).filterMap (fun k => (m.get? k).map (fun v => (k, v)))

/-! ## Strings -/

/-- The function `strings.Replace(s, old, new, -1)` for a one-character `old`, on
character lists. -/
def replaceChar (old : Char) (new : List Char) : List Char → List Char
  | [] => []
  | c :: cs => if c = old then new ++ replaceChar old new cs else c :: replaceChar old new cs

/-- The function `strings.Join`. -/
def join (parts : List String) (sep : String) : String := sep.intercalate parts

/-- Lexicographic comparison `a <= b` of character lists by code point. -/
def charsLe : List Char → List Char → Bool
  | [], _ => true
  | _ :: _, [] => false
  | a :: as, b :: bs => if a.toNat < b.toNat then true else if b.toNat < a.toNat then false else charsLe as bs

/-- Go string comparison `a <= b`. -/
def strLe (a b : String) : Prop := charsLe a.data b.data = true

instance : DecidableRel strLe := fun a b => inferInstanceAs (Decidable (charsLe a.data b.data = true))

/-- The function `sort.Strings` (the result, not the algorithm: a sorted list of
strings is determined by its elements). -/
def sortStrings (names : List String) : List String := List.insertionSort strLe names

/-! ## Dialect (`dialect/mysql.go`) -/

/-- Modelled from the spec: the interface `dialect.Dialect` is declared outside the
given sources; these are the four methods the callers use, with the signatures of the
MySQL implementation. -/
structure Dialect where
  ColumnType : String → Nat → Bool → String × Bool
  Quote : String → String
  QuoteString : String → String
  AutoIncrement : String

/-- The method `MySQL.varchar`. -/
def MySQL.varchar (size : Nat) : String :=
  let size := if size = 0 then 255 else size
  if size < 21846 then "VARCHAR(" ++ toString size ++ ")"
  else if size ≤ 65535 then "TEXT"
  else if size < 2 ^ 24 then "MEDIUMTEXT"
  else "LONGTEXT"

/-- The method `MySQL.ColumnType`. -/
def MySQL.ColumnType (name : String) (size : Nat) (_autoIncrement : Bool) : String × Bool :=
  if name = "string" then (MySQL.varchar size, false)
  else if name = "sql.NullString" ∨ name = "*string" then (MySQL.varchar size, true)
  else if name = "int" ∨ name = "int32" then ("INT", false)
  else if name = "*int" ∨ name = "*int32" then ("INT", true)
  else if name = "int8" then ("TINYINT", false)
  else if name = "*int8" then ("TINYINT", true)
  else if name = "bool" then ("BOOL", false)
  else if name = "*bool" ∨ name = "sql.NullBool" then ("BOOL", true)
  else if name = "int16" then ("SMALLINT", false)
  else if name = "*int16" then ("SMALLINT", true)
  else if name = "int64" then ("BIGINT", false)
  else if name = "sql.NullInt64" ∨ name = "*int64" then ("BIGINT", true)
  else if name = "uint" ∨ name = "uint32" then ("INT UNSIGNED", false)
  else if name = "*uint" ∨ name = "*uint32" then ("INT UNSIGNED", true)
  else if name = "uint8" then ("TINYINT UNSIGNED", false)
  else if name = "*uint8" then ("TINYINT UNSIGNED", true)
  else if name = "uint16" then ("SMALLINT UNSIGNED", false)
  else if name = "*uint16" then ("SMALLINT UNSIGNED", true)
  else if name = "uint64" then ("BIGINT UNSIGNED", false)
  else if name = "*uint64" then ("BIGINT UNSIGNED", true)
  else if name = "float32" then ("FLOAT", false)
  else if name = "*float32" ∨ name = "sql.NullFloat32" then ("FLOAT", true)
  else if name = "float64" then ("DOUBLE", false)
  else if name = "*float64" ∨ name = "sql.NullFloat64" then ("DOUBLE", true)
  else if name = "time.Time" then ("DATETIME", false)
  else if name = "*time.Time" then ("DATETIME", true)
  else ("VARCHAR(255)", true)

/-- The method `MySQL.Quote`: wrap in backticks, doubling every backtick. -/
def MySQL.Quote (s : String) : String :=
  "`" ++ String.mk (replaceChar (Char.ofNat 96) [Char.ofNat 96, Char.ofNat 96] s.data) ++ "`"

/-- The method `MySQL.QuoteString`: wrap in single quotes, doubling every single quote. -/
def MySQL.QuoteString (s : String) : String :=
  "'" ++ String.mk (replaceChar (Char.ofNat 39) [Char.ofNat 39, Char.ofNat 39] s.data) ++ "'"

/-- The method `MySQL.AutoIncrement`. -/
def MySQL.AutoIncrement : String := "AUTO_INCREMENT"

/-- The dialect value `&dialect.MySQL{}`. -/
def MySQL.dialect : Dialect :=
  { ColumnType := MySQL.ColumnType
    Quote := MySQL.Quote
    QuoteString := MySQL.QuoteString
    AutoIncrement := MySQL.AutoIncrement }

/-! ## Data model (`column.go`, `table.go`) -/

/-- The struct `Column`: a desired column.  The Go field `Type` is `Typ` here. -/
structure Column where
  Name : String := ""
  Typ : String := ""
  Comment : String := ""
  Unique : Bool := false
  PrimaryKey : Bool := false
  AutoIncrement : Bool := false
  Ignore : Bool := false
  Default : String := ""
  Size : Nat := 0
deriving DecidableEq, Repr

/-- Modelled from the spec: the declaration of `columnSchema` (an observed column) is
outside the given sources; the fields are the thirteen catalog columns that
`getTableColumns` scans into it, the nullable ones as options. -/
structure columnSchema where
  TableName : String := ""
  ColumnName : String := ""
  ColumnDefault : Option String := none
  IsNullable : String := ""
  DataType : String := ""
  CharacterMaximumLength : Option Nat := none
  CharacterOctetLength : Option Nat := none
  NumericPrecision : Option Nat := none
  NumericScale : Option Nat := none
  ColumnType : String := ""
  ColumnKey : String := ""
  Extra : String := ""
  ColumnComment : String := ""
deriving DecidableEq, Repr

/-- Modelled from the spec: the declaration of `Index` is outside the given sources;
the fields are the ones `getIndexMap` and `parseIndexStructTag` set (spec section 3:
name, unique flag, ordered column names).  `ColumnNames` is a Go slice of strings: `none`
is the nil slice, which `ColumnNames` is in `&Index{}` until an `index` option sets it,
and `some l` a slice with the elements `l`, such as `[]string{}`, the result of `append`
and a list of parameters. -/
structure Index where
  Name : String := ""
  Unique : Bool := false
  ColumnNames : Option (List String) := none
deriving DecidableEq, Repr

/-- The elements of the slice `ColumnNames`, as a `range` loop visits them: none for the
nil slice. -/
def Index.columnList (i : Index) : List String := i.ColumnNames.getD []

/-- The function `reflect.DeepEqual` on two slices of strings: both are nil, or both
are not nil and have the same elements in the same order. -/
def deepEqualStrings : Option (List String) → Option (List String) → Bool
  | none, none => true
  | some a, some b => decide (a = b)
  | none, some _ => false
  | some _, none => false

/-- The function `reflect.DeepEqual` on two pointers to `Index`, neither of them nil:
the structs are compared field by field. -/
def deepEqualIndex (a b : Index) : Bool :=
  decide (a.Name = b.Name) && decide (a.Unique = b.Unique) &&
    deepEqualStrings a.ColumnNames b.ColumnNames

/-- The struct `Table`: an observed table. -/
structure Table where
  Name : String := ""
  Columns : List columnSchema := []
  Indexes : List Index := []
deriving DecidableEq, Repr

/-- Parts the sources use but do not contain. `SnakeCase` is the function of the
library `github.com/azer/snakecase`; `hasDifference` is the comparison of an observed
column with a desired one, declared in a file outside the given sources (the spec
leaves its exact predicate open). -/
structure Ext where
  SnakeCase : String → String
  hasDifference : columnSchema → Column → Bool

/-- The function `toSchemaTableName`. -/
def toSchemaTableName (x : Ext) (s : String) : String := x.SnakeCase s

/-- The function `toSchemaFieldName`. -/
def toSchemaFieldName (x : Ext) (s : String) : String := x.SnakeCase s

/-- The method `Table.ColumnMap`: later columns overwrite earlier ones of the same name. -/
def Table.ColumnMap (t : Table) : GoMap columnSchema :=
  t.Columns.foldl (fun m column => m.set column.ColumnName column) GoMap.empty

/-- The method `Table.IndexMap`. -/
def Table.IndexMap (t : Table) : GoMap Index :=
  t.Indexes.foldl (fun m index => m.set index.Name index) GoMap.empty

/-- Modelled from the spec: the method `Index.isPrimaryKey` is declared outside the
given sources; the primary key is the index named `PRIMARY` (spec sections 3, 4.3). -/
def Index.isPrimaryKey (i : Index) : Bool := i.Name = "PRIMARY"

/-- Modelled from the spec: the method `Index.AsCreateTableDefinition` is declared
outside the given sources.  Spec section 4.2: `PRIMARY KEY (<cols>)` when the name is
`PRIMARY`, otherwise `[UNIQUE] INDEX <quoted-name> (<quoted-cols>)`. -/
def Index.AsCreateTableDefinition (i : Index) (d : Dialect) : String :=
  let cols := join (i.columnList.map d.Quote) ","
  if i.isPrimaryKey then "PRIMARY KEY (" ++ cols ++ ")"
  else (if i.Unique then "UNIQUE " else "") ++ "INDEX " ++ d.Quote i.Name ++ " (" ++ cols ++ ")"

/-! ## Column renderer (`migu.go`) -/

/-- The function `formatDefault`. -/
def formatDefault (d : Dialect) (t : String) (defaultValue : String) : String :=
  if t = "string" then d.QuoteString defaultValue else defaultValue

/-- The function `columnSQL`. -/
def columnSQL (x : Ext) (d : Dialect) (f : Column) : String :=
  let (colType, null) := d.ColumnType f.Typ f.Size f.AutoIncrement
  let column := [d.Quote (toSchemaFieldName x f.Name), colType]
  let column := if !null then column ++ ["NOT NULL"] else column
  let column := if f.Default ≠ "" then column ++ ["DEFAULT", formatDefault d f.Typ f.Default] else column
  let column := if f.PrimaryKey then column ++ ["PRIMARY KEY"] else column
  let column := if f.AutoIncrement ∧ d.AutoIncrement ≠ "" then column ++ [d.AutoIncrement] else column
  let column := if f.Unique then column ++ ["UNIQUE"] else column
  let column := if f.Comment ≠ "" then column ++ ["COMMENT", d.QuoteString f.Comment] else column
  join column " "

/-! ## String helpers of the tag mini-language -/

/-- The function `strings.Split(s, sep)` for a one-character `sep`, on character lists:
the pieces between the separators; an input without separator is one piece. -/
def splitChars (sep : Char) : List Char → List (List Char)
  | [] => [[]]
  | c :: cs =>
    if c = sep then [] :: splitChars sep cs
    else
      match splitChars sep cs with
      | [] => [[c]]
      | p :: ps => (c :: p) :: ps

/-- The function `strings.Split` for a one-character separator. -/
def split (s : String) (sep : Char) : List String := (splitChars sep s.data).map String.mk

/-- The call `strings.SplitN(s, sep, 2)` on character lists: the text before the first
separator, and the text after it when there is a separator. -/
def splitN2Chars (sep : Char) : List Char → List Char × Option (List Char)
  | [] => ([], none)
  | c :: cs =>
    if c = sep then ([], some cs)
    else
      let r := splitN2Chars sep cs
      (c :: r.1, r.2)

/-- The call `strings.SplitN(s, sep, 2)`: element 0, and element 1 when present. -/
def splitN2 (s : String) (sep : Char) : String × Option String :=
  let r := splitN2Chars sep s.data
  (String.mk r.1, r.2.map String.mk)

/-- The function `unicode.IsSpace`. -/
def isSpace (c : Char) : Bool :=
  let n := c.toNat
  n = 9 || n = 10 || n = 11 || n = 12 || n = 13 || n = 32 || n = 0x85 || n = 0xA0 ||
  n = 0x1680 || (0x2000 ≤ n && n ≤ 0x200A) || n = 0x2028 || n = 0x2029 || n = 0x202F ||
  n = 0x205F || n = 0x3000

/-- The function `strings.TrimSpace`. -/
def trimSpace (s : String) : String :=
  String.mk ((s.data.dropWhile isSpace).reverse.dropWhile isSpace).reverse

/-- The function `strings.ToLower`, on the ASCII letters.  Its only use compares the
result with `1`, `true` and `on`, and no letter outside ASCII lower-cases to a letter of
these words. -/
def toLower (s : String) : String := String.mk (s.data.map Char.toLower)

/-- The digit loop of `strconv.ParseUint(s, 10, 64)`: `n` is the value read so far. -/
def parseUintLoop (s0 : String) : List Char → Nat → Res Nat
  | [], n => .ok n
  | c :: cs, n =>
    if 48 ≤ c.toNat ∧ c.toNat ≤ 57 then
      if n ≥ (2 ^ 64 - 1) / 10 + 1 then
        .err ("strconv.ParseUint: parsing \"" ++ s0 ++ "\": value out of range")
      else
        let n1 := n * 10 + (c.toNat - 48)
        if n1 > 2 ^ 64 - 1 then
          .err ("strconv.ParseUint: parsing \"" ++ s0 ++ "\": value out of range")
        else parseUintLoop s0 cs n1
    else .err ("strconv.ParseUint: parsing \"" ++ s0 ++ "\": invalid syntax")

/-- The call `strconv.ParseUint(s, 10, 64)`.  The message quotes `s` as it is (no
escaping of special characters). -/
def parseUint (s : String) : Res Nat :=
  if s = "" then .err ("strconv.ParseUint: parsing \"" ++ s ++ "\": invalid syntax")
  else parseUintLoop s s.data 0

/-- Modelled from the spec: the helper `containsString` is declared outside the given
sources; by its name and its use in `isSizeRequiredType` it tests membership. -/
def containsString (list : List String) (s : String) : Bool := list.contains s

/-! ## Tag constants and column tags (`migu.go`, `table_ast.go`) -/

/-- The constant `tagDefault`. -/
def tagDefault : String := "default"
/-- The constant `tagPrimaryKey`. -/
def tagPrimaryKey : String := "pk"
/-- The constant `tagAutoIncrement`. -/
def tagAutoIncrement : String := "autoincrement"
/-- The constant `tagUnique`. -/
def tagUnique : String := "unique"
/-- The constant `tagSize`. -/
def tagSize : String := "size"
/-- The constant `tagIndex`. -/
def tagIndex : String := "index"
/-- The constant `tagIgnore`. -/
def tagIgnore : String := "-"
/-- The constant `tagSeparater`, a string of one character. -/
def tagSeparater : Char := ';'

/-- The function `normalizeBoolDefaultTagTo0or1`. -/
def normalizeBoolDefaultTagTo0or1 (s : String) : String :=
  let l := toLower s
  if l = "1" ∨ l = "true" ∨ l = "on" then "1" else "0"

/-- The function `isSizeRequiredType`. -/
def isSizeRequiredType (typeName : String) : Bool :=
  containsString ["string", "*string", "sql.NullString"] typeName

/-- One iteration of the option loop of `parseStructTag`: the column after the option
`opt`, or the error the function returns. -/
def parseStructTag.option (f : Column) (opt : String) : Res Column :=
  let optval := splitN2 opt ':'
  if optval.1 = tagDefault then
    match optval.2 with
    | some v =>
      if f.Typ = "bool" then .ok { f with Default := normalizeBoolDefaultTagTo0or1 v }
      else .ok { f with Default := v }
    | none => .ok f
  else if optval.1 = tagPrimaryKey then .ok { f with PrimaryKey := true }
  else if optval.1 = tagAutoIncrement then .ok { f with AutoIncrement := true }
  else if optval.1 = tagUnique then .ok { f with Unique := true }
  else if optval.1 = tagIgnore then .ok { f with Ignore := true }
  else if optval.1 = tagSize then
    match optval.2 with
    | none => .err "`size` tag must specify the parameter"
    | some v =>
      match parseUint v with
      | .ok size => .ok { f with Size := size }
      | .err e => .err e
      | .panic e => .panic e
  else .err ("unknown option: `" ++ opt ++ "'")

/-- The option loop of `parseStructTag`. -/
def parseStructTag.loop : Column → List String → Res Column
  | f, [] => .ok f
  | f, opt :: rest =>
    match parseStructTag.option f opt with
    | .ok f' => parseStructTag.loop f' rest
    | .err e => .err e
    | .panic e => .panic e

/-- The function `parseStructTag`; `migu` is `tag.Get("migu")`.  The result is the
column as the function leaves it, or its error. -/
def parseStructTag (f : Column) (migu : String) : Res Column :=
  if migu = "" then .ok f
  else parseStructTag.loop f (split migu tagSeparater)

/-! ## Declarations of the desired schema (`go/ast` as far as the sources read it) -/

/-- Type expression of a struct field, by the node kinds `detectTypeName` tells apart;
`Other` is any other node, with its Go type name as `%T` prints it. -/
inductive Expr where
  | Ident (Name : String)
  | SelectorExpr (X : Expr) (Sel : String)
  | StarExpr (X : Expr)
  | Other (goType : String)
deriving DecidableEq, Repr

/-- Tag literal of a struct field as `strconv.Unquote` and `reflect.StructTag.Get` see
it: `bad msg` when unquoting fails with `msg`, else `migu v` where `v` is the value of
the key `migu` (empty when the key is absent). -/
inductive TagLit where
  | bad (msg : String)
  | migu (value : String)
deriving DecidableEq, Repr

/-- The node `ast.Field`: the declared names, the type expression, the tag literal
when there is one, and the text of the trailing comment (`Comment.Text()`) when there
is one. The Go field `Type` is `Typ` here. -/
structure Field where
  Names : List String := []
  Typ : Expr
  Tag : Option TagLit := none
  Comment : Option String := none
deriving DecidableEq, Repr

/-- The struct `TableAST`; a struct type is the list of its fields (`Fields.List`). -/
structure TableAST where
  Name : String := ""
  ColumnAST : Option (List Field) := none
  IndexAST : Option (List Field) := none
deriving DecidableEq, Repr

/-- The function `detectTypeName` on a type expression. -/
def detectTypeName : Expr → Res String
  | .Ident name => .ok name
  | .SelectorExpr X Sel =>
    match detectTypeName X with
    | .ok name => .ok (name ++ "." ++ Sel)
    | .err e => .err e
    | .panic e => .panic e
  | .StarExpr X =>
    match detectTypeName X with
    | .ok name => .ok ("*" ++ name)
    | .err e => .err e
    | .panic e => .panic e
  | .Other goType => .err ("migu: BUG: unknown type " ++ goType)

/-- The function `detectTypeName` on a field: the case `*ast.Field`. -/
def detectTypeName.ofField (fld : Field) : Res String := detectTypeName fld.Typ

/-- The function `newColumnFromAST`. -/
def newColumnFromAST (typeName : String) (astF : Field) : Res Column :=
  let ret : Column := { Typ := typeName }
  let parsed : Res Column :=
    match astF.Tag with
    | none => .ok ret
    | some (.bad msg) => .err msg
    | some (.migu v) => parseStructTag ret v
  match parsed with
  | .err e => .err e
  | .panic e => .panic e
  | .ok ret =>
    let ret :=
      if isSizeRequiredType ret.Typ then
        (if ret.Size = 0 then { ret with Size := 255 } else ret)
      else { ret with Size := 0 }
    let ret :=
      match astF.Comment with
      | some text => { ret with Comment := trimSpace text }
      | none => ret
    .ok ret

/-- The options of `parseIndexStructTag` read so far: the index and the flag
`isPrimaryKey`. -/
structure IndexTagState where
  index : Index := {}
  isPrimaryKey : Bool := false
deriving DecidableEq, Repr

/-- One iteration of the option loop of `parseIndexStructTag`.  The result of `SplitN`
always has element 0, so the guard `len(optval) < 1` of the source never fires; the guard
`len(params) < 1` is kept as written. -/
def parseIndexStructTag.option (st : IndexTagState) (opt : String) : Res IndexTagState :=
  let optval := splitN2 opt ':'
  if optval.1 = tagPrimaryKey then .ok { st with isPrimaryKey := true }
  else if optval.1 = tagIndex then
    match optval.2 with
    | none =>
      .err ("migu: parseIndexStructTag: '" ++ tagIndex ++ "' tag must specify parameters")
    | some v =>
      let params := split v ','
      if params.length < 1 then
        .err ("migu: parseIndexStructTag: '" ++ tagIndex ++
          "' tag must specify one column at least")
      else if params.length = 1 then
        .ok { st with index := { st.index with Name := params.headD "", ColumnNames := some params } }
      else
        .ok { st with index := { st.index with Name := params.headD "", ColumnNames := some params.tail } }
  else if optval.1 = tagUnique then .ok { st with index := { st.index with Unique := true } }
  else .err ("migu: parseIndexStructTag: unknown option: `" ++ opt ++ "'")

/-- The option loop of `parseIndexStructTag`. -/
def parseIndexStructTag.loop : IndexTagState → List String → Res IndexTagState
  | st, [] => .ok st
  | st, opt :: rest =>
    match parseIndexStructTag.option st opt with
    | .ok st' => parseIndexStructTag.loop st' rest
    | .err e => .err e
    | .panic e => .panic e

/-- The function `parseIndexStructTag`; `migu` is `tag.Get("migu")`. -/
def parseIndexStructTag (migu : String) : Res Index :=
  if migu = "" then .err "migu: parseIndexStructTag: index tag must not be empty"
  else
    match parseIndexStructTag.loop {} (split migu tagSeparater) with
    | .err e => .err e
    | .panic e => .panic e
    | .ok st =>
      if st.isPrimaryKey then .ok { st.index with Name := "PRIMARY", Unique := true }
      else .ok st.index

namespace TableAST

/-- The method `HasSchema`. -/
def HasSchema (t : TableAST) : Bool := t.ColumnAST.isSome

/-- The loop of `Columns` over the fields; `models` is the slice built so far. -/
def Columns.loop (x : Ext) : List Field → List Column → Res (List Column)
  | [], models => .ok models
  | fld :: rest, models =>
    match detectTypeName.ofField fld with
    | .err e => .err ("migu: TableAST.Columns error: " ++ e)
    | .panic e => .panic e
    | .ok typeName =>
      match newColumnFromAST typeName fld with
      | .err e => .err ("migu: TableAST.Columns error: " ++ e)
      | .panic e => .panic e
      | .ok f =>
        if f.Ignore then Columns.loop x rest models
        else
          Columns.loop x rest
            (models ++ fld.Names.map (fun ident => { f with Name := toSchemaFieldName x ident }))

/-- The method `Columns`. -/
def Columns (x : Ext) (t : TableAST) : Res (List Column) :=
  match t.ColumnAST with
  | none => .err ("migu: TableAST.Columns error: " ++ t.Name ++ " schema is empty")
  | some fields => Columns.loop x fields []

/-- The loop of `Indexes` over the fields; `indexes` is the slice built so far. -/
def Indexes.loop : List Field → List Index → Res (List Index)
  | [], indexes => .ok indexes
  | fld :: rest, indexes =>
    match fld.Tag with
    | none => Indexes.loop rest indexes
    | some (.bad msg) => .err ("migu: TableAST.Indexes error. " ++ msg)
    | some (.migu v) =>
      match parseIndexStructTag v with
      | .err e => .err ("migu: TableAST.Indexes error. " ++ e)
      | .panic e => .panic e
      | .ok index => Indexes.loop rest (indexes ++ [index])

/-- The method `Indexes`. -/
def Indexes (t : TableAST) : Res (List Index) :=
  match t.IndexAST with
  | none => .ok []
  | some fields => Indexes.loop fields []

/-- The method `MustColumns`: panics with the error of `Columns`. -/
def MustColumns (x : Ext) (t : TableAST) : Res (List Column) :=
  match t.Columns x with
  | .ok c => .ok c
  | .err e => .panic e
  | .panic e => .panic e

/-- The method `MustIndexes`: panics with the error of `Indexes`. -/
def MustIndexes (t : TableAST) : Res (List Index) :=
  match t.Indexes with
  | .ok i => .ok i
  | .err e => .panic e
  | .panic e => .panic e

/-- The method `ColumnMap`. -/
def ColumnMap (x : Ext) (t : TableAST) : Res (GoMap Column) :=
  match t.MustColumns x with
  | .ok columns => .ok (columns.foldl (fun m column => m.set column.Name column) GoMap.empty)
  | .err e => .err e
  | .panic e => .panic e

/-- The method `IndexMap`. -/
def IndexMap (t : TableAST) : Res (GoMap Index) :=
  match t.MustIndexes with
  | .ok indexes => .ok (indexes.foldl (fun m index => m.set index.Name index) GoMap.empty)
  | .err e => .err e
  | .panic e => .panic e

end TableAST

/-! ## Statement generation (`table_ast.go`) -/

namespace TableAST

/-- The method `indexDefinitions`. -/
def indexDefinitions (d : Dialect) (t : TableAST) : Res (List String) :=
  match t.Indexes with
  | .err e => .err ("migu: TableAST.indexDefinitions error. " ++ e)
  | .panic e => .panic e
  | .ok indexes =>
    .ok (indexes.foldl (fun defs index => defs ++ [index.AsCreateTableDefinition d]) [])

/-- The method `CreateTableQuery`. -/
def CreateTableQuery (x : Ext) (d : Dialect) (t : TableAST) : Res (List String) :=
  match t.Columns x with
  | .err e => .err ("migu: TableAST.CreateTableQuery error. " ++ e)
  | .panic e => .panic e
  | .ok model =>
    let columns := model.map (columnSQL x d)
    match t.indexDefinitions d with
    | .err e => .err ("migu: TableAST.CreateTableQuery error. " ++ e)
    | .panic e => .panic e
    | .ok indexes =>
      let createDefinitions := columns ++ indexes
      .ok ["CREATE TABLE " ++ d.Quote (toSchemaTableName x t.Name) ++ " (\n  " ++
        join createDefinitions ", " ++ "\n)"]

/-- The loop of `GenerateAddFieldSQLs`: `i` is the index of the column at the head of
the remaining columns, `sqls` the slice built so far. -/
def GenerateAddFieldSQLs.loop (x : Ext) (d : Dialect) (currentColumMap : GoMap columnSchema)
    (expectedColumns : List Column) : Nat → List Column → List String → Res (List String)
  | _, [], sqls => .ok sqls
  | i, column :: rest, sqls =>
    if (currentColumMap.get? column.Name).isSome then
      GenerateAddFieldSQLs.loop x d currentColumMap expectedColumns (i + 1) rest sqls
    else if i > 0 then
      match expectedColumns[i - 1]? with
      | none => .panic "runtime error: index out of range"
      | some prev =>
        GenerateAddFieldSQLs.loop x d currentColumMap expectedColumns (i + 1) rest
          (sqls ++ ["ADD " ++ columnSQL x d column ++ " " ++ ("AFTER " ++ d.Quote prev.Name)])
    else
      GenerateAddFieldSQLs.loop x d currentColumMap expectedColumns (i + 1) rest
        (sqls ++ ["ADD " ++ columnSQL x d column ++ " " ++ "FIRST"])

/-- The method `GenerateAddFieldSQLs`. -/
def GenerateAddFieldSQLs (x : Ext) (d : Dialect) (t : TableAST)
    (currentColumMap : GoMap columnSchema) : Res (List String) :=
  match t.MustColumns x with
  | .err e => .err e
  | .panic e => .panic e
  | .ok expectedColumns =>
    GenerateAddFieldSQLs.loop x d currentColumMap expectedColumns 0 expectedColumns []

/-- The method `GenerateDropFieldSQLs`. -/
def GenerateDropFieldSQLs (x : Ext) (ρ : IterOrder) (d : Dialect) (t : TableAST)
    (currentColumMap : GoMap columnSchema) : Res (List String) :=
  match t.ColumnMap x with
  | .err e => .err e
  | .panic e => .panic e
  | .ok newColumnMap =>
    .ok ((currentColumMap.range ρ).foldl
      (fun sqls entry =>
        if (newColumnMap.get? entry.1).isSome then sqls
        else sqls ++ ["DROP " ++ d.Quote (toSchemaTableName x entry.1)])
      [])

/-- The method `GenerateModifyFieldSQLs`. -/
def GenerateModifyFieldSQLs (x : Ext) (d : Dialect) (t : TableAST)
    (currentColumMap : GoMap columnSchema) : Res (List String) :=
  match t.MustColumns x with
  | .err e => .err e
  | .panic e => .panic e
  | .ok columns =>
    .ok (columns.foldl
      (fun sqls column =>
        match currentColumMap.get? column.Name with
        | none => sqls
        | some currentColum =>
          if !x.hasDifference currentColum column then sqls
          else sqls ++ ["MODIFY " ++ columnSQL x d column])
      [])

/-- The method `GenerateAddIndexSQLs`. -/
def GenerateAddIndexSQLs (ρ : IterOrder) (d : Dialect) (t : TableAST)
    (currentIndexMap : GoMap Index) : Res (List String) :=
  match t.IndexMap with
  | .err e => .err e
  | .panic e => .panic e
  | .ok newIndexMap =>
    .ok ((newIndexMap.range ρ).foldl
      (fun sqls entry =>
        match currentIndexMap.get? entry.1 with
        | some currentIndex =>
          if deepEqualIndex entry.2 currentIndex then sqls
          else sqls ++ ["ADD " ++ entry.2.AsCreateTableDefinition d]
        | none => sqls ++ ["ADD " ++ entry.2.AsCreateTableDefinition d])
      [])

/-- The method `GenerateDropIndexSQLs`. -/
def GenerateDropIndexSQLs (ρ : IterOrder) (d : Dialect) (t : TableAST)
    (currentIndexMap : GoMap Index) : Res (List String) :=
  match t.IndexMap with
  | .err e => .err e
  | .panic e => .panic e
  | .ok newIndexMap =>
    .ok ((currentIndexMap.range ρ).foldl
      (fun sqls entry =>
        let dropped :=
          if entry.2.isPrimaryKey then sqls ++ ["DROP PRIMARY KEY"]
          else sqls ++ ["DROP INDEX " ++ d.Quote entry.1]
        match newIndexMap.get? entry.1 with
        | some newIndex => if deepEqualIndex entry.2 newIndex then sqls else dropped
        | none => dropped)
      [])

/-- The five clause lists of `AlterTableQueries`, in the order the method computes
them, or the first failure. -/
def AlterTableQueries.plan (x : Ext) (ρ : IterOrder) (d : Dialect) (t : TableAST)
    (currentTable : Table) :
    Res (List String × List String × List String × List String × List String) :=
  let currentColumMap := currentTable.ColumnMap
  let currentIndexMap := currentTable.IndexMap
  match t.GenerateAddFieldSQLs x d currentColumMap with
  | .err e => .err ("migu: TableAST.AlterTableQueries error: " ++ e)
  | .panic e => .panic e
  | .ok addSQLs =>
  match t.GenerateDropFieldSQLs x ρ d currentColumMap with
  | .err e => .err ("migu: TableAST.AlterTableQueries error: " ++ e)
  | .panic e => .panic e
  | .ok dropSQLs =>
  match t.GenerateModifyFieldSQLs x d currentColumMap with
  | .err e => .err ("migu: TableAST.AlterTableQueries error: " ++ e)
  | .panic e => .panic e
  | .ok modifySQLs =>
  match t.GenerateDropIndexSQLs ρ d currentIndexMap with
  | .err e => .err ("migu: TableAST.AlterTableQueries error: " ++ e)
  | .panic e => .panic e
  | .ok dropIndexSQLs =>
  match t.GenerateAddIndexSQLs ρ d currentIndexMap with
  | .err e => .err ("migu: TableAST.AlterTableQueries error: " ++ e)
  | .panic e => .panic e
  | .ok addIndexSQLs => .ok (addSQLs, dropSQLs, modifySQLs, dropIndexSQLs, addIndexSQLs)

/-- The method `AlterTableQueries`. -/
def AlterTableQueries (x : Ext) (ρ : IterOrder) (d : Dialect) (t : TableAST)
    (currentTable : Table) : Res (List String) :=
  let tableName := toSchemaTableName x t.Name
  match AlterTableQueries.plan x ρ d t currentTable with
  | .err e => .err e
  | .panic e => .panic e
  | .ok (addSQLs, dropSQLs, modifySQLs, dropIndexSQLs, addIndexSQLs) =>
    let migrations : List String := []
    let migrations := migrations ++ addSQLs
    let migrations := migrations ++ dropSQLs
    let migrations := migrations ++ modifySQLs
    let migrations := migrations ++ dropIndexSQLs
    let migrations := migrations ++ addIndexSQLs
    if migrations.length ≤ 0 then .ok []
    else .ok ["ALTER TABLE " ++ d.Quote tableName ++ " " ++ join migrations ", "]

end TableAST

/-! ## The diff (`migu.go`) -/

/-- The function `sortTableASTNames`. -/
def sortTableASTNames (tableASTMap : GoMap TableAST) : List String :=
  sortStrings tableASTMap.keys

/-- State of the first loop of `Diff`: the two maps and the statements so far. -/
structure DiffState where
  expectedTableASTMap : GoMap TableAST
  currentTableMap : GoMap Table
  migrations : List String
deriving DecidableEq, Repr

/-- The first loop of `Diff`, over the sorted names of the desired tables.  A name
without entry in the desired map would make `tableAST` nil. -/
def Diff.loop (x : Ext) (ρ : IterOrder) (d : Dialect) : List String → DiffState → Res DiffState
  | [], st => .ok st
  | name :: names, st =>
    match st.expectedTableASTMap.get? name with
    | none => .panic "runtime error: invalid memory address or nil pointer dereference"
    | some tableAST =>
      let queries :=
        match st.currentTableMap.get? name with
        | none => tableAST.CreateTableQuery x d
        | some currentTable => tableAST.AlterTableQueries x ρ d currentTable
      match queries with
      | .err e => .err ("migu: Diff error. " ++ e)
      | .panic e => .panic e
      | .ok queries =>
        Diff.loop x ρ d names
          { expectedTableASTMap := st.expectedTableASTMap.delete name
            currentTableMap := st.currentTableMap.delete name
            migrations := st.migrations ++ queries }

/-- The function `Diff`, from the two schema maps on: `expectedTableASTMap` is what
`newTableASTsFromFile` returned and `currentTableMap` what `newTablesFromDB` returned
(reading the file and the database is outside the embedding).  The dialect is MySQL. -/
def Diff (x : Ext) (ρ : IterOrder) (expectedTableASTMap : GoMap TableAST)
    (currentTableMap : GoMap Table) : Res (List String) :=
  let d := MySQL.dialect
  match Diff.loop x ρ d (sortTableASTNames expectedTableASTMap)
      { expectedTableASTMap := expectedTableASTMap
        currentTableMap := currentTableMap
        migrations := [] } with
  | .err e => .err e
  | .panic e => .panic e
  | .ok st =>
    .ok ((st.currentTableMap.range ρ).foldl
      (fun migrations entry =>
        migrations ++ ["DROP TABLE " ++ d.Quote (toSchemaTableName x entry.1)])
      st.migrations)

/-! ## The clauses of the ALTER plan in the words of the spec -/

/-- The positional clause of an added column: `FIRST` for the first desired column,
else `AFTER` and the quoted name of the desired column right before it. -/
def positionClause (d : Dialect) : Option Column → String
  | none => "FIRST"
  | some prev => "AFTER " ++ d.Quote prev.Name

/-- The ADD clauses as the spec words them (section 4.3, Add): one clause for every
desired column whose name is absent from the observed columns, in declared order;
`prev` is the desired column right before the head of the list, if any. -/
def addFieldClauses (x : Ext) (d : Dialect) (currentColumMap : GoMap columnSchema) :
    Option Column → List Column → List String
  | _, [] => []
  | prev, column :: rest =>
    (if (currentColumMap.get? column.Name).isSome then []
      else ["ADD " ++ columnSQL x d column ++ " " ++ positionClause d prev]) ++
      addFieldClauses x d currentColumMap (some column) rest

/-- A desired column needs a MODIFY clause when the observed columns have one of its
name and `hasDifference` holds of the two (section 4.3, Modify). -/
def needsModify (x : Ext) (currentColumMap : GoMap columnSchema) (column : Column) : Bool :=
  match currentColumMap.get? column.Name with
  | some currentColum => x.hasDifference currentColum column
  | none => false

/-- The drop clause of an observed index (section 4.3, Index drop): the literal
`DROP PRIMARY KEY` for the index named `PRIMARY`, else `DROP INDEX` and its quoted name. -/
def dropIndexClause (d : Dialect) (index : Index) : String :=
  if index.Name = "PRIMARY" then "DROP PRIMARY KEY" else "DROP INDEX " ++ d.Quote index.Name

/-! ## The type names of the MySQL dialect -/

/-- The logical type names `MySQL.ColumnType` recognises: the case labels of its
switch. -/
def MySQL.recognisedTypes : List String :=
  [ "string", "sql.NullString", "*string", "int", "int32", "*int", "*int32", "int8", "*int8",
    "bool", "*bool", "sql.NullBool", "int16", "*int16", "int64", "sql.NullInt64", "*int64",
    "uint", "uint32", "*uint", "*uint32", "uint8", "*uint8", "uint16", "*uint16", "uint64",
    "*uint64", "float32", "*float32", "sql.NullFloat32", "float64", "*float64",
    "sql.NullFloat64", "time.Time", "*time.Time" ]

/-- The recognised non-pointer base types: the recognised names that are neither a
pointer form nor an `sql.Null` wrapper. -/
def MySQL.baseTypes : List String :=
  [ "string", "int", "int32", "int8", "bool", "int16", "int64", "uint", "uint32", "uint8",
    "uint16", "uint64", "float32", "float64", "time.Time" ]

/-! ## Reading a quoted text back -/

/-- Replace each doubled quote character `q` by a single one, from left to right. -/
def undoubleChars (q : Char) : List Char → List Char
  | [] => []
  | [c] => [c]
  | c :: c2 :: rest =>
    if c = q ∧ c2 = q then q :: undoubleChars q rest
    else c :: undoubleChars q (c2 :: rest)

/-- Strip the outer quote characters (the first and the last character) of a quoted
text and replace each doubled quote character by a single one. -/
def unquoteWith (q : Char) (s : String) : String :=
  String.mk (undoubleChars q s.data.tail.dropLast)

/-- Every quote character `q` of the text stands in a pair: read from left to right,
each `q` is followed at once by a second `q` that belongs to it. -/
def quotesDoubled (q : Char) : List Char → Bool
  | [] => true
  | [c] => !decide (c = q)
  | c :: c2 :: rest =>
    if c = q then decide (c2 = q) && quotesDoubled q rest
    else quotesDoubled q (c2 :: rest)

/-! ## The column options in the words of the spec -/

/-- The default values that are true for a boolean column: the strings whose lower-cased
form is `1`, `true` or `on`, each written out. -/
def boolTrueLiterals : List String :=
  [ "1",
    "true", "truE", "trUe", "trUE", "tRue", "tRuE", "tRUe", "tRUE",
    "True", "TruE", "TrUe", "TrUE", "TRue", "TRuE", "TRUe", "TRUE",
    "on", "oN", "On", "ON" ]

/-! ## The columns of a declaration in the words of the spec -/

/-- The desired columns of parsed fields (spec sections 3 and 6): in declared order, for
every field that is not ignored, one column per declared name, named by the schema form
of that name. -/
def declaredColumns (x : Ext) (parsed : List (Field × Column)) : List Column :=
  parsed.flatMap (fun p =>
    if p.2.Ignore then []
    else p.1.Names.map (fun ident => { p.2 with Name := toSchemaFieldName x ident }))

/-! ## Applying the diff (`migu.go`; `database/sql` as far as `Sync` calls it) -/

/-- A call that `Sync` makes on the database handle or on the transaction, in the
words of the source: `db.Begin()`, `tx.Exec(sql)`, `tx.Rollback()`, `tx.Commit()`. -/
inductive TxEvent where
  | Begin
  | Exec (sql : String)
  | Rollback
  | Commit
deriving DecidableEq, Repr

/-- The database handle `*sql.DB` as far as `Sync` reads it (the package `database/sql`
is outside the sources): the error of `db.Begin()`, and the errors of `tx.Exec(sql)`
and `tx.Commit()` given the calls made before; `none` is the nil error.  The result of
`tx.Rollback()` is dropped by the source. -/
structure DB where
  Begin : Option String
  Exec : List TxEvent → String → Option String
  Commit : List TxEvent → Option String

/-- The statement loop of `Sync`: `log` holds the calls made so far.  The result is the
log when the loop ends and the error with which the loop returned, if it did. -/
def Sync.loop (db : DB) : List String → List TxEvent → List TxEvent × Option String
  | [], log => (log, none)
  | sql :: rest, log =>
    match db.Exec log sql with
    | some e => (log ++ [.Exec sql, .Rollback], some e)
    | none => Sync.loop db rest (log ++ [.Exec sql])

/-- The function `Sync` from the result of its call of `Diff` on: the calls made on the
database, in order, and the returned error (`ok` is nil). -/
def Sync.apply (db : DB) (diff : Res (List String)) : List TxEvent × Res Unit :=
  match diff with
  | .err e => ([], .err e)
  | .panic e => ([], .panic e)
  | .ok sqls =>
    match db.Begin with
    | some e => ([.Begin], .err e)
    | none =>
      match Sync.loop db sqls [.Begin] with
      | (log, some e) => (log, .err e)
      | (log, none) =>
        (log ++ [.Commit],
          match db.Commit log with
          | some e => .err e
          | none => .ok ())

/-- The function `Sync`, from the two schema maps on, as `Diff`. -/
def Sync (x : Ext) (ρ : IterOrder) (db : DB) (expectedTableASTMap : GoMap TableAST)
    (currentTableMap : GoMap Table) : List TxEvent × Res Unit :=
  Sync.apply db (Diff x ρ expectedTableASTMap currentTableMap)

/-! ## The index options in the words of the spec -/

/-- The option keys that `parseIndexStructTag` knows. -/
def indexOptionKeys : List String := [tagPrimaryKey, tagIndex, tagUnique]

/-- An index option that the spec calls an error: its key is unknown, or it is an `index`
option without parameter list. -/
def badIndexOption (opt : String) : Bool :=
  !((splitN2 opt ':').1 ∈ indexOptionKeys) ||
    (decide ((splitN2 opt ':').1 = tagIndex) && (splitN2 opt ':').2.isNone)

/-- The error text of the guard `len(params) < 1` of `parseIndexStructTag`. -/
def noColumnError : String :=
  "migu: parseIndexStructTag: 'index' tag must specify one column at least"

/-! ## Instances for concrete evaluation -/

/-- The character loop of `SnakeCase`; `prev` is the character before the head. -/
def SnakeCase.chars : Option Char → List Char → List Char
  | _, [] => []
  | prev, c :: cs =>
    let nextLower := match cs with
      | n :: _ => n.isLower
      | [] => false
    let underscore := match prev with
      | none => false
      | some p => c.isUpper && (nextLower || p.isLower)
    (if underscore then ['_', c.toLower] else [c.toLower]) ++ SnakeCase.chars (some c) cs

/-- A model of `snakecase.SnakeCase` of the library `github.com/azer/snakecase`, for
names of ASCII letters and digits: every letter is lower-cased, and an underscore goes
before an upper-case letter that is not the first character and that follows a
lower-case letter or precedes one.  Names with an underscore before an upper-case letter
and names with letters outside ASCII are not modelled.  It instantiates `Ext.SnakeCase`
where a statement is evaluated on concrete names. -/
def SnakeCase (s : String) : String := String.mk (SnakeCase.chars none s.data)

/-- An instance of the column comparison for concrete evaluation: an observed
character column differs from the desired one when its `CHARACTER_MAXIMUM_LENGTH` is
not the desired size. -/
def sizeDifference (currentColum : columnSchema) (column : Column) : Bool :=
  match currentColum.CharacterMaximumLength with
  | some n => n != column.Size
  | none => false

/-- The instance of `Ext` used where a statement is evaluated on concrete input. -/
def Ext.sample : Ext := { SnakeCase := Migu.SnakeCase, hasDifference := sizeDifference }

/-- The declaration
`type User struct { ID int "migu:autoincrement;pk"; Name string "migu:size:50" }`,
without index struct. -/
def userAST : TableAST :=
  { Name := "User"
    ColumnAST := some
      [ { Names := ["ID"], Typ := .Ident "int", Tag := some (.migu "autoincrement;pk") },
        { Names := ["Name"], Typ := .Ident "string", Tag := some (.migu "size:50") } ] }

/-- The observed table `user` with the columns `id` and `name VARCHAR(100)`. -/
def userTable100 : Table :=
  { Name := "user"
    Columns :=
      [ { TableName := "user", ColumnName := "id", DataType := "int" },
        { TableName := "user", ColumnName := "name", DataType := "varchar",
          CharacterMaximumLength := some 100 } ] }

/-- The declaration `type Event struct { CreatedAt time.Time; ID int }`. -/
def eventAST : TableAST :=
  { Name := "Event"
    ColumnAST := some
      [ { Names := ["CreatedAt"], Typ := .SelectorExpr (.Ident "time") "Time" },
        { Names := ["ID"], Typ := .Ident "int" } ] }

/-- The observed table `event` whose only column is `id`. -/
def eventTable : Table :=
  { Name := "event", Columns := [ { TableName := "event", ColumnName := "id", DataType := "int" } ] }

/-- The declaration `User` together with
`type UserIndex struct { PK int "migu:pk;index:id"; Name string "migu:index:idx_name,name;unique" }`. -/
def userIndexedAST : TableAST :=
  { userAST with
    IndexAST := some
      [ { Names := ["PK"], Typ := .Ident "int", Tag := some (.migu "pk;index:id") },
        { Names := ["Name"], Typ := .Ident "string",
          Tag := some (.migu "index:idx_name,name;unique") } ] }

/-- The observed table `user` with the indexes `PRIMARY (id)`, a non-unique
`idx_name (name)` and `idx_old (name, id)`. -/
def userIndexedTable : Table :=
  { Name := "user"
    Columns :=
      [ { TableName := "user", ColumnName := "id", DataType := "int" },
        { TableName := "user", ColumnName := "name", DataType := "varchar",
          CharacterMaximumLength := some 50 } ]
    Indexes :=
      [ { Name := "PRIMARY", Unique := true, ColumnNames := some ["id"] },
        { Name := "idx_name", Unique := false, ColumnNames := some ["name"] },
        { Name := "idx_old", Unique := false, ColumnNames := some ["name", "id"] } ] }

/-- The observed table `user` with the primary key index `PRIMARY (id)` only. -/
def userPrimaryTable : Table :=
  { Name := "user"
    Columns :=
      [ { TableName := "user", ColumnName := "id", DataType := "int" },
        { TableName := "user", ColumnName := "name", DataType := "varchar",
          CharacterMaximumLength := some 50 } ]
    Indexes := [ { Name := "PRIMARY", Unique := true, ColumnNames := some ["id"] } ] }

/-- A desired schema with the declarations `User` and `Event`, keyed by their table
names as `newTableASTsFromFile` keys them. -/
def shopExpected : GoMap TableAST := ⟨[("user", userAST), ("event", eventAST)]⟩

/-- An observed schema with the tables `user`, `zebra` and `audit`. -/
def shopCurrent : GoMap Table :=
  ⟨[("user", userTable100), ("zebra", { Name := "zebra" }), ("audit", { Name := "audit" })]⟩

/-- The declaration `type WidgetIndex struct {}` without a struct `Widget`: a desired
table that has an index struct but no column struct. -/
def widgetIndexOnlyAST : TableAST := { Name := "Widget", IndexAST := some [] }

/-- The observed table `user` as the declarations `User` and `UserIndex` describe it:
columns `id` and `name VARCHAR(50)`, indexes `PRIMARY (id)` and unique `idx_name (name)`. -/
def userSameTable : Table :=
  { Name := "user"
    Columns :=
      [ { TableName := "user", ColumnName := "id", DataType := "int" },
        { TableName := "user", ColumnName := "name", DataType := "varchar",
          CharacterMaximumLength := some 50 } ]
    Indexes :=
      [ { Name := "idx_name", Unique := true, ColumnNames := some ["name"] },
        { Name := "PRIMARY", Unique := true, ColumnNames := some ["id"] } ] }

/-- The declaration `User` together with an index struct whose only field carries the
tag `migu:"fulltext"`, an option `parseIndexStructTag` does not know. -/
def userBadIndexAST : TableAST :=
  { userAST with
    IndexAST := some [ { Names := ["Name"], Typ := .Ident "string", Tag := some (.migu "fulltext") } ] }

/-- The declaration `type Account struct { UserID int }`. -/
def accountAST : TableAST :=
  { Name := "Account"
    ColumnAST := some [ { Names := ["UserID"], Typ := .Ident "int" } ] }

/-- The observed table `account` with the columns `userId` and `user_id`. -/
def accountTable : Table :=
  { Name := "account"
    Columns :=
      [ { TableName := "account", ColumnName := "userId", DataType := "int" },
        { TableName := "account", ColumnName := "user_id", DataType := "int" } ] }

/-- An observed schema with the table `user`, as the declarations `User` and `UserIndex`
describe it, and a second table named `User`. -/
def capitalCurrent : GoMap Table :=
  ⟨[("user", userSameTable), ("User", { Name := "User" })]⟩

/-- The declaration `type Profile struct { Nick *string "migu:default:guest" }`. -/
def profileAST : TableAST :=
  { Name := "Profile"
    ColumnAST := some
      [ { Names := ["Nick"], Typ := .StarExpr (.Ident "string"),
          Tag := some (.migu "default:guest") } ] }

/-- The declaration
`type Note struct { ID int; Secret string "migu:-"; Body string }`. -/
def noteAST : TableAST :=
  { Name := "Note"
    ColumnAST := some
      [ { Names := ["ID"], Typ := .Ident "int" },
        { Names := ["Secret"], Typ := .Ident "string", Tag := some (.migu "-") },
        { Names := ["Body"], Typ := .Ident "string" } ] }

/-- The declaration `type Note struct { ID int; Body string }`. -/
def noteWithoutSecretAST : TableAST :=
  { Name := "Note"
    ColumnAST := some
      [ { Names := ["ID"], Typ := .Ident "int" },
        { Names := ["Body"], Typ := .Ident "string" } ] }

/-- The observed table `note` whose only column is `id`. -/
def noteTable : Table :=
  { Name := "note", Columns := [ { TableName := "note", ColumnName := "id", DataType := "int" } ] }

/-- The declaration
`type User struct { ID int "migu:autoincrement;pk"; Name string "migu:size:big" }`: the
size of `Name` is not a number. -/
def userBadSizeAST : TableAST :=
  { Name := "User"
    ColumnAST := some
      [ { Names := ["ID"], Typ := .Ident "int", Tag := some (.migu "autoincrement;pk") },
        { Names := ["Name"], Typ := .Ident "string", Tag := some (.migu "size:big") } ] }

/-- The declaration
`type User struct { ID int "migu:autoincrement;pk"; Name string "migu:nullable" }`: the
option `nullable` is unknown. -/
def userUnknownOptionAST : TableAST :=
  { Name := "User"
    ColumnAST := some
      [ { Names := ["ID"], Typ := .Ident "int", Tag := some (.migu "autoincrement;pk") },
        { Names := ["Name"], Typ := .Ident "string", Tag := some (.migu "nullable") } ] }

/-- The declaration `User` together with
`type UserIndex struct { Name string "migu:index:" }`: an index option with an empty
parameter list. -/
def userEmptyIndexAST : TableAST :=
  { userAST with
    IndexAST := some [ { Names := ["Name"], Typ := .Ident "string", Tag := some (.migu "index:") } ] }

/-- A database on which every call succeeds. -/
def healthyDB : DB :=
  { Begin := none, Exec := fun _ _ => none, Commit := fun _ => none }

/-- A database on which the second statement of a transaction fails with `disk full` and
every other call succeeds. -/
def secondFailsDB : DB :=
  { Begin := none
    Exec := fun log _ => if log.length = 2 then some "disk full" else none
    Commit := fun _ => none }

/-- The declaration `User` together with `type UserIndex struct { PK int "migu:pk" }`:
a primary key without `index` option, whose `ColumnNames` is never set. -/
def userPkTagAST : TableAST :=
  { userAST with
    IndexAST := some [ { Names := ["PK"], Typ := .Ident "int", Tag := some (.migu "pk") } ] }

/-- An observed table `user`, built by hand, whose index `PRIMARY` has the empty slice
`[]string{}` as column names. -/
def userEmptyPrimaryTable : Table :=
  { Name := "user"
    Columns :=
      [ { TableName := "user", ColumnName := "id", DataType := "int" },
        { TableName := "user", ColumnName := "name", DataType := "varchar",
          CharacterMaximumLength := some 50 } ]
    Indexes := [ { Name := "PRIMARY", Unique := true, ColumnNames := some [] } ] }

set_option maxRecDepth 8192

/-! ## Lemmas: maps -/

namespace GoMap

variable {V : Type}

theorem lookup_assign (k k' : String) (v : V) (l : List (String × V)) :
    lookup k (assign k' v l) = if k' = k then some v else lookup k l := by
  induction l with
  | nil => simp [assign, lookup]
  | cons e rest ih =>
    obtain ⟨a, b⟩ := e
    by_cases h : a = k'
    · subst h
      by_cases h2 : a = k <;> simp [assign, lookup, h2]
    · by_cases h2 : a = k
      · subst h2
        have h' : ¬ k' = a := fun e => h e.symm
        simp [assign, lookup, h, h']
      · simp [assign, lookup, h, h2, ih]

theorem lookup_isSome_iff (k : String) (l : List (String × V)) :
    (lookup k l).isSome = true ↔ k ∈ l.map Prod.fst := by
  induction l with
  | nil => simp [lookup]
  | cons e rest ih =>
    obtain ⟨a, b⟩ := e
    by_cases h : a = k
    · simp [lookup, h]
    · have h' : ¬ k = a := fun e => h e.symm
      simp [lookup, h, h', ih]

theorem lookup_eq_none_iff (k : String) (l : List (String × V)) :
    lookup k l = none ↔ k ∉ l.map Prod.fst := by
  rw [← lookup_isSome_iff]
  cases lookup k l <;> simp

theorem lookup_of_mem {k : String} {v : V} {l : List (String × V)}
    (hn : (l.map Prod.fst).Nodup) (h : (k, v) ∈ l) : lookup k l = some v := by
  induction l with
  | nil => simp at h
  | cons e rest ih =>
    obtain ⟨a, b⟩ := e
    simp only [List.map_cons, List.nodup_cons] at hn
    rcases List.mem_cons.mp h with h1 | h1
    · injection h1 with h2 h3
      simp [lookup, h2, h3]
    · have hne : a ≠ k := by
        intro e
        apply hn.1
        rw [e]
        exact List.mem_map_of_mem Prod.fst h1
      simp [lookup, hne, ih hn.2 h1]

theorem lookup_filter_ne {k k' : String} (hne : k ≠ k') (l : List (String × V)) :
    lookup k (l.filter (fun e => !decide (e.1 = k'))) = lookup k l := by
  induction l with
  | nil => rfl
  | cons e rest ih =>
    obtain ⟨a, b⟩ := e
    by_cases h : a = k'
    · have h2 : ¬ a = k := fun e => hne (e.symm.trans h)
      rw [List.filter_cons_of_neg (by simp [h])]
      simp only [lookup, h2, if_false]
      exact ih
    · rw [List.filter_cons_of_pos (by simp [h])]
      by_cases h2 : a = k
      · simp [lookup, h2]
      · simp [lookup, h2, ih]

theorem get?_delete_ne {k k' : String} (hne : k ≠ k') (m : GoMap V) :
    (m.delete k').get? k = m.get? k := lookup_filter_ne hne m.entries

theorem keys_delete (m : GoMap V) (k : String) :
    (m.delete k).keys = m.keys.filter (fun a => !decide (a = k)) := by
  simp only [keys, delete]
  induction m.entries with
  | nil => rfl
  | cons e rest ih =>
    by_cases h : e.1 = k <;> simp [List.filter, h, ih]

theorem get?_isSome_iff (m : GoMap V) (k : String) : (m.get? k).isSome = true ↔ k ∈ m.keys :=
  lookup_isSome_iff k m.entries

theorem get?_eq_none_iff (m : GoMap V) (k : String) : m.get? k = none ↔ k ∉ m.keys :=
  lookup_eq_none_iff k m.entries

theorem keys_assign (k : String) (v : V) (l : List (String × V)) :
    (assign k v l).map Prod.fst =
      if k ∈ l.map Prod.fst then l.map Prod.fst else l.map Prod.fst ++ [k] := by
  induction l with
  | nil => simp [assign]
  | cons e rest ih =>
    obtain ⟨a, b⟩ := e
    by_cases h : a = k
    · simp [assign, h]
    · have h' : ¬ k = a := fun e => h e.symm
      by_cases h2 : k ∈ rest.map Prod.fst
      · simp only [assign, h, if_false, List.map_cons, ih, h2, if_true, List.mem_cons, or_true]
      · simp only [assign, h, if_false, List.map_cons, ih, h2, List.mem_cons, h', or_self,
          List.cons_append]

theorem assign_of_not_mem (k : String) (v : V) (l : List (String × V))
    (h : k ∉ l.map Prod.fst) : assign k v l = l ++ [(k, v)] := by
  induction l with
  | nil => rfl
  | cons e rest ih =>
    obtain ⟨a, b⟩ := e
    simp only [List.map_cons, List.mem_cons, not_or] at h
    have h' : ¬ a = k := fun e => h.1 e.symm
    simp [assign, h', ih h.2]

end GoMap

namespace GoMap

variable {V : Type}

theorem foldl_set_isSome {α : Type} (key : α → String) (l : List α) (m0 : GoMap α) (k : String) :
    ((l.foldl (fun m c => m.set (key c) c) m0).get? k).isSome = true ↔
      k ∈ m0.keys ∨ k ∈ l.map key := by
  induction l generalizing m0 with
  | nil => simp [get?_isSome_iff]
  | cons c rest ih =>
    rw [List.foldl_cons, ih]
    have hk : k ∈ (m0.set (key c) c).keys ↔ k ∈ m0.keys ∨ k = key c := by
      simp only [keys, set, keys_assign]
      split <;> rename_i h
      · constructor
        · exact Or.inl
        · rintro (h1 | h1)
          · exact h1
          · rw [h1]; exact h
      · simp
    rw [hk]
    simp only [List.map_cons, List.mem_cons]
    tauto

theorem foldl_set_get?_mem {α : Type} (key : α → String) (l : List α) (m0 : GoMap α)
    (k : String) (v : α) (h : (l.foldl (fun m c => m.set (key c) c) m0).get? k = some v) :
    m0.get? k = some v ∨ (v ∈ l ∧ key v = k) := by
  induction l generalizing m0 with
  | nil => exact Or.inl h
  | cons c rest ih =>
    rw [List.foldl_cons] at h
    rcases ih _ h with h1 | h1
    · simp only [get?, set, lookup_assign] at h1
      split at h1
      · rename_i hk
        injection h1 with h2
        exact Or.inr ⟨by simp [h2], by rw [← h2]; exact hk⟩
      · exact Or.inl h1
    · exact Or.inr ⟨List.mem_cons_of_mem _ h1.1, h1.2⟩

theorem foldl_set_entries {α : Type} (key : α → String) (l : List α) (m0 : GoMap α)
    (h : (m0.keys ++ l.map key).Nodup) :
    (l.foldl (fun m c => m.set (key c) c) m0).entries = m0.entries ++ l.map (fun c => (key c, c)) := by
  induction l generalizing m0 with
  | nil => simp
  | cons c rest ih =>
    have hc : key c ∉ m0.entries.map Prod.fst := by
      intro hm
      have := List.nodup_append.mp h
      exact this.2.2 hm (by simp)
    have hs : m0.set (key c) c = ⟨m0.entries ++ [(key c, c)]⟩ := by
      simp only [set, assign_of_not_mem _ _ _ hc]
    rw [List.foldl_cons, hs, ih]
    · simp
    · simpa [keys, List.append_assoc] using h

theorem range_get? (ρ : IterOrder) (m : GoMap V) (e : String × V) (h : e ∈ m.range ρ) :
    m.get? e.1 = some e.2 := by
  simp only [range, List.mem_filterMap] at h
  obtain ⟨k, _, hk⟩ := h
  cases hg : m.get? k with
  | none => simp [hg] at hk
  | some v =>
    simp only [hg, Option.map_some', Option.some.injEq] at hk
    rw [← hk]
    exact hg

theorem range_keys (ρ : IterOrder) (hρ : ρ.Valid) (m : GoMap V) :
    (m.range ρ).map Prod.fst = ρ m.keys := by
  have hmem : ∀ k ∈ ρ m.keys, k ∈ m.keys := fun k hk => (hρ m.keys).subset hk
  simp only [range]
  generalize ρ m.keys = ks at hmem
  induction ks with
  | nil => rfl
  | cons k rest ih =>
    have hk : k ∈ m.keys := hmem k (by simp)
    have hs := (get?_isSome_iff m k).mpr hk
    cases hg : m.get? k with
    | none => simp [hg] at hs
    | some v =>
      simp only [List.filterMap_cons, hg, Option.map_some', List.map_cons]
      rw [ih (fun a ha => hmem a (List.mem_cons_of_mem _ ha))]

theorem range_perm (ρ : IterOrder) (hρ : ρ.Valid) (m : GoMap V) (hm : m.keys.Nodup) :
    (m.range ρ).Perm m.entries := by
  have h1 : (m.range ρ).Perm
      (m.keys.filterMap (fun k => (m.get? k).map (fun v => (k, v)))) :=
    List.Perm.filterMap _ (hρ m.keys)
  have h2 : m.keys.filterMap (fun k => (m.get? k).map (fun v => (k, v))) = m.entries := by
    simp only [keys, List.filterMap_map]
    have : ∀ e ∈ m.entries,
        ((fun k => (m.get? k).map (fun v => (k, v))) ∘ Prod.fst) e = some e := by
      intro e he
      have := lookup_of_mem hm (show (e.1, e.2) ∈ m.entries from he)
      simp [get?, this]
    rw [List.filterMap_congr this]
    simp
  rw [h2] at h1
  exact h1

end GoMap

/-! ## Lemmas: loops that append -/

theorem foldl_append_map {α β : Type} (step : List β → α → List β) (g : α → β)
    (hstep : ∀ acc e, step acc e = acc ++ [g e]) (l : List α) (init : List β) :
    l.foldl step init = init ++ l.map g := by
  induction l generalizing init with
  | nil => simp
  | cons a rest ih => simp [List.foldl_cons, hstep, ih, List.append_assoc]

theorem foldl_append_filter {α β : Type} (step : List β → α → List β) (keep : α → Bool)
    (g : α → β) (hstep : ∀ acc e, step acc e = if keep e then acc ++ [g e] else acc)
    (l : List α) (init : List β) :
    l.foldl step init = init ++ (l.filter keep).map g := by
  induction l generalizing init with
  | nil => simp
  | cons a rest ih =>
    rw [List.foldl_cons, ih, hstep]
    cases hk : keep a <;> simp [List.filter, hk, List.append_assoc]

/-! ## Lemmas: string order -/

theorem charsLe_total (a b : List Char) : charsLe a b = true ∨ charsLe b a = true := by
  induction a generalizing b with
  | nil => simp [charsLe]
  | cons x xs ih =>
    cases b with
    | nil => simp [charsLe]
    | cons y ys =>
      simp only [charsLe]
      by_cases h1 : x.toNat < y.toNat
      · simp [h1]
      · by_cases h2 : y.toNat < x.toNat
        · simp [h2]
        · simp only [h1, h2, if_false]
          exact ih ys

theorem charsLe_trans (a b c : List Char) (h1 : charsLe a b = true) (h2 : charsLe b c = true) :
    charsLe a c = true := by
  induction a generalizing b c with
  | nil => simp [charsLe]
  | cons x xs ih =>
    cases b with
    | nil => simp [charsLe] at h1
    | cons y ys =>
      cases c with
      | nil => simp [charsLe] at h2
      | cons z zs =>
        simp only [charsLe] at h1 h2 ⊢
        by_cases hxy : x.toNat < y.toNat
        · by_cases hyz : y.toNat < z.toNat
          · simp [show x.toNat < z.toNat by omega]
          · by_cases hzy : z.toNat < y.toNat
            · simp [hyz, hzy] at h2
            · simp [show x.toNat < z.toNat by omega]
        · by_cases hyx : y.toNat < x.toNat
          · simp [hxy, hyx] at h1
          · simp only [hxy, hyx, if_false] at h1
            by_cases hyz : y.toNat < z.toNat
            · simp [show x.toNat < z.toNat by omega]
            · by_cases hzy : z.toNat < y.toNat
              · simp [hyz, hzy] at h2
              · simp only [hyz, hzy, if_false] at h2
                simp only [show ¬ x.toNat < z.toNat by omega, show ¬ z.toNat < x.toNat by omega,
                  if_false]
                exact ih ys zs h1 h2

instance : IsTotal String strLe := ⟨fun a b => charsLe_total a.data b.data⟩

instance : IsTrans String strLe := ⟨fun a b c h1 h2 => charsLe_trans a.data b.data c.data h1 h2⟩

theorem sortStrings_perm (l : List String) : (sortStrings l).Perm l :=
  List.perm_insertionSort strLe l

@[simp] theorem MySQL.dialect_Quote : MySQL.dialect.Quote = MySQL.Quote := rfl

@[simp] theorem MySQL.dialect_QuoteString : MySQL.dialect.QuoteString = MySQL.QuoteString := rfl

@[simp] theorem MySQL.dialect_ColumnType : MySQL.dialect.ColumnType = MySQL.ColumnType := rfl

@[simp] theorem MySQL.dialect_AutoIncrement :
    MySQL.dialect.AutoIncrement = MySQL.AutoIncrement := rfl

theorem GoMap.keys_foldl_delete {V : Type} (names : List String) (m : GoMap V) :
    (names.foldl GoMap.delete m).keys = m.keys.filter (fun k => !decide (k ∈ names)) := by
  induction names generalizing m with
  | nil => simp
  | cons n rest ih =>
    rw [List.foldl_cons, ih, GoMap.keys_delete, List.filter_filter]
    apply List.filter_congr
    intro k _
    by_cases h1 : k = n <;> by_cases h2 : k ∈ rest <;> simp [h1, h2]

theorem Diff.loop_ok (x : Ext) (ρ : IterOrder) (d : Dialect) (B : String → List String)
    (names : List String) (st : DiffState) (hn : names.Nodup)
    (hin : ∀ n ∈ names, n ∈ st.expectedTableASTMap.keys)
    (hCreate : ∀ n ∈ names, ∀ t, st.expectedTableASTMap.get? n = some t →
      st.currentTableMap.get? n = none → t.CreateTableQuery x d = .ok (B n))
    (hAlter : ∀ n ∈ names, ∀ t c, st.expectedTableASTMap.get? n = some t →
      st.currentTableMap.get? n = some c → t.AlterTableQueries x ρ d c = .ok (B n)) :
    Diff.loop x ρ d names st = .ok
      { expectedTableASTMap := names.foldl GoMap.delete st.expectedTableASTMap
        currentTableMap := names.foldl GoMap.delete st.currentTableMap
        migrations := st.migrations ++ (names.map B).flatten } := by
  induction names generalizing st with
  | nil => simp [Diff.loop]
  | cons n rest ih =>
    have hn' := List.nodup_cons.mp hn
    have hs := (GoMap.get?_isSome_iff _ _).mpr (hin n (by simp))
    cases hE : st.expectedTableASTMap.get? n with
    | none => simp [hE] at hs
    | some t =>
      have hq : (match st.currentTableMap.get? n with
          | none => t.CreateTableQuery x d
          | some currentTable => t.AlterTableQueries x ρ d currentTable) = .ok (B n) := by
        cases hC : st.currentTableMap.get? n with
        | none => exact hCreate n (by simp) t hE hC
        | some c => exact hAlter n (by simp) t c hE hC
      have hne : ∀ m ∈ rest, m ≠ n := fun m hm e => hn'.1 (e ▸ hm)
      simp only [Diff.loop, hE, hq]
      rw [ih]
      · simp [List.append_assoc]
      · exact hn'.2
      · intro m hm
        have := hin m (List.mem_cons_of_mem _ hm)
        simp only [GoMap.keys_delete, List.mem_filter]
        exact ⟨this, by simp [hne m hm]⟩
      · intro m hm t' h1 h2
        rw [GoMap.get?_delete_ne (hne m hm)] at h1 h2
        exact hCreate m (List.mem_cons_of_mem _ hm) t' h1 h2
      · intro m hm t' c h1 h2
        rw [GoMap.get?_delete_ne (hne m hm)] at h1 h2
        exact hAlter m (List.mem_cons_of_mem _ hm) t' c h1 h2

theorem sortTableASTNames_perm (E : GoMap TableAST) : (sortTableASTNames E).Perm E.keys :=
  sortStrings_perm E.keys

theorem Diff_eq (x : Ext) (ρ : IterOrder) (hρ : ρ.Valid) (E : GoMap TableAST) (C : GoMap Table)
    (hE : E.keys.Nodup) (B : String → List String)
    (hCreate : ∀ n t, E.get? n = some t → C.get? n = none →
      t.CreateTableQuery x MySQL.dialect = .ok (B n))
    (hAlter : ∀ n t c, E.get? n = some t → C.get? n = some c →
      t.AlterTableQueries x ρ MySQL.dialect c = .ok (B n)) :
    Diff x ρ E C = .ok (((sortTableASTNames E).map B).flatten ++
      (ρ (C.keys.filter (fun k => !decide (k ∈ E.keys)))).map
        (fun u => "DROP TABLE " ++ MySQL.Quote (toSchemaTableName x u))) := by
  have hp := sortTableASTNames_perm E
  have hloop := Diff.loop_ok x ρ MySQL.dialect B (sortTableASTNames E) ⟨E, C, []⟩
    (hp.nodup_iff.mpr hE) (fun n hn => hp.subset hn)
    (fun n _ t h1 h2 => hCreate n t h1 h2) (fun n _ t c h1 h2 => hAlter n t c h1 h2)
  simp only [Diff, hloop, MySQL.dialect_Quote]
  rw [foldl_append_map
    (fun migrations (entry : String × Table) =>
      migrations ++ ["DROP TABLE " ++ MySQL.Quote (toSchemaTableName x entry.1)])
    (fun e => "DROP TABLE " ++ MySQL.Quote (toSchemaTableName x e.1)) (fun _ _ => rfl)]
  have hk : (List.foldl GoMap.delete C (sortTableASTNames E)).keys =
      C.keys.filter (fun k => !decide (k ∈ E.keys)) := by
    rw [GoMap.keys_foldl_delete]
    apply List.filter_congr
    intro k _
    have : k ∈ sortTableASTNames E ↔ k ∈ E.keys := hp.mem_iff
    simp [this]
  have hr := GoMap.range_keys ρ hρ (List.foldl GoMap.delete C (sortTableASTNames E))
  rw [hk] at hr
  rw [← hr]
  simp [List.map_map, Function.comp_def]

/-! ## Lemmas: the clause lists of the ALTER plan -/

theorem deepEqualStrings_iff (a b : Option (List String)) :
    deepEqualStrings a b = true ↔ a = b := by
  cases a <;> cases b <;> simp [deepEqualStrings]

theorem deepEqualIndex_iff (a b : Index) : deepEqualIndex a b = true ↔ a = b := by
  cases a
  cases b
  simp [deepEqualIndex, deepEqualStrings_iff, and_assoc]

theorem deepEqualIndex_eq_false_iff (a b : Index) : deepEqualIndex a b = false ↔ a ≠ b := by
  rw [Ne, ← deepEqualIndex_iff]
  cases deepEqualIndex a b <;> simp

theorem TableAST.MustColumns_ok {x : Ext} {t : TableAST} {cols : List Column}
    (hc : t.Columns x = .ok cols) : t.MustColumns x = .ok cols := by
  simp [TableAST.MustColumns, hc]

theorem TableAST.MustIndexes_ok {t : TableAST} {idxs : List Index}
    (hi : t.Indexes = .ok idxs) : t.MustIndexes = .ok idxs := by
  simp [TableAST.MustIndexes, hi]

theorem TableAST.ColumnMap_ok {x : Ext} {t : TableAST} {cols : List Column}
    (hc : t.Columns x = .ok cols) :
    t.ColumnMap x = .ok (cols.foldl (fun m column => m.set column.Name column) GoMap.empty) := by
  simp [TableAST.ColumnMap, TableAST.MustColumns_ok hc]

theorem TableAST.IndexMap_ok {t : TableAST} {idxs : List Index} (hi : t.Indexes = .ok idxs) :
    t.IndexMap = .ok (idxs.foldl (fun m index => m.set index.Name index) GoMap.empty) := by
  simp [TableAST.IndexMap, TableAST.MustIndexes_ok hi]

theorem getElem?_pred_length_append (pre rest : List Column) (h : 0 < pre.length) :
    (pre ++ rest)[pre.length - 1]? = pre.getLast? := by
  rw [List.getElem?_append_left (by omega), List.getLast?_eq_getElem?]

theorem TableAST.GenerateAddFieldSQLs.loop_eq (x : Ext) (d : Dialect)
    (cur : GoMap columnSchema) (pre rest : List Column) (sqls : List String) :
    TableAST.GenerateAddFieldSQLs.loop x d cur (pre ++ rest) pre.length rest sqls =
      .ok (sqls ++ addFieldClauses x d cur pre.getLast? rest) := by
  induction rest generalizing pre sqls with
  | nil => simp [TableAST.GenerateAddFieldSQLs.loop, addFieldClauses]
  | cons column rest ih =>
    have hsplit : pre ++ column :: rest = (pre ++ [column]) ++ rest := by simp
    have hlen : pre.length + 1 = (pre ++ [column]).length := by simp
    have hlast : (pre ++ [column]).getLast? = some column := by simp
    have hnext := fun s => ih (pre ++ [column]) s
    rw [← hsplit, ← hlen, hlast] at hnext
    unfold TableAST.GenerateAddFieldSQLs.loop
    by_cases hp : (cur.get? column.Name).isSome = true
    · rw [if_pos hp, hnext]
      simp [addFieldClauses, hp]
    · rw [if_neg hp]
      by_cases hi : pre.length > 0
      · have hprev := getElem?_pred_length_append pre (column :: rest) hi
        obtain ⟨p, hpl⟩ : ∃ p, pre.getLast? = some p := by
          cases hl : pre.getLast? with
          | none =>
            rw [List.getLast?_eq_none_iff] at hl
            simp [hl] at hi
          | some p => exact ⟨p, rfl⟩
        rw [if_pos hi, hprev, hpl]
        simp only []
        rw [hnext]
        simp [addFieldClauses, hp, positionClause, List.append_assoc]
      · have hnil : pre = [] := by
          cases pre with
          | nil => rfl
          | cons a as => simp at hi
        subst hnil
        rw [if_neg hi, hnext]
        simp [addFieldClauses, hp, positionClause, List.append_assoc]

theorem TableAST.GenerateAddFieldSQLs_eq (x : Ext) (d : Dialect) (t : TableAST)
    (cur : GoMap columnSchema) (cols : List Column) (hc : t.Columns x = .ok cols) :
    t.GenerateAddFieldSQLs x d cur = .ok (addFieldClauses x d cur none cols) := by
  have h := TableAST.GenerateAddFieldSQLs.loop_eq x d cur [] cols []
  simp only [List.nil_append, List.length_nil, List.getLast?_nil] at h
  simp [TableAST.GenerateAddFieldSQLs, TableAST.MustColumns_ok hc, h]

theorem GoMap.get?_empty {V : Type} (k : String) : (GoMap.empty : GoMap V).get? k = none := rfl

theorem GoMap.keys_empty {V : Type} : (GoMap.empty : GoMap V).keys = [] := rfl

theorem TableAST.GenerateDropFieldSQLs_eq (x : Ext) (ρ : IterOrder) (d : Dialect) (t : TableAST)
    (cur : GoMap columnSchema) (cols : List Column) (hc : t.Columns x = .ok cols) :
    t.GenerateDropFieldSQLs x ρ d cur =
      .ok (((cur.range ρ).filter (fun e => !decide (e.1 ∈ cols.map Column.Name))).map
        (fun e => "DROP " ++ d.Quote (toSchemaTableName x e.1))) := by
  simp only [TableAST.GenerateDropFieldSQLs, TableAST.ColumnMap_ok hc]
  rw [foldl_append_filter
    (fun sqls (entry : String × columnSchema) =>
      if ((cols.foldl (fun m column => m.set column.Name column) GoMap.empty).get?
          entry.1).isSome then sqls
      else sqls ++ ["DROP " ++ d.Quote (toSchemaTableName x entry.1)])
    (fun e => !decide (e.1 ∈ cols.map Column.Name))
    (fun e => "DROP " ++ d.Quote (toSchemaTableName x e.1))]
  · simp
  · intro acc e
    have h := GoMap.foldl_set_isSome Column.Name cols GoMap.empty e.1
    simp only [GoMap.keys_empty, List.not_mem_nil, false_or] at h
    by_cases hm : e.1 ∈ cols.map Column.Name
    · rw [if_pos (h.mpr hm)]
      simp [hm]
    · rw [if_neg (fun hh => hm (h.mp hh))]
      simp [hm]

theorem TableAST.GenerateModifyFieldSQLs_eq (x : Ext) (d : Dialect) (t : TableAST)
    (cur : GoMap columnSchema) (cols : List Column) (hc : t.Columns x = .ok cols) :
    t.GenerateModifyFieldSQLs x d cur =
      .ok ((cols.filter (needsModify x cur)).map (fun c => "MODIFY " ++ columnSQL x d c)) := by
  simp only [TableAST.GenerateModifyFieldSQLs, TableAST.MustColumns_ok hc]
  rw [foldl_append_filter
    (fun sqls (column : Column) =>
      match cur.get? column.Name with
      | none => sqls
      | some currentColum =>
        if !x.hasDifference currentColum column then sqls
        else sqls ++ ["MODIFY " ++ columnSQL x d column])
    (needsModify x cur) (fun c => "MODIFY " ++ columnSQL x d c)]
  · simp
  · intro acc c
    have hn : needsModify x cur c = match cur.get? c.Name with
        | some currentColum => x.hasDifference currentColum c
        | none => false := rfl
    rw [hn]
    split
    · rename_i h
      simp [h]
    · rename_i o h
      cases hd : x.hasDifference o c <;> simp [h, hd]

theorem TableAST.GenerateDropIndexSQLs_eq (ρ : IterOrder) (d : Dialect) (t : TableAST)
    (cur : GoMap Index) (idxs : List Index) (hi : t.Indexes = .ok idxs) :
    t.GenerateDropIndexSQLs ρ d cur =
      .ok (((cur.range ρ).filter (fun e => !decide
          ((idxs.foldl (fun m index => m.set index.Name index) GoMap.empty).get? e.1 =
            some e.2))).map
        (fun e => if e.2.isPrimaryKey then "DROP PRIMARY KEY"
          else "DROP INDEX " ++ d.Quote e.1)) := by
  simp only [TableAST.GenerateDropIndexSQLs, TableAST.IndexMap_ok hi]
  rw [foldl_append_filter _
    (fun e => !decide
      ((idxs.foldl (fun m index => m.set index.Name index) GoMap.empty).get? e.1 = some e.2))
    (fun e => if e.2.isPrimaryKey then "DROP PRIMARY KEY" else "DROP INDEX " ++ d.Quote e.1)]
  · simp
  · intro acc e
    cases hg : (idxs.foldl (fun m index => m.set index.Name index) GoMap.empty).get? e.1 with
    | none => cases e.2.isPrimaryKey <;> simp
    | some n =>
      by_cases he : e.2 = n
      · simp [he, deepEqualIndex_iff]
      · have he' : ¬ n = e.2 := fun h => he h.symm
        cases e.2.isPrimaryKey <;>
          simp [he, he', (deepEqualIndex_eq_false_iff e.2 n).mpr he]

theorem TableAST.GenerateAddIndexSQLs_eq (ρ : IterOrder) (d : Dialect) (t : TableAST)
    (cur : GoMap Index) (idxs : List Index) (hi : t.Indexes = .ok idxs) :
    t.GenerateAddIndexSQLs ρ d cur =
      .ok ((((idxs.foldl (fun m index => m.set index.Name index) GoMap.empty).range ρ).filter
          (fun e => !decide (cur.get? e.1 = some e.2))).map
        (fun e => "ADD " ++ e.2.AsCreateTableDefinition d)) := by
  simp only [TableAST.GenerateAddIndexSQLs, TableAST.IndexMap_ok hi]
  rw [foldl_append_filter _ (fun e => !decide (cur.get? e.1 = some e.2))
    (fun e => "ADD " ++ e.2.AsCreateTableDefinition d)]
  · simp
  · intro acc e
    cases hg : cur.get? e.1 with
    | none => simp
    | some n =>
      by_cases he : e.2 = n
      · simp [he, deepEqualIndex_iff]
      · have he' : ¬ n = e.2 := fun h => he h.symm
        simp [he, he', (deepEqualIndex_eq_false_iff e.2 n).mpr he]

theorem TableAST.indexDefinitions_eq (d : Dialect) (t : TableAST) (idxs : List Index)
    (hi : t.Indexes = .ok idxs) :
    t.indexDefinitions d = .ok (idxs.map (fun i => i.AsCreateTableDefinition d)) := by
  simp only [TableAST.indexDefinitions, hi]
  rw [foldl_append_map (fun defs (index : Index) => defs ++ [index.AsCreateTableDefinition d])
    (fun i => i.AsCreateTableDefinition d) (fun _ _ => rfl)]
  simp

theorem TableAST.CreateTableQuery_eq (x : Ext) (d : Dialect) (t : TableAST)
    (cols : List Column) (idxs : List Index)
    (hc : t.Columns x = .ok cols) (hi : t.Indexes = .ok idxs) :
    t.CreateTableQuery x d =
      .ok ["CREATE TABLE " ++ d.Quote (toSchemaTableName x t.Name) ++ " (\n  " ++
        join (cols.map (columnSQL x d) ++ idxs.map (fun i => i.AsCreateTableDefinition d)) ", "
        ++ "\n)"] := by
  simp only [TableAST.CreateTableQuery, hc, TableAST.indexDefinitions_eq d t idxs hi]

/-! ## Lemmas: maps built from lists with distinct keys -/

theorem GoMap.foldl_set_entries_empty {α : Type} (key : α → String) (l : List α)
    (h : (l.map key).Nodup) :
    (l.foldl (fun m c => m.set (key c) c) GoMap.empty).entries = l.map (fun c => (key c, c)) := by
  have := GoMap.foldl_set_entries key l GoMap.empty (by simpa [GoMap.keys_empty] using h)
  simpa [GoMap.empty] using this

theorem GoMap.foldl_set_keys_empty {α : Type} (key : α → String) (l : List α)
    (h : (l.map key).Nodup) :
    (l.foldl (fun m c => m.set (key c) c) GoMap.empty).keys = l.map key := by
  simp [GoMap.keys, GoMap.foldl_set_entries_empty key l h, List.map_map, Function.comp_def]

theorem GoMap.foldl_set_get?_iff {α : Type} (key : α → String) (l : List α)
    (h : (l.map key).Nodup) (v : α) :
    (l.foldl (fun m c => m.set (key c) c) GoMap.empty).get? (key v) = some v ↔ v ∈ l := by
  constructor
  · intro hg
    rcases GoMap.foldl_set_get?_mem key l GoMap.empty (key v) v hg with h1 | h1
    · simp [GoMap.get?_empty] at h1
    · exact h1.1
  · intro hv
    have hk := GoMap.foldl_set_keys_empty key l h
    have he := GoMap.foldl_set_entries_empty key l h
    apply GoMap.lookup_of_mem
    · rw [show List.map Prod.fst _ = (l.foldl (fun m c => m.set (key c) c) GoMap.empty).keys
        from rfl, hk]
      exact h
    · rw [he]
      exact List.mem_map_of_mem (fun c => (key c, c)) hv

theorem GoMap.range_keyed {α : Type} (key : α → String) (l : List α) (ρ : IterOrder)
    (e : String × α) (he : e ∈ (l.foldl (fun m c => m.set (key c) c) GoMap.empty).range ρ) :
    e.2 ∈ l ∧ key e.2 = e.1 := by
  have hg := GoMap.range_get? ρ _ e he
  rcases GoMap.foldl_set_get?_mem key l GoMap.empty e.1 e.2 hg with h1 | h1
  · simp [GoMap.get?_empty] at h1
  · exact h1

theorem GoMap.range_values_perm {α : Type} (key : α → String) (l : List α) (ρ : IterOrder)
    (hρ : ρ.Valid) (h : (l.map key).Nodup) (p : α → Bool) (q : String × α → Bool)
    (hq : ∀ v ∈ l, q (key v, v) = p v) :
    ((((l.foldl (fun m c => m.set (key c) c) GoMap.empty).range ρ).filter q).map Prod.snd).Perm
      (l.filter p) := by
  have hk := GoMap.foldl_set_keys_empty key l h
  have he := GoMap.foldl_set_entries_empty key l h
  have hperm := GoMap.range_perm ρ hρ (l.foldl (fun m c => m.set (key c) c) GoMap.empty)
    (by rw [hk]; exact h)
  rw [he] at hperm
  have h2 := (hperm.filter q).map Prod.snd
  have h3 : ((l.map (fun c => (key c, c))).filter q).map Prod.snd = l.filter p := by
    clear hperm h2 hk he h
    induction l with
    | nil => rfl
    | cons a rest ih =>
      have ha := hq a (by simp)
      have ih' := ih (fun v hv => hq v (List.mem_cons_of_mem _ hv))
      simp only [List.map_cons, List.filter_cons, ha]
      cases p a <;> simp [ih']
  rw [h3] at h2
  exact h2

/-! ## Lemmas: the index clause lists -/

theorem Table.IndexMap_eq (c : Table) :
    c.IndexMap = c.Indexes.foldl (fun m index => m.set index.Name index) GoMap.empty := rfl

theorem Table.ColumnMap_eq (c : Table) :
    c.ColumnMap = c.Columns.foldl (fun m column => m.set column.ColumnName column) GoMap.empty :=
  rfl

theorem dropIndex_perm (ρ : IterOrder) (hρ : ρ.Valid) (d : Dialect) (t : TableAST) (c : Table)
    (idxs : List Index) (hi : t.Indexes = .ok idxs) (hn : (idxs.map Index.Name).Nodup)
    (hc : (c.Indexes.map Index.Name).Nodup) :
    ∃ dropped : List Index,
      dropped.Perm (c.Indexes.filter (fun o => !decide (o ∈ idxs))) ∧
      t.GenerateDropIndexSQLs ρ d c.IndexMap = .ok (dropped.map (dropIndexClause d)) := by
  refine ⟨(((c.IndexMap).range ρ).filter (fun e => !decide
      ((idxs.foldl (fun m index => m.set index.Name index) GoMap.empty).get? e.1 =
        some e.2))).map Prod.snd, ?_, ?_⟩
  · apply GoMap.range_values_perm Index.Name c.Indexes ρ hρ hc
    intro v _
    have := GoMap.foldl_set_get?_iff Index.Name idxs hn v
    by_cases hv : v ∈ idxs
    · simp [hv, this.mpr hv]
    · have hne : ¬ (idxs.foldl (fun m index => m.set index.Name index) GoMap.empty).get?
          v.Name = some v := fun hh => hv (this.mp hh)
      simp [hv, hne]
  · rw [TableAST.GenerateDropIndexSQLs_eq ρ d t c.IndexMap idxs hi, List.map_map]
    congr 1
    apply List.map_congr_left
    intro e he
    have hk := (GoMap.range_keyed Index.Name c.Indexes ρ e (List.mem_filter.mp he).1).2
    simp only [Function.comp, dropIndexClause, ← hk]
    by_cases hp : e.2.Name = "PRIMARY"
    · simp [Index.isPrimaryKey, hp]
    · simp [Index.isPrimaryKey, hp]

theorem addIndex_perm (ρ : IterOrder) (hρ : ρ.Valid) (d : Dialect) (t : TableAST) (c : Table)
    (idxs : List Index) (hi : t.Indexes = .ok idxs) (hn : (idxs.map Index.Name).Nodup)
    (hc : (c.Indexes.map Index.Name).Nodup) :
    ∃ added : List Index,
      added.Perm (idxs.filter (fun n => !decide (n ∈ c.Indexes))) ∧
      t.GenerateAddIndexSQLs ρ d c.IndexMap =
        .ok (added.map (fun n => "ADD " ++ n.AsCreateTableDefinition d)) := by
  refine ⟨(((idxs.foldl (fun m index => m.set index.Name index) GoMap.empty).range ρ).filter
      (fun e => !decide (c.IndexMap.get? e.1 = some e.2))).map Prod.snd, ?_, ?_⟩
  · apply GoMap.range_values_perm Index.Name idxs ρ hρ hn
    intro v _
    have := GoMap.foldl_set_get?_iff Index.Name c.Indexes hc v
    rw [← Table.IndexMap_eq] at this
    by_cases hv : v ∈ c.Indexes
    · simp [hv, this.mpr hv]
    · have hne : ¬ c.IndexMap.get? v.Name = some v := fun hh => hv (this.mp hh)
      simp [hv, hne]
  · rw [TableAST.GenerateAddIndexSQLs_eq ρ d t c.IndexMap idxs hi, List.map_map]
    rfl

/-! ## Lemmas: quoting -/

theorem replaceChar_double_injective (q : Char) (l₁ l₂ : List Char)
    (h : replaceChar q [q, q] l₁ = replaceChar q [q, q] l₂) : l₁ = l₂ := by
  induction l₁ generalizing l₂ with
  | nil =>
    cases l₂ with
    | nil => rfl
    | cons b bs =>
      by_cases hb : b = q <;> simp [replaceChar, hb] at h
  | cons a as ih =>
    cases l₂ with
    | nil =>
      by_cases ha : a = q <;> simp [replaceChar, ha] at h
    | cons b bs =>
      by_cases ha : a = q <;> by_cases hb : b = q
      · simp only [replaceChar, ha, hb, if_true, List.cons_append, List.nil_append,
          List.cons.injEq, true_and] at h
        rw [ha, hb, ih bs h]
      · simp only [replaceChar, ha, hb, if_true, if_false, List.cons_append, List.nil_append,
          List.cons.injEq] at h
        exact absurd h.1.symm hb
      · simp only [replaceChar, ha, hb, if_true, if_false, List.cons_append, List.nil_append,
          List.cons.injEq] at h
        exact h.1.elim
      · simp only [replaceChar, ha, hb, if_false, List.cons.injEq] at h
        rw [h.1, ih bs h.2]

theorem MySQL.Quote_injective (s₁ s₂ : String) (h : MySQL.Quote s₁ = MySQL.Quote s₂) :
    s₁ = s₂ := by
  have hd := congrArg String.data h
  simp only [MySQL.Quote, String.data_append, List.append_assoc] at hd
  have h1 := List.append_cancel_left hd
  have h2 := List.append_cancel_right h1
  exact String.ext (replaceChar_double_injective _ _ _ h2)

theorem string_append_left_cancel (p a b : String) (h : p ++ a = p ++ b) : a = b := by
  have hd := congrArg String.data h
  simp only [String.data_append] at hd
  exact String.ext (List.append_cancel_left hd)

theorem dropIndex_never_quoted_primary (ρ : IterOrder) (t : TableAST) (c : Table)
    (sqls : List String)
    (hs : t.GenerateDropIndexSQLs ρ MySQL.dialect c.IndexMap = .ok sqls) :
    "DROP INDEX `PRIMARY`" ∉ sqls := by
  cases hi : t.Indexes with
  | err e => simp [TableAST.GenerateDropIndexSQLs, TableAST.IndexMap, TableAST.MustIndexes, hi] at hs
  | panic e =>
    simp [TableAST.GenerateDropIndexSQLs, TableAST.IndexMap, TableAST.MustIndexes, hi] at hs
  | ok idxs =>
    rw [TableAST.GenerateDropIndexSQLs_eq ρ MySQL.dialect t c.IndexMap idxs hi] at hs
    injection hs with hs
    rw [← hs]
    intro hmem
    obtain ⟨e, he, ho⟩ := List.mem_map.mp hmem
    have hk := (GoMap.range_keyed Index.Name c.Indexes ρ e (List.mem_filter.mp he).1).2
    by_cases hp : e.2.Name = "PRIMARY"
    · simp only [Index.isPrimaryKey, hp, decide_True, if_true] at ho
      exact absurd ho (by decide)
    · simp only [Index.isPrimaryKey, hp, decide_False, Bool.false_eq_true, if_false,
        MySQL.dialect_Quote] at ho
      have h1 : MySQL.Quote e.1 = MySQL.Quote "PRIMARY" :=
        string_append_left_cancel "DROP INDEX " _ _ (ho.trans (by decide))
      exact hp (hk.trans (MySQL.Quote_injective _ _ h1))

theorem replaceChar_eq_flatMap (q : Char) (l : List Char) :
    replaceChar q [q, q] l = l.flatMap (fun c => if c = q then [q, q] else [c]) := by
  induction l with
  | nil => rfl
  | cons c cs ih =>
    by_cases h : c = q <;> simp [replaceChar, h, ih, List.flatMap_cons]

theorem undoubleChars_cons_ne (q c : Char) (l : List Char) (h : c ≠ q) :
    undoubleChars q (c :: l) = c :: undoubleChars q l := by
  cases l with
  | nil => rfl
  | cons c2 rest => simp [undoubleChars, h]

theorem undoubleChars_replaceChar (q : Char) (l : List Char) :
    undoubleChars q (replaceChar q [q, q] l) = l := by
  induction l with
  | nil => rfl
  | cons c cs ih =>
    by_cases h : c = q
    · subst h
      simp [replaceChar, undoubleChars, ih]
    · simp only [replaceChar, h, if_false]
      rw [undoubleChars_cons_ne q c _ h, ih]

theorem quotesDoubled_replaceChar (q : Char) (l : List Char) :
    quotesDoubled q (replaceChar q [q, q] l) = true := by
  induction l with
  | nil => rfl
  | cons c cs ih =>
    by_cases h : c = q
    · subst h
      simp [replaceChar, quotesDoubled, ih]
    · simp only [replaceChar, h, if_false]
      cases hr : replaceChar q [q, q] cs with
      | nil => simp [quotesDoubled, h]
      | cons c2 rest =>
        rw [hr] at ih
        simp only [quotesDoubled, h, if_false]
        exact ih

theorem quoted_data (q : Char) (body : List Char) :
    (String.mk [q] ++ String.mk body ++ String.mk [q]).data.tail.dropLast = body := by
  simp [String.data_append]

theorem MySQL.Quote_data (s : String) :
    (MySQL.Quote s).data.tail.dropLast =
      replaceChar (Char.ofNat 96) [Char.ofNat 96, Char.ofNat 96] s.data :=
  quoted_data (Char.ofNat 96) _

theorem MySQL.QuoteString_data (s : String) :
    (MySQL.QuoteString s).data.tail.dropLast =
      replaceChar (Char.ofNat 39) [Char.ofNat 39, Char.ofNat 39] s.data :=
  quoted_data (Char.ofNat 39) _

theorem MySQL.QuoteString_injective (s₁ s₂ : String)
    (h : MySQL.QuoteString s₁ = MySQL.QuoteString s₂) : s₁ = s₂ := by
  have hd := congrArg (fun t : String => t.data.tail.dropLast) h
  simp only [MySQL.QuoteString_data] at hd
  exact String.ext (replaceChar_double_injective _ _ _ hd)

/-! ## Lemmas: the ALTER statement -/

theorem TableAST.AlterTableQueries_eq (x : Ext) (ρ : IterOrder) (d : Dialect) (t : TableAST)
    (currentTable : Table) (addSQLs dropSQLs modifySQLs dropIndexSQLs addIndexSQLs : List String)
    (hAdd : t.GenerateAddFieldSQLs x d currentTable.ColumnMap = .ok addSQLs)
    (hDrop : t.GenerateDropFieldSQLs x ρ d currentTable.ColumnMap = .ok dropSQLs)
    (hModify : t.GenerateModifyFieldSQLs x d currentTable.ColumnMap = .ok modifySQLs)
    (hDropIndex : t.GenerateDropIndexSQLs ρ d currentTable.IndexMap = .ok dropIndexSQLs)
    (hAddIndex : t.GenerateAddIndexSQLs ρ d currentTable.IndexMap = .ok addIndexSQLs) :
    t.AlterTableQueries x ρ d currentTable =
      .ok (if addSQLs = [] ∧ dropSQLs = [] ∧ modifySQLs = [] ∧ dropIndexSQLs = [] ∧
            addIndexSQLs = [] then []
        else ["ALTER TABLE " ++ d.Quote (toSchemaTableName x t.Name) ++ " " ++
          join (addSQLs ++ dropSQLs ++ modifySQLs ++ dropIndexSQLs ++ addIndexSQLs) ", "]) := by
  simp only [TableAST.AlterTableQueries, TableAST.AlterTableQueries.plan, hAdd, hDrop, hModify,
    hDropIndex, hAddIndex, List.nil_append]
  by_cases h : addSQLs = [] ∧ dropSQLs = [] ∧ modifySQLs = [] ∧ dropIndexSQLs = [] ∧
      addIndexSQLs = []
  · obtain ⟨h1, h2, h3, h4, h5⟩ := h
    simp [h1, h2, h3, h4, h5]
  · have hlen : ¬ (addSQLs ++ dropSQLs ++ modifySQLs ++ dropIndexSQLs ++
        addIndexSQLs).length ≤ 0 := by
      intro hl
      apply h
      have := List.eq_nil_of_length_eq_zero (Nat.le_zero.mp hl)
      simp only [List.append_eq_nil] at this
      tauto
    rw [if_neg hlen, if_neg h]

/-! ## Lemmas: an unchanged table -/

theorem addFieldClauses_nil (x : Ext) (d : Dialect) (cur : GoMap columnSchema)
    (prev : Option Column) (cols : List Column)
    (h : ∀ col ∈ cols, (cur.get? col.Name).isSome = true) :
    addFieldClauses x d cur prev cols = [] := by
  induction cols generalizing prev with
  | nil => rfl
  | cons col rest ih =>
    simp only [addFieldClauses, h col (by simp), if_true, List.nil_append]
    exact ih _ (fun c hc => h c (List.mem_cons_of_mem _ hc))

theorem Table.ColumnMap_isSome (c : Table) (k : String) :
    (c.ColumnMap.get? k).isSome = true ↔ k ∈ c.Columns.map columnSchema.ColumnName := by
  have := GoMap.foldl_set_isSome columnSchema.ColumnName c.Columns GoMap.empty k
  simpa [GoMap.keys_empty, Table.ColumnMap_eq] using this

theorem dropFields_nil (x : Ext) (ρ : IterOrder) (d : Dialect) (t : TableAST) (c : Table)
    (cols : List Column) (hc : t.Columns x = .ok cols)
    (hsub : ∀ k, k ∈ c.Columns.map columnSchema.ColumnName → k ∈ cols.map Column.Name) :
    t.GenerateDropFieldSQLs x ρ d c.ColumnMap = .ok [] := by
  rw [TableAST.GenerateDropFieldSQLs_eq x ρ d t c.ColumnMap cols hc]
  have : (c.ColumnMap.range ρ).filter (fun e => !decide (e.1 ∈ cols.map Column.Name)) = [] := by
    rw [List.filter_eq_nil_iff]
    intro e he
    have hg := GoMap.range_get? ρ _ e he
    have hk : e.1 ∈ c.Columns.map columnSchema.ColumnName :=
      (Table.ColumnMap_isSome c e.1).mp (by rw [hg]; rfl)
    simp [hsub e.1 hk]
  rw [this]
  rfl

theorem TableAST.AlterTableQueries_nil (x : Ext) (ρ : IterOrder) (hρ : ρ.Valid) (d : Dialect)
    (t : TableAST) (c : Table) (cols : List Column) (idxs : List Index)
    (hc : t.Columns x = .ok cols) (hi : t.Indexes = .ok idxs)
    (hnames : ∀ k, k ∈ cols.map Column.Name ↔ k ∈ c.Columns.map columnSchema.ColumnName)
    (hsame : ∀ col ∈ cols, ∀ cur, c.ColumnMap.get? col.Name = some cur →
      x.hasDifference cur col = false)
    (hn : (idxs.map Index.Name).Nodup) (hcn : (c.Indexes.map Index.Name).Nodup)
    (hidx : ∀ i, i ∈ idxs ↔ i ∈ c.Indexes) :
    t.AlterTableQueries x ρ d c = .ok [] := by
  have hadd : t.GenerateAddFieldSQLs x d c.ColumnMap = .ok [] := by
    rw [TableAST.GenerateAddFieldSQLs_eq x d t c.ColumnMap cols hc, addFieldClauses_nil]
    intro col hcol
    exact (Table.ColumnMap_isSome c col.Name).mpr ((hnames _).mp (List.mem_map_of_mem _ hcol))
  have hdrop := dropFields_nil x ρ d t c cols hc (fun k hk => (hnames k).mpr hk)
  have hmod : t.GenerateModifyFieldSQLs x d c.ColumnMap = .ok [] := by
    rw [TableAST.GenerateModifyFieldSQLs_eq x d t c.ColumnMap cols hc]
    have : cols.filter (needsModify x c.ColumnMap) = [] := by
      rw [List.filter_eq_nil_iff]
      intro col hcol
      have hn : needsModify x c.ColumnMap col = match c.ColumnMap.get? col.Name with
          | some currentColum => x.hasDifference currentColum col
          | none => false := rfl
      rw [hn]
      split
      · rename_i cur hg
        simp [hsame col hcol cur hg]
      · simp
    rw [this]
    rfl
  obtain ⟨dropped, hdp, hd⟩ := dropIndex_perm ρ hρ d t c idxs hi hn hcn
  obtain ⟨added, hap, ha⟩ := addIndex_perm ρ hρ d t c idxs hi hn hcn
  have hd0 : dropped = [] := by
    have : c.Indexes.filter (fun o => !decide (o ∈ idxs)) = [] := by
      rw [List.filter_eq_nil_iff]
      intro o ho
      simp [(hidx o).mpr ho]
    rw [this] at hdp
    exact hdp.eq_nil
  have ha0 : added = [] := by
    have : idxs.filter (fun n => !decide (n ∈ c.Indexes)) = [] := by
      rw [List.filter_eq_nil_iff]
      intro o ho
      simp [(hidx o).mp ho]
    rw [this] at hap
    exact hap.eq_nil
  rw [hd0] at hd
  rw [ha0] at ha
  have := TableAST.AlterTableQueries_eq x ρ d t c [] [] [] [] [] hadd hdrop hmod hd ha
  simpa using this

/-! ## Lemmas: the ADD clauses -/

theorem addFieldClauses_append (x : Ext) (d : Dialect) (cur : GoMap columnSchema)
    (prev : Option Column) (pre : List Column) (p : Column) (rest : List Column) :
    addFieldClauses x d cur prev (pre ++ p :: rest) =
      addFieldClauses x d cur prev (pre ++ [p]) ++ addFieldClauses x d cur (some p) rest := by
  induction pre generalizing prev with
  | nil => simp [addFieldClauses]
  | cons a as ih => simp [addFieldClauses, ih, List.append_assoc]

theorem addFieldClauses_forall₂ (x : Ext) (d : Dialect) (cur : GoMap columnSchema)
    (prev : Option Column) (cols : List Column) :
    List.Forall₂ (fun col s => ∃ position, s = "ADD " ++ columnSQL x d col ++ " " ++ position)
      (cols.filter (fun col => (cur.get? col.Name).isNone))
      (addFieldClauses x d cur prev cols) := by
  induction cols generalizing prev with
  | nil => exact List.Forall₂.nil
  | cons col rest ih =>
    cases hg : cur.get? col.Name with
    | none =>
      simp only [addFieldClauses, hg, Option.isSome_none, Bool.false_eq_true, if_false,
        List.filter_cons, Option.isNone_none, if_true, List.singleton_append]
      exact List.Forall₂.cons ⟨_, rfl⟩ (ih _)
    | some o =>
      simp only [addFieldClauses, hg, Option.isSome_some, if_true, List.filter_cons,
        Option.isNone_some, Bool.false_eq_true, if_false, List.nil_append]
      exact ih _

/-! ## Lemmas: `strconv.ParseUint` -/

theorem splitChars_of_not_mem (sep : Char) (l : List Char) (h : sep ∉ l) :
    splitChars sep l = [l] := by
  induction l with
  | nil => rfl
  | cons c cs ih =>
    simp only [List.mem_cons, not_or] at h
    have hc : ¬ c = sep := fun e => h.1 e.symm
    simp [splitChars, hc, ih h.2]

theorem split_of_not_mem (s : String) (sep : Char) (h : sep ∉ s.data) : split s sep = [s] := by
  simp [split, splitChars_of_not_mem sep s.data h]

theorem splitN2Chars_prefix (sep : Char) (k v : List Char) (h : sep ∉ k) :
    splitN2Chars sep (k ++ sep :: v) = (k, some v) := by
  induction k with
  | nil => simp [splitN2Chars]
  | cons c cs ih =>
    simp only [List.mem_cons, not_or] at h
    have hc : ¬ c = sep := fun e => h.1 e.symm
    simp [splitN2Chars, hc, ih h.2]

theorem splitN2_prefix (k v : String) (sep : Char) (h : sep ∉ k.data) :
    splitN2 (k ++ String.mk [sep] ++ v) sep = (k, some v) := by
  simp [splitN2, String.data_append, splitN2Chars_prefix sep k.data v.data h]

theorem splitN2Chars_of_not_mem (sep : Char) (l : List Char) (h : sep ∉ l) :
    splitN2Chars sep l = (l, none) := by
  induction l with
  | nil => rfl
  | cons c cs ih =>
    simp only [List.mem_cons, not_or] at h
    have hc : ¬ c = sep := fun e => h.1 e.symm
    simp [splitN2Chars, hc, ih h.2]

theorem splitN2_of_not_mem (s : String) (sep : Char) (h : sep ∉ s.data) :
    splitN2 s sep = (s, none) := by
  simp [splitN2, splitN2Chars_of_not_mem sep s.data h]

theorem parseIndexStructTag.option_isPrimaryKey (st st' : IndexTagState) (opt : String)
    (h : parseIndexStructTag.option st opt = .ok st') :
    st'.isPrimaryKey = (st.isPrimaryKey || decide ((splitN2 opt ':').1 = tagPrimaryKey)) := by
  unfold parseIndexStructTag.option at h
  rcases hs : splitN2 opt ':' with ⟨key, val⟩
  rw [hs] at h
  simp only at h ⊢
  by_cases h1 : key = tagPrimaryKey
  · rw [if_pos h1] at h
    injection h with h
    rw [← h]
    simp [h1]
  · rw [if_neg h1] at h
    have hkeep : st'.isPrimaryKey = st.isPrimaryKey := by
      by_cases h2 : key = tagIndex
      · rw [if_pos h2] at h
        cases val with
        | none => simp at h
        | some v =>
          simp only at h
          split_ifs at h <;> first
            | exact Res.noConfusion h
            | (injection h with h; rw [← h])
      · rw [if_neg h2] at h
        by_cases h3 : key = tagUnique
        · rw [if_pos h3] at h
          injection h with h
          rw [← h]
        · rw [if_neg h3] at h
          exact Res.noConfusion h
    simp [hkeep, h1]

theorem parseIndexStructTag.loop_isPrimaryKey (st st' : IndexTagState) (opts : List String)
    (h : parseIndexStructTag.loop st opts = .ok st') :
    st'.isPrimaryKey =
      (st.isPrimaryKey || opts.any (fun opt => decide ((splitN2 opt ':').1 = tagPrimaryKey))) := by
  induction opts generalizing st with
  | nil =>
    simp only [parseIndexStructTag.loop, Res.ok.injEq] at h
    simp [← h]
  | cons opt rest ih =>
    unfold parseIndexStructTag.loop at h
    cases ho : parseIndexStructTag.option st opt with
    | err e => simp [ho] at h
    | panic e => simp [ho] at h
    | ok st₁ =>
      simp only [ho] at h
      rw [ih st₁ h, parseIndexStructTag.option_isPrimaryKey st st₁ opt ho, List.any_cons,
        Bool.or_assoc]

/-! ## Lemmas: the columns of a declaration -/

theorem parseStructTag.option_Ignore (f f' : Column) (opt : String)
    (h : parseStructTag.option f opt = .ok f') :
    f'.Ignore = (f.Ignore || decide ((splitN2 opt ':').1 = tagIgnore)) := by
  unfold parseStructTag.option at h
  rcases hs : splitN2 opt ':' with ⟨key, val⟩
  rw [hs] at h
  simp only at h ⊢
  by_cases h1 : key = tagDefault
  · rw [if_pos h1] at h
    have hk : ¬ key = tagIgnore := by rw [h1]; decide
    cases val with
    | none =>
      injection h with h
      simp [← h, hk]
    | some v =>
      simp only at h
      split_ifs at h <;> (injection h with h; simp [← h, hk])
  · rw [if_neg h1] at h
    by_cases h2 : key = tagPrimaryKey
    · rw [if_pos h2] at h
      have hk : ¬ key = tagIgnore := by rw [h2]; decide
      injection h with h
      simp [← h, hk]
    · rw [if_neg h2] at h
      by_cases h3 : key = tagAutoIncrement
      · rw [if_pos h3] at h
        have hk : ¬ key = tagIgnore := by rw [h3]; decide
        injection h with h
        simp [← h, hk]
      · rw [if_neg h3] at h
        by_cases h4 : key = tagUnique
        · rw [if_pos h4] at h
          have hk : ¬ key = tagIgnore := by rw [h4]; decide
          injection h with h
          simp [← h, hk]
        · rw [if_neg h4] at h
          by_cases h5 : key = tagIgnore
          · rw [if_pos h5] at h
            injection h with h
            simp [← h, h5]
          · rw [if_neg h5] at h
            by_cases h6 : key = tagSize
            · rw [if_pos h6] at h
              cases val with
              | none => exact Res.noConfusion h
              | some v =>
                simp only at h
                cases hp : parseUint v with
                | ok n =>
                  simp only [hp] at h
                  injection h with h
                  simp [← h, h5]
                | err e => simp [hp] at h
                | panic e => simp [hp] at h
            · rw [if_neg h6] at h
              exact Res.noConfusion h

theorem parseStructTag.loop_Ignore (f f' : Column) (opts : List String)
    (h : parseStructTag.loop f opts = .ok f') :
    f'.Ignore =
      (f.Ignore || opts.any (fun opt => decide ((splitN2 opt ':').1 = tagIgnore))) := by
  induction opts generalizing f with
  | nil =>
    simp only [parseStructTag.loop, Res.ok.injEq] at h
    simp [← h]
  | cons opt rest ih =>
    unfold parseStructTag.loop at h
    cases ho : parseStructTag.option f opt with
    | err e => simp [ho] at h
    | panic e => simp [ho] at h
    | ok f₁ =>
      simp only [ho] at h
      rw [ih f₁ h, parseStructTag.option_Ignore f f₁ opt ho, List.any_cons, Bool.or_assoc]

theorem newColumnFromAST_Ignore (typeName : String) (fld : Field) (f : Column)
    (h : newColumnFromAST typeName fld = .ok f) :
    f.Ignore = true ↔
      ∃ v, fld.Tag = some (.migu v) ∧ v ≠ "" ∧
        ∃ opt ∈ split v tagSeparater, (splitN2 opt ':').1 = tagIgnore := by
  unfold newColumnFromAST at h
  cases ht : fld.Tag with
  | none =>
    simp only [ht] at h
    injection h with h
    rw [← h]
    cases fld.Comment <;> simp only [] <;> split_ifs <;> simp
  | some lit =>
    cases lit with
    | bad msg => simp [ht] at h
    | migu v =>
      simp only [ht] at h
      cases hp : parseStructTag { Typ := typeName } v with
      | err e => simp [hp] at h
      | panic e => simp [hp] at h
      | ok ret =>
        have hmain : ret.Ignore = true ↔
            ∃ v', some (TagLit.migu v) = some (.migu v') ∧ v' ≠ "" ∧
              ∃ opt ∈ split v' tagSeparater, (splitN2 opt ':').1 = tagIgnore := by
          unfold parseStructTag at hp
          by_cases hv : v = ""
          · rw [if_pos hv] at hp
            injection hp with hp
            simp [← hp, hv]
          · rw [if_neg hv] at hp
            rw [parseStructTag.loop_Ignore _ ret _ hp]
            simp [hv, List.any_eq_true]
        simp only [hp] at h
        injection h with h
        rw [← h]
        cases fld.Comment <;> simp only [] <;> split_ifs <;> exact hmain

theorem TableAST.Columns.loop_spec (x : Ext) (fields : List Field) (models cols : List Column)
    (h : TableAST.Columns.loop x fields models = .ok cols) :
    ∃ parsed : List Column,
      List.Forall₂ (fun fld f => ∃ typeName, detectTypeName.ofField fld = .ok typeName ∧
        newColumnFromAST typeName fld = .ok f) fields parsed ∧
      cols = models ++ declaredColumns x (fields.zip parsed) := by
  induction fields generalizing models with
  | nil =>
    simp only [TableAST.Columns.loop, Res.ok.injEq] at h
    exact ⟨[], List.Forall₂.nil, by simp [declaredColumns, h]⟩
  | cons fld rest ih =>
    unfold TableAST.Columns.loop at h
    cases hd : detectTypeName.ofField fld with
    | err e => simp [hd] at h
    | panic e => simp [hd] at h
    | ok typeName =>
      simp only [hd] at h
      cases hn : newColumnFromAST typeName fld with
      | err e => simp [hn] at h
      | panic e => simp [hn] at h
      | ok f =>
        simp only [hn] at h
        by_cases hi : f.Ignore = true
        · rw [if_pos hi] at h
          obtain ⟨parsed, hp, hc⟩ := ih models h
          refine ⟨f :: parsed, List.Forall₂.cons ⟨typeName, hd, hn⟩ hp, ?_⟩
          rw [hc]
          simp [declaredColumns, hi]
        · rw [if_neg hi] at h
          obtain ⟨parsed, hp, hc⟩ := ih _ h
          refine ⟨f :: parsed, List.Forall₂.cons ⟨typeName, hd, hn⟩ hp, ?_⟩
          rw [hc]
          simp [declaredColumns, hi, List.append_assoc]

theorem declaredColumns_not_ignored (x : Ext) (parsed : List (Field × Column)) :
    ∀ c ∈ declaredColumns x parsed, c.Ignore = false := by
  intro c hc
  simp only [declaredColumns, List.mem_flatMap] at hc
  obtain ⟨p, _, hp⟩ := hc
  by_cases hi : p.2.Ignore = true
  · simp [hi] at hp
  · rw [if_neg hi] at hp
    obtain ⟨ident, _, hc⟩ := List.mem_map.mp hp
    rw [← hc]
    simpa using hi

theorem TableAST.Columns.loop_skip (x : Ext) (pre : List Field) (fld : Field)
    (post : List Field) (models : List Column) (typeName : String) (f : Column)
    (hd : detectTypeName.ofField fld = .ok typeName)
    (hn : newColumnFromAST typeName fld = .ok f) (hi : f.Ignore = true) :
    TableAST.Columns.loop x (pre ++ fld :: post) models =
      TableAST.Columns.loop x (pre ++ post) models := by
  induction pre generalizing models with
  | nil =>
    simp only [List.nil_append]
    conv_lhs => unfold TableAST.Columns.loop
    simp only [hd, hn, hi, if_true]
  | cons a as ih =>
    simp only [List.cons_append]
    conv_lhs => unfold TableAST.Columns.loop
    conv_rhs => unfold TableAST.Columns.loop
    cases detectTypeName.ofField a with
    | err e => rfl
    | panic e => rfl
    | ok tn =>
      simp only []
      cases newColumnFromAST tn a with
      | err e => rfl
      | panic e => rfl
      | ok g =>
        simp only []
        split_ifs
        · exact ih _
        · exact ih _

theorem declaredColumns_schema_form (x : Ext)
    (hidem : ∀ s, x.SnakeCase (x.SnakeCase s) = x.SnakeCase s)
    (parsed : List (Field × Column)) :
    ∀ c ∈ declaredColumns x parsed, toSchemaFieldName x c.Name = c.Name := by
  intro c hc
  simp only [declaredColumns, List.mem_flatMap] at hc
  obtain ⟨p, _, hp⟩ := hc
  by_cases hi : p.2.Ignore = true
  · simp [hi] at hp
  · rw [if_neg hi] at hp
    obtain ⟨ident, _, hc⟩ := List.mem_map.mp hp
    rw [← hc]
    exact hidem ident

theorem TableAST.Columns_schema_form (x : Ext)
    (hidem : ∀ s, x.SnakeCase (x.SnakeCase s) = x.SnakeCase s) (t : TableAST)
    (cols : List Column) (hc : t.Columns x = .ok cols) :
    ∀ c ∈ cols, toSchemaFieldName x c.Name = c.Name := by
  cases hf : t.ColumnAST with
  | none => simp [TableAST.Columns, hf] at hc
  | some fields =>
    have hloop : TableAST.Columns.loop x fields [] = .ok cols := by
      simpa [TableAST.Columns, hf] using hc
    obtain ⟨parsed, _, hcols⟩ := TableAST.Columns.loop_spec x fields [] cols hloop
    rw [List.nil_append] at hcols
    rw [hcols]
    exact declaredColumns_schema_form x hidem _

/-! ## Lemmas: joining and splitting -/

theorem intercalate_go_data (acc sep : String) (l : List String) :
    (String.intercalate.go acc sep l).data =
      acc.data ++ l.flatMap (fun a => sep.data ++ a.data) := by
  induction l generalizing acc with
  | nil => simp [String.intercalate.go]
  | cons a as ih => simp [String.intercalate.go, ih, String.data_append, List.append_assoc]

theorem join_cons_data (p : String) (ps : List String) (sep : String) :
    (join (p :: ps) sep).data = p.data ++ ps.flatMap (fun a => sep.data ++ a.data) := by
  simp [join, String.intercalate, intercalate_go_data]

theorem splitChars_append_sep (sep : Char) (p rest : List Char) (hp : sep ∉ p) :
    splitChars sep (p ++ sep :: rest) = p :: splitChars sep rest := by
  induction p with
  | nil => simp [splitChars]
  | cons c cs ih =>
    simp only [List.mem_cons, not_or] at hp
    have hc : ¬ c = sep := fun e => hp.1 e.symm
    simp [splitChars, hc, ih hp.2]

theorem splitChars_join (sep : Char) (p : List Char) (ps : List (List Char)) (hp : sep ∉ p)
    (hps : ∀ q ∈ ps, sep ∉ q) :
    splitChars sep (p ++ ps.flatMap (fun q => sep :: q)) = p :: ps := by
  induction ps generalizing p with
  | nil => simpa using splitChars_of_not_mem sep p hp
  | cons q qs ih =>
    rw [List.flatMap_cons, List.cons_append, splitChars_append_sep sep p _ hp,
      ih q (hps q (List.mem_cons_self _ _)) (fun r hr => hps r (List.mem_cons_of_mem _ hr))]

theorem split_join (sep : Char) (p : String) (ps : List String)
    (h : ∀ q ∈ p :: ps, sep ∉ q.data) :
    split (join (p :: ps) (String.mk [sep])) sep = p :: ps := by
  have hdata : (join (p :: ps) (String.mk [sep])).data =
      p.data ++ (ps.map String.data).flatMap (fun q => sep :: q) := by
    rw [join_cons_data, List.flatMap_map]
    rfl
  have hps : ∀ q ∈ ps.map String.data, sep ∉ q := by
    intro q hq
    obtain ⟨r, hr, hrq⟩ := List.mem_map.mp hq
    rw [← hrq]
    exact h r (List.mem_cons_of_mem _ hr)
  rw [split, hdata, splitChars_join sep p.data _ (h p (List.mem_cons_self _ _)) hps]
  simp [List.map_map, Function.comp_def]

theorem splitChars_ne_nil (sep : Char) (l : List Char) : splitChars sep l ≠ [] := by
  induction l with
  | nil => simp [splitChars]
  | cons c cs ih =>
    unfold splitChars
    split_ifs
    · simp
    · split <;> simp

theorem split_length_pos (s : String) (sep : Char) : 1 ≤ (split s sep).length := by
  have h := splitChars_ne_nil sep s.data
  rw [split, List.length_map]
  exact List.length_pos.mpr h

/-! ## Lemmas: the index options -/

theorem parseIndexStructTag.option_unique (st : IndexTagState) :
    parseIndexStructTag.option st "unique" =
      .ok { st with index := { st.index with Unique := true } } := by
  have hs : splitN2 "unique" ':' = ("unique", none) := by decide
  simp [parseIndexStructTag.option, hs, tagPrimaryKey, tagIndex, tagUnique]

theorem parseIndexStructTag.loop_unique (st : IndexTagState) (us : List String)
    (h : ∀ o ∈ us, o = "unique") :
    parseIndexStructTag.loop st us =
      .ok { st with index := { st.index with Unique := st.index.Unique || !us.isEmpty } } := by
  induction us generalizing st with
  | nil => simp [parseIndexStructTag.loop]
  | cons o os ih =>
    rw [h o (List.mem_cons_self _ _)]
    simp only [parseIndexStructTag.loop, parseIndexStructTag.option_unique]
    rw [ih _ (fun r hr => h r (List.mem_cons_of_mem _ hr))]
    simp

theorem parseIndexStructTag.loop_append (st : IndexTagState) (a b : List String) :
    parseIndexStructTag.loop st (a ++ b) =
      match parseIndexStructTag.loop st a with
      | .ok st' => parseIndexStructTag.loop st' b
      | .err e => .err e
      | .panic e => .panic e := by
  induction a generalizing st with
  | nil => simp [parseIndexStructTag.loop]
  | cons o os ih =>
    simp only [List.cons_append, parseIndexStructTag.loop]
    cases parseIndexStructTag.option st o with
    | ok st' => exact ih st'
    | err e => rfl
    | panic e => rfl

theorem parseIndexStructTag.option_index (st : IndexTagState) (p1 : String) (ps : List String)
    (h : ∀ q ∈ p1 :: ps, ',' ∉ q.data) :
    parseIndexStructTag.option st ("index:" ++ join (p1 :: ps) ",") =
      .ok { st with
        index := { st.index with Name := p1, ColumnNames := some (if ps = [] then [p1] else ps) } } := by
  have hs : splitN2 ("index:" ++ join (p1 :: ps) ",") ':' =
      ("index", some (join (p1 :: ps) ",")) :=
    splitN2_prefix "index" (join (p1 :: ps) ",") ':' (by decide)
  have hsplit : split (join (p1 :: ps) ",") ',' = p1 :: ps := split_join ',' p1 ps h
  simp only [parseIndexStructTag.option, hs, hsplit, tagPrimaryKey, tagIndex]
  cases ps with
  | nil => simp
  | cons q qs => simp

theorem parseIndexStructTag.option_index_err_iff (st : IndexTagState) (opt : String) :
    (∃ e, parseIndexStructTag.option st opt = .err e) ↔ badIndexOption opt = true := by
  unfold parseIndexStructTag.option badIndexOption indexOptionKeys
  rcases hs : splitN2 opt ':' with ⟨key, val⟩
  simp only
  by_cases h1 : key = tagPrimaryKey
  · subst h1
    simp [tagPrimaryKey, tagIndex]
  · rw [if_neg h1]
    by_cases h2 : key = tagIndex
    · subst h2
      rw [if_pos rfl]
      cases val with
      | none => simp
      | some v =>
        have hl := split_length_pos v ','
        have hl' : ¬ (split v ',').length < 1 := by omega
        simp only [hl', if_false]
        split_ifs <;> simp
    · rw [if_neg h2]
      by_cases h3 : key = tagUnique
      · subst h3
        simp [tagUnique, tagIndex]
      · rw [if_neg h3]
        simp [h1, h2, h3]

theorem parseIndexStructTag.option_index_ok_or_err (st : IndexTagState) (opt : String) :
    (∃ st', parseIndexStructTag.option st opt = .ok st') ∨
      ∃ e, parseIndexStructTag.option st opt = .err e := by
  unfold parseIndexStructTag.option
  rcases splitN2 opt ':' with ⟨key, val⟩
  simp only
  split_ifs
  · exact Or.inl ⟨_, rfl⟩
  · cases val with
    | none => exact Or.inr ⟨_, rfl⟩
    | some v =>
      simp only
      split_ifs
      · exact Or.inr ⟨_, rfl⟩
      · exact Or.inl ⟨_, rfl⟩
      · exact Or.inl ⟨_, rfl⟩
  · exact Or.inl ⟨_, rfl⟩
  · exact Or.inr ⟨_, rfl⟩

theorem parseIndexStructTag.loop_index_ok_or_err (st : IndexTagState) (opts : List String) :
    (∃ st', parseIndexStructTag.loop st opts = .ok st') ∨
      ∃ e, parseIndexStructTag.loop st opts = .err e := by
  induction opts generalizing st with
  | nil => exact Or.inl ⟨st, rfl⟩
  | cons o os ih =>
    unfold parseIndexStructTag.loop
    rcases parseIndexStructTag.option_index_ok_or_err st o with ⟨st', h⟩ | ⟨e, h⟩
    · rw [h]
      exact ih st'
    · rw [h]
      exact Or.inr ⟨e, rfl⟩

theorem parseIndexStructTag.loop_index_err_iff (st : IndexTagState) (opts : List String) :
    (∃ e, parseIndexStructTag.loop st opts = .err e) ↔
      ∃ opt ∈ opts, badIndexOption opt = true := by
  induction opts generalizing st with
  | nil => simp [parseIndexStructTag.loop]
  | cons o os ih =>
    unfold parseIndexStructTag.loop
    rcases parseIndexStructTag.option_index_ok_or_err st o with ⟨st', h⟩ | ⟨e, h⟩
    · have hgood : ¬ badIndexOption o = true := by
        rw [← parseIndexStructTag.option_index_err_iff st o, h]
        rintro ⟨e, he⟩
        exact Res.noConfusion he
      rw [h]
      simp [ih st', hgood]
    · have hbad : badIndexOption o = true :=
        (parseIndexStructTag.option_index_err_iff st o).mp ⟨e, h⟩
      rw [h]
      simp [hbad]

theorem parseIndexStructTag_ok_or_err (migu : String) :
    (∃ index, parseIndexStructTag migu = .ok index) ∨ ∃ e, parseIndexStructTag migu = .err e := by
  unfold parseIndexStructTag
  by_cases h : migu = ""
  · rw [if_pos h]
    exact Or.inr ⟨_, rfl⟩
  · rw [if_neg h]
    rcases parseIndexStructTag.loop_index_ok_or_err {} (split migu tagSeparater) with ⟨st, hl⟩ | ⟨e, hl⟩
    · rw [hl]
      simp only
      split_ifs
      · exact Or.inl ⟨_, rfl⟩
      · exact Or.inl ⟨_, rfl⟩
    · rw [hl]
      exact Or.inr ⟨e, rfl⟩

theorem parseIndexStructTag_err_iff (migu : String) :
    (∃ e, parseIndexStructTag migu = .err e) ↔
      migu = "" ∨ ∃ opt ∈ split migu tagSeparater, badIndexOption opt = true := by
  unfold parseIndexStructTag
  by_cases h : migu = ""
  · simp [h]
  · rw [if_neg h, ← parseIndexStructTag.loop_index_err_iff {} (split migu tagSeparater)]
    simp only [h, false_or]
    rcases parseIndexStructTag.loop_index_ok_or_err {} (split migu tagSeparater) with ⟨st, hl⟩ | ⟨e, hl⟩
    · rw [hl]
      simp only
      split_ifs <;> simp
    · rw [hl]
      simp

theorem index_option_no_separator (p1 : String) (ps : List String)
    (hp : ∀ p ∈ p1 :: ps, ';' ∉ p.data) :
    ';' ∉ ("index:" ++ join (p1 :: ps) ",").data := by
  rw [String.data_append, join_cons_data]
  simp only [List.mem_append, List.mem_flatMap, not_or, not_exists, not_and]
  refine ⟨by decide, hp p1 (List.mem_cons_self _ _), ?_⟩
  intro q hq
  exact ⟨by decide, hp q (List.mem_cons_of_mem _ hq)⟩

theorem index_option_ne_empty (v : String) : "index:" ++ v ≠ "" := by
  intro h
  have := congrArg String.data h
  simp [String.data_append] at this

theorem split_options (l : List String) (hl : l ≠ []) (h : ∀ o ∈ l, ';' ∉ o.data) :
    split (join l ";") tagSeparater = l := by
  cases l with
  | nil => exact absurd rfl hl
  | cons a as => exact split_join ';' a as h

theorem unique_mem_iff (us : List String) (h : ∀ o ∈ us, o = "unique") :
    decide ("unique" ∈ us) = !us.isEmpty := by
  cases us with
  | nil => rfl
  | cons o os =>
    rw [h o (List.mem_cons_self _ _)]
    simp

theorem TableAST.Indexes.loop_err (fields : List Field) (indexes : List Index) (fld : Field)
    (v : String) (hm : fld ∈ fields) (ht : fld.Tag = some (.migu v))
    (he : ∃ e, parseIndexStructTag v = .err e) :
    ∃ e, TableAST.Indexes.loop fields indexes = .err e := by
  induction fields generalizing indexes with
  | nil => simp at hm
  | cons f rest ih =>
    unfold TableAST.Indexes.loop
    by_cases hf : fld = f
    · subst hf
      obtain ⟨e, he⟩ := he
      rw [ht]
      simp only [he]
      exact ⟨_, rfl⟩
    · have hrest : fld ∈ rest := by
        rcases List.mem_cons.mp hm with h | h
        · exact absurd h hf
        · exact h
      cases hft : f.Tag with
      | none => exact ih indexes hrest
      | some tag =>
        cases tag with
        | bad msg => exact ⟨_, rfl⟩
        | migu w =>
          simp only
          rcases parseIndexStructTag_ok_or_err w with ⟨index, hw⟩ | ⟨e, hw⟩
          · rw [hw]
            exact ih _ hrest
          · rw [hw]
            exact ⟨_, rfl⟩

/-! ## Lemmas: failures of the column and index declarations -/

theorem TableAST.AlterTableQueries_panic (x : Ext) (ρ : IterOrder) (d : Dialect) (t : TableAST)
    (currentTable : Table) (e : String) (h : t.Columns x = .err e) :
    t.AlterTableQueries x ρ d currentTable = .panic e := by
  simp [TableAST.AlterTableQueries, TableAST.AlterTableQueries.plan,
    TableAST.GenerateAddFieldSQLs, TableAST.MustColumns, h]

theorem Diff_panic_singleton (x : Ext) (ρ : IterOrder) (name : String) (t : TableAST)
    (C : GoMap Table) (currentTable : Table) (e : String)
    (hc : C.get? name = some currentTable) (h : t.Columns x = .err e) :
    Diff x ρ ⟨[(name, t)]⟩ C = .panic e := by
  have hnames : sortTableASTNames ⟨[(name, t)]⟩ = [name] := rfl
  have hget : (⟨[(name, t)]⟩ : GoMap TableAST).get? name = some t := by
    simp [GoMap.get?, GoMap.lookup]
  simp only [Diff, hnames, Diff.loop, hget, hc,
    TableAST.AlterTableQueries_panic x ρ MySQL.dialect t currentTable e h]

theorem unknown_option_ne_noColumnError (opt : String) :
    "migu: parseIndexStructTag: unknown option: `" ++ opt ++ "'" ≠ noColumnError := by
  intro h
  have h2 := congrArg (fun s => s.data.take 28) h
  simp only [String.data_append, List.append_assoc] at h2
  rw [List.take_append_of_le_length (by decide)] at h2
  exact absurd h2 (by decide)

theorem parseIndexStructTag.option_ne_noColumnError (st : IndexTagState) (opt : String) :
    parseIndexStructTag.option st opt ≠ .err noColumnError := by
  unfold parseIndexStructTag.option
  rcases splitN2 opt ':' with ⟨key, val⟩
  simp only
  split_ifs
  · exact fun h => Res.noConfusion h
  · cases val with
    | none =>
      intro h
      injection h with h
      exact absurd h (by decide)
    | some v =>
      have hl := split_length_pos v ','
      have hl' : ¬ (split v ',').length < 1 := by omega
      simp only [hl', if_false]
      split_ifs <;> exact fun h => Res.noConfusion h
  · exact fun h => Res.noConfusion h
  · intro h
    injection h with h
    exact unknown_option_ne_noColumnError opt h

theorem parseIndexStructTag.loop_ne_noColumnError (st : IndexTagState) (opts : List String) :
    parseIndexStructTag.loop st opts ≠ .err noColumnError := by
  induction opts generalizing st with
  | nil => exact fun h => Res.noConfusion h
  | cons o os ih =>
    unfold parseIndexStructTag.loop
    cases ho : parseIndexStructTag.option st o with
    | ok st' => exact ih st'
    | err e =>
      intro h
      injection h with h
      rw [h] at ho
      exact parseIndexStructTag.option_ne_noColumnError st o ho
    | panic e => exact fun h => Res.noConfusion h

theorem parseIndexStructTag_ne_noColumnError (migu : String) :
    parseIndexStructTag migu ≠ .err noColumnError := by
  unfold parseIndexStructTag
  by_cases h : migu = ""
  · rw [if_pos h]
    intro h'
    injection h' with h'
    exact absurd h' (by decide)
  · rw [if_neg h]
    cases hl : parseIndexStructTag.loop {} (split migu tagSeparater) with
    | ok st =>
      simp only
      split_ifs <;> exact fun h => Res.noConfusion h
    | err e =>
      intro h'
      injection h' with h'
      rw [h'] at hl
      exact parseIndexStructTag.loop_ne_noColumnError _ _ hl
    | panic e => exact fun h => Res.noConfusion h

/-! ## Lemmas: the statement loop of `Sync` -/

theorem Sync.loop_all_ok (db : DB) (sqls : List String) (log : List TxEvent)
    (h : ∀ j t, sqls[j]? = some t → db.Exec (log ++ (sqls.take j).map .Exec) t = none) :
    Sync.loop db sqls log = (log ++ sqls.map .Exec, none) := by
  induction sqls generalizing log with
  | nil => simp [Sync.loop]
  | cons s rest ih =>
    have h0 : db.Exec log s = none := by simpa using h 0 s (by simp)
    have hrest : ∀ j t, rest[j]? = some t →
        db.Exec ((log ++ [TxEvent.Exec s]) ++ (rest.take j).map .Exec) t = none := by
      intro j t hj
      have := h (j + 1) t (by simpa using hj)
      simpa using this
    simp only [Sync.loop, h0]
    rw [ih (log ++ [TxEvent.Exec s]) hrest]
    simp

theorem Sync.loop_first_failure (db : DB) (sqls : List String) (log : List TxEvent) (i : Nat)
    (s e : String) (hi : sqls[i]? = some s)
    (hbefore : ∀ j t, j < i → sqls[j]? = some t →
      db.Exec (log ++ (sqls.take j).map .Exec) t = none)
    (hfail : db.Exec (log ++ (sqls.take i).map .Exec) s = some e) :
    Sync.loop db sqls log = (log ++ (sqls.take (i + 1)).map .Exec ++ [.Rollback], some e) := by
  induction sqls generalizing log i with
  | nil => simp at hi
  | cons s0 rest ih =>
    cases i with
    | zero =>
      have hs : s0 = s := by simpa using hi
      subst hs
      have hf : db.Exec log s0 = some e := by simpa using hfail
      simp [Sync.loop, hf]
    | succ k =>
      have h0 : db.Exec log s0 = none := by simpa using hbefore 0 s0 (Nat.succ_pos k) (by simp)
      have hk : rest[k]? = some s := by simpa using hi
      have hrest : ∀ j t, j < k → rest[j]? = some t →
          db.Exec ((log ++ [TxEvent.Exec s0]) ++ (rest.take j).map .Exec) t = none := by
        intro j t hj hjt
        have := hbefore (j + 1) t (Nat.succ_lt_succ hj) (by simpa using hjt)
        simpa using this
      have hfail' : db.Exec ((log ++ [TxEvent.Exec s0]) ++ (rest.take k).map .Exec) s = some e := by
        simpa using hfail
      simp only [Sync.loop, h0]
      rw [ih (log ++ [TxEvent.Exec s0]) k hk hrest hfail']
      simp

theorem Sync.loop_shape (db : DB) (sqls : List String) (log : List TxEvent) :
    Sync.loop db sqls log = (log ++ sqls.map .Exec, none) ∨
    ∃ pre s post e, sqls = pre ++ s :: post ∧
      Sync.loop db sqls log = (log ++ pre.map .Exec ++ [.Exec s, .Rollback], some e) := by
  induction sqls generalizing log with
  | nil => exact Or.inl (by simp [Sync.loop])
  | cons s0 rest ih =>
    cases h0 : db.Exec log s0 with
    | some e =>
      exact Or.inr ⟨[], s0, rest, e, rfl, by simp [Sync.loop, h0]⟩
    | none =>
      rcases ih (log ++ [TxEvent.Exec s0]) with h | ⟨pre, s, post, e, hsplit, h⟩
      · exact Or.inl (by simp [Sync.loop, h0, h])
      · exact Or.inr ⟨s0 :: pre, s, post, e, by rw [hsplit]; rfl, by simp [Sync.loop, h0, h]⟩

theorem Sync.apply_first_failure (db : DB) (sqls : List String) (hb : db.Begin = none) (i : Nat)
    (s e : String) (hi : sqls[i]? = some s)
    (hbefore : ∀ j t, j < i → sqls[j]? = some t →
      db.Exec (.Begin :: (sqls.take j).map .Exec) t = none)
    (hfail : db.Exec (.Begin :: (sqls.take i).map .Exec) s = some e) :
    Sync.apply db (.ok sqls) =
      (.Begin :: (sqls.take (i + 1)).map .Exec ++ [.Rollback], .err e) := by
  have h := Sync.loop_first_failure db sqls [.Begin] i s e hi hbefore hfail
  simp only [Sync.apply, hb, h]
  simp

theorem Sync.apply_all_ok (db : DB) (sqls : List String) (hb : db.Begin = none)
    (h : ∀ j t, sqls[j]? = some t → db.Exec (.Begin :: (sqls.take j).map .Exec) t = none) :
    Sync.apply db (.ok sqls) =
      (.Begin :: sqls.map .Exec ++ [.Commit],
        match db.Commit (.Begin :: sqls.map .Exec) with
        | some e => .err e
        | none => .ok ()) := by
  have h := Sync.loop_all_ok db sqls [.Begin] h
  simp only [Sync.apply, hb, h]
  simp

theorem Sync.apply_shape (db : DB) (sqls : List String) (hb : db.Begin = none) :
    ((Sync.apply db (.ok sqls)).1 = .Begin :: sqls.map .Exec ++ [.Commit] ∧
      (Sync.apply db (.ok sqls)).1.count .Commit = 1 ∧
      TxEvent.Rollback ∉ (Sync.apply db (.ok sqls)).1) ∨
    ∃ pre s post e, sqls = pre ++ s :: post ∧
      Sync.apply db (.ok sqls) = (.Begin :: pre.map .Exec ++ [.Exec s, .Rollback], .err e) ∧
      TxEvent.Commit ∉ (Sync.apply db (.ok sqls)).1 := by
  rcases Sync.loop_shape db sqls [.Begin] with h | ⟨pre, s, post, e, hsplit, h⟩
  · left
    have hs : (Sync.apply db (.ok sqls)).1 = .Begin :: sqls.map .Exec ++ [.Commit] := by
      simp only [Sync.apply, hb, h]
      simp
    rw [hs]
    refine ⟨rfl, ?_, ?_⟩
    · have hz : List.count TxEvent.Commit (sqls.map TxEvent.Exec) = 0 := by
        rw [List.count_eq_zero]
        simp
      simp [List.count_cons, List.count_append, hz]
    · simp
  · right
    have hs : Sync.apply db (.ok sqls) =
        (.Begin :: pre.map .Exec ++ [.Exec s, .Rollback], .err e) := by
      simp only [Sync.apply, hb, h]
      simp
    refine ⟨pre, s, post, e, hsplit, hs, ?_⟩
    rw [hs]
    simp

/-! ## Lemmas: lower-casing -/

theorem char_eq_of_toNat_eq {c d : Char} (h : c.toNat = d.toNat) : c = d := by
  apply Char.ext
  apply UInt32.ext
  exact h

theorem toLower_eq_lower_iff (c t : Char) (ht : 97 ≤ t.toNat ∧ t.toNat ≤ 122) :
    c.toLower = t ↔ c = t ∨ c.toNat + 32 = t.toNat := by
  constructor
  · intro h
    unfold Char.toLower at h
    simp only at h
    split_ifs at h with hc
    · right
      obtain ⟨n, hn⟩ : ∃ n, c.toNat = n := ⟨_, rfl⟩
      rw [hn] at h hc ⊢
      obtain ⟨h1, h2⟩ := hc
      rw [← h]
      interval_cases n <;> rfl
    · left
      exact h
  · rintro (h | h)
    · subst h
      unfold Char.toLower
      simp only
      rw [if_neg (by omega)]
    · unfold Char.toLower
      simp only
      rw [if_pos (by omega), h]
      exact char_eq_of_toNat_eq (by
        obtain ⟨n, hn⟩ : ∃ n, t.toNat = n := ⟨_, rfl⟩
        rw [hn] at ht ⊢
        obtain ⟨h1, h2⟩ := ht
        interval_cases n <;> rfl)

theorem toLower_eq_digit_iff (c t : Char) (ht : t.toNat < 65) : c.toLower = t ↔ c = t := by
  constructor
  · intro h
    unfold Char.toLower at h
    simp only at h
    split_ifs at h with hc
    · exfalso
      obtain ⟨n, hn⟩ : ∃ n, c.toNat = n := ⟨_, rfl⟩
      rw [hn] at h hc
      obtain ⟨h1, h2⟩ := hc
      rw [← h] at ht
      interval_cases n <;> exact absurd ht (by decide)
    · exact h
  · intro h
    subst h
    unfold Char.toLower
    simp only
    rw [if_neg (by omega)]

theorem toLower_eq_letter (c t u : Char) (ht : 97 ≤ t.toNat ∧ t.toNat ≤ 122)
    (hu : u.toNat + 32 = t.toNat) (h : c.toLower = t) : c = t ∨ c = u := by
  rcases (toLower_eq_lower_iff c t ht).mp h with h1 | h1
  · exact Or.inl h1
  · exact Or.inr (char_eq_of_toNat_eq (by omega))

theorem toLower_eq_one (v : String) (h : toLower v = "1") : v = "1" := by
  have hd := congrArg String.data h
  simp only [toLower] at hd
  obtain ⟨l⟩ := v
  simp only [List.map_eq_cons_iff, List.map_eq_nil_iff] at hd
  obtain ⟨a, l1, rfl, ha, rfl⟩ := hd
  rw [(toLower_eq_digit_iff a '1' (by decide)).mp ha]

theorem toLower_eq_on (v : String) (h : toLower v = "on") : v ∈ ["on", "oN", "On", "ON"] := by
  have hd := congrArg String.data h
  simp only [toLower] at hd
  obtain ⟨l⟩ := v
  simp only [List.map_eq_cons_iff, List.map_eq_nil_iff] at hd
  obtain ⟨a, l1, rfl, ha, b, l2, rfl, hb, rfl⟩ := hd
  rcases toLower_eq_letter a 'o' 'O' (by decide) (by decide) ha with rfl | rfl <;>
    rcases toLower_eq_letter b 'n' 'N' (by decide) (by decide) hb with rfl | rfl <;>
    decide

theorem toLower_eq_true (v : String) (h : toLower v = "true") :
    v ∈ [ "true", "truE", "trUe", "trUE", "tRue", "tRuE", "tRUe", "tRUE",
      "True", "TruE", "TrUe", "TrUE", "TRue", "TRuE", "TRUe", "TRUE" ] := by
  have hd := congrArg String.data h
  simp only [toLower] at hd
  obtain ⟨l⟩ := v
  simp only [List.map_eq_cons_iff, List.map_eq_nil_iff] at hd
  obtain ⟨a, l1, rfl, ha, b, l2, rfl, hb, c, l3, rfl, hc, d, l4, rfl, hd, rfl⟩ := hd
  rcases toLower_eq_letter a 't' 'T' (by decide) (by decide) ha with rfl | rfl <;>
    rcases toLower_eq_letter b 'r' 'R' (by decide) (by decide) hb with rfl | rfl <;>
    rcases toLower_eq_letter c 'u' 'U' (by decide) (by decide) hc with rfl | rfl <;>
    rcases toLower_eq_letter d 'e' 'E' (by decide) (by decide) hd with rfl | rfl <;>
    decide

theorem normalizeBoolDefaultTagTo0or1_eq_one_iff (v : String) :
    normalizeBoolDefaultTagTo0or1 v = "1" ↔ v ∈ boolTrueLiterals := by
  constructor
  · intro h
    unfold normalizeBoolDefaultTagTo0or1 at h
    simp only at h
    split_ifs at h with hl
    · rcases hl with hl | hl | hl
      · rw [toLower_eq_one v hl]
        decide
      · have := toLower_eq_true v hl
        simp only [List.mem_cons, List.mem_singleton, List.not_mem_nil, or_false] at this
        rcases this with h1 | h1 | h1 | h1 | h1 | h1 | h1 | h1 | h1 | h1 | h1 | h1 | h1 | h1 |
          h1 | h1 <;> subst h1 <;> decide
      · have := toLower_eq_on v hl
        simp only [List.mem_cons, List.mem_singleton, List.not_mem_nil, or_false] at this
        rcases this with h1 | h1 | h1 | h1 <;> subst h1 <;> decide
    · exact absurd h (by decide)
  · intro h
    simp only [boolTrueLiterals, List.mem_cons, List.mem_singleton, List.not_mem_nil,
      or_false] at h
    rcases h with h | h | h | h | h | h | h | h | h | h | h | h | h | h | h | h | h | h | h |
      h | h <;> subst h <;> decide

/-! ## Lemmas: the table a statement names -/

theorem columnSQL_eq (x : Ext) (d : Dialect) (f : Column) :
    columnSQL x d f =
      join ([d.Quote (toSchemaFieldName x f.Name),
          (d.ColumnType f.Typ f.Size f.AutoIncrement).1] ++
        (if (d.ColumnType f.Typ f.Size f.AutoIncrement).2 = true then [] else ["NOT NULL"]) ++
        (if f.Default ≠ "" then ["DEFAULT", formatDefault d f.Typ f.Default] else []) ++
        (if f.PrimaryKey = true then ["PRIMARY KEY"] else []) ++
        (if f.AutoIncrement = true ∧ d.AutoIncrement ≠ "" then [d.AutoIncrement] else []) ++
        (if f.Unique = true then ["UNIQUE"] else []) ++
        (if f.Comment ≠ "" then ["COMMENT", d.QuoteString f.Comment] else [])) " " := by
  unfold columnSQL
  rcases hct : d.ColumnType f.Typ f.Size f.AutoIncrement with ⟨ty, null⟩
  cases null <;> by_cases h1 : f.Default = "" <;> cases h2 : f.PrimaryKey <;>
    by_cases h3 : f.AutoIncrement = true ∧ d.AutoIncrement ≠ "" <;>
    cases h4 : f.Unique <;> by_cases h5 : f.Comment = "" <;>
    simp [h1, h3, h5]

/-- C2: idempotence.  When the desired and the observed schema have the same table
names and, for every table, the column and index declarations parse, both sides have the
same column names, `hasDifference` holds of no desired column and the observed column of
its name, and both sides have the same indexes (index names distinct within a table),
then `Diff` returns the empty statement list, and `AlterTableQueries` returns no
statement for each table. -/
theorem Diff_idempotent (x : Ext) (ρ : IterOrder) (hρ : ρ.Valid) (E : GoMap TableAST)
    (C : GoMap Table) (hE : E.keys.Nodup) (hkeys : ∀ n, n ∈ E.keys ↔ n ∈ C.keys)
    (hwf : ∀ n t c, E.get? n = some t → C.get? n = some c →
      ∃ cols idxs, t.Columns x = .ok cols ∧ t.Indexes = .ok idxs ∧
        (∀ k, k ∈ cols.map Column.Name ↔ k ∈ c.Columns.map columnSchema.ColumnName) ∧
        (∀ col ∈ cols, ∀ cur, c.ColumnMap.get? col.Name = some cur →
          x.hasDifference cur col = false) ∧
        (idxs.map Index.Name).Nodup ∧ (c.Indexes.map Index.Name).Nodup ∧
        (∀ i, i ∈ idxs ↔ i ∈ c.Indexes)) :
    Diff x ρ E C = .ok [] ∧
    ∀ n t c, E.get? n = some t → C.get? n = some c →
      t.AlterTableQueries x ρ MySQL.dialect c = .ok [] := by
  have hAlter : ∀ n t c, E.get? n = some t → C.get? n = some c →
      t.AlterTableQueries x ρ MySQL.dialect c = .ok [] := by
    intro n t c h1 h2
    obtain ⟨cols, idxs, hc, hi, hnames, hsame, hn, hcn, hidx⟩ := hwf n t c h1 h2
    exact TableAST.AlterTableQueries_nil x ρ hρ MySQL.dialect t c cols idxs hc hi hnames hsame
      hn hcn hidx
  refine ⟨?_, hAlter⟩
  have hCreate : ∀ n t, E.get? n = some t → C.get? n = none →
      t.CreateTableQuery x MySQL.dialect = .ok ((fun _ => ([] : List String)) n) := by
    intro n t h1 h2
    have hn : n ∈ C.keys := (hkeys n).mp ((GoMap.get?_isSome_iff E n).mp (by rw [h1]; rfl))
    exact absurd hn ((GoMap.get?_eq_none_iff C n).mp h2)
  have h := Diff_eq x ρ hρ E C hE (fun _ => []) hCreate hAlter
  have hfil : C.keys.filter (fun k => !decide (k ∈ E.keys)) = [] := by
    rw [List.filter_eq_nil_iff]
    intro k hk
    simp [(hkeys k).mpr hk]
  have hnil : ρ [] = [] := (hρ []).eq_nil
  rw [hfil, hnil] at h
  rw [h]
  simp

/-- Witness of C2: the declarations `User` and `UserIndex` against the observed table
they describe: `Diff` returns no statement. -/
theorem Diff_idempotent_witness :
    IterOrder.Valid List.reverse ∧
    Diff Ext.sample List.reverse ⟨[("user", userIndexedAST)]⟩ ⟨[("user", userSameTable)]⟩ =
      .ok [] :=
  ⟨fun l => List.reverse_perm l,
    (Diff_idempotent Ext.sample List.reverse (fun l => List.reverse_perm l)
      ⟨[("user", userIndexedAST)]⟩ ⟨[("user", userSameTable)]⟩ (by decide)
      (by intro n; simp [GoMap.keys])
      (by
        intro n t c h1 h2
        have hk : n = "user" := by
          have := (GoMap.get?_isSome_iff (⟨[("user", userIndexedAST)]⟩ : GoMap TableAST) n).mp
            (by rw [h1]; rfl)
          simpa [GoMap.keys] using this
        subst hk
        have ht : t = userIndexedAST := by
          have : (⟨[("user", userIndexedAST)]⟩ : GoMap TableAST).get? "user" =
              some userIndexedAST := by decide
          rw [this] at h1
          exact (Option.some.inj h1).symm
        have hc : c = userSameTable := by
          have : (⟨[("user", userSameTable)]⟩ : GoMap Table).get? "user" =
              some userSameTable := by decide
          rw [this] at h2
          exact (Option.some.inj h2).symm
        subst ht
        subst hc
        refine ⟨[ { Name := "id", Typ := "int", PrimaryKey := true, AutoIncrement := true },
            { Name := "name", Typ := "string", Size := 50 } ],
          [ { Name := "PRIMARY", Unique := true, ColumnNames := some ["id"] },
            { Name := "idx_name", Unique := true, ColumnNames := some ["name"] } ],
          by decide, by decide, ?_, ?_, by decide, by decide, ?_⟩
        · intro k
          simp [userSameTable]
        · intro col hcol cur hcur
          simp only [List.mem_cons, List.mem_singleton, List.not_mem_nil, or_false] at hcol
          rcases hcol with hcol | hcol
          · subst hcol
            have : userSameTable.ColumnMap.get? "id" =
                some { TableName := "user", ColumnName := "id", DataType := "int" } := by decide
            rw [this] at hcur
            rw [← Option.some.inj hcur]
            decide
          · subst hcol
            have : userSameTable.ColumnMap.get? "name" =
                some
                  { TableName := "user"
                    ColumnName := "name"
                    DataType := "varchar"
                    CharacterMaximumLength := some 50 } := by decide
            rw [this] at hcur
            rw [← Option.some.inj hcur]
            decide
        · intro i
          simp only [userSameTable, List.mem_cons, List.mem_singleton, List.not_mem_nil,
            or_false]
          exact or_comm)).1⟩

/-- C3 (violated by the code): the output of `Diff` depends on the order in which the
runtime visits map keys.  For the desired schema `User`, `Event` and the observed tables
`user`, `zebra`, `audit`, visiting the keys in stored order and in reverse order (both
visit every key once) gives the two DROP TABLE statements in different orders; and for
the declaration `UserIndex` the clauses of the one ALTER statement change their order. -/
theorem Diff_depends_on_iteration_order :
    IterOrder.Valid id ∧ IterOrder.Valid List.reverse ∧
    Diff Ext.sample id shopExpected shopCurrent = .ok
      [ "CREATE TABLE `event` (\n  `created_at` DATETIME NOT NULL, `id` INT NOT NULL\n)",
        "ALTER TABLE `user` MODIFY `name` VARCHAR(50) NOT NULL",
        "DROP TABLE `zebra`", "DROP TABLE `audit`" ] ∧
    Diff Ext.sample List.reverse shopExpected shopCurrent = .ok
      [ "CREATE TABLE `event` (\n  `created_at` DATETIME NOT NULL, `id` INT NOT NULL\n)",
        "ALTER TABLE `user` MODIFY `name` VARCHAR(50) NOT NULL",
        "DROP TABLE `audit`", "DROP TABLE `zebra`" ] ∧
    Diff Ext.sample id shopExpected shopCurrent ≠
      Diff Ext.sample List.reverse shopExpected shopCurrent ∧
    Diff Ext.sample id ⟨[("user", userIndexedAST)]⟩ ⟨[("user", userIndexedTable)]⟩ = .ok
      [ "ALTER TABLE `user` DROP INDEX `idx_name`, DROP INDEX `idx_old`, " ++
        "ADD UNIQUE INDEX `idx_name` (`name`)" ] ∧
    Diff Ext.sample List.reverse ⟨[("user", userIndexedAST)]⟩ ⟨[("user", userIndexedTable)]⟩ =
      .ok [ "ALTER TABLE `user` DROP INDEX `idx_old`, DROP INDEX `idx_name`, " ++
        "ADD UNIQUE INDEX `idx_name` (`name`)" ] :=
  ⟨fun _ => List.Perm.refl _, fun l => List.reverse_perm l, by decide, by decide, by decide,
    by decide, by decide⟩

/-- Counterexample to C4 as stated: the columns of the declaration `User` parse, but its
index struct carries an unknown option, and `CreateTableQuery` returns an error instead
of a statement. -/
theorem CreateTableQuery_statement_counterexample :
    userBadIndexAST.Columns Ext.sample = .ok
      [ { Name := "id", Typ := "int", PrimaryKey := true, AutoIncrement := true },
        { Name := "name", Typ := "string", Size := 50 } ] ∧
    userBadIndexAST.CreateTableQuery Ext.sample MySQL.dialect =
      .err ("migu: TableAST.CreateTableQuery error. migu: TableAST.indexDefinitions error. " ++
        "migu: TableAST.Indexes error. migu: parseIndexStructTag: unknown option: `fulltext'") ∧
    ∀ s, userBadIndexAST.CreateTableQuery Ext.sample MySQL.dialect ≠ .ok [s] := by
  refine ⟨by decide, by decide, ?_⟩
  intro s h
  have h2 : userBadIndexAST.CreateTableQuery Ext.sample MySQL.dialect =
      .err ("migu: TableAST.CreateTableQuery error. migu: TableAST.indexDefinitions error. " ++
        "migu: TableAST.Indexes error. migu: parseIndexStructTag: unknown option: `fulltext'") := by
    decide
  rw [h2] at h
  exact Res.noConfusion h

/-- C4 (amended): for every desired table whose columns and index declarations parse,
`CreateTableQuery` returns exactly one statement `CREATE TABLE <quoted snake-case table
name> ( <definitions> )` whose definition list is the `columnSQL` rendering of every
column that `Columns` returns, in declared order, followed by the definition of every
declared index in declared order, all joined by a comma and a blank; with no declared
index the list holds the column clauses only. -/
theorem CreateTableQuery_statement (x : Ext) (d : Dialect) (t : TableAST)
    (cols : List Column) (idxs : List Index)
    (hc : t.Columns x = .ok cols) (hi : t.Indexes = .ok idxs) :
    t.CreateTableQuery x d =
      .ok ["CREATE TABLE " ++ d.Quote (toSchemaTableName x t.Name) ++ " (\n  " ++
        join (cols.map (columnSQL x d) ++ idxs.map (fun i => i.AsCreateTableDefinition d)) ", "
        ++ "\n)"] ∧
    (idxs = [] →
      t.CreateTableQuery x d =
        .ok ["CREATE TABLE " ++ d.Quote (toSchemaTableName x t.Name) ++ " (\n  " ++
          join (cols.map (columnSQL x d)) ", " ++ "\n)"]) := by
  have h := TableAST.CreateTableQuery_eq x d t cols idxs hc hi
  refine ⟨h, ?_⟩
  intro h0
  rw [h, h0]
  simp

/-- Witness of C4 (amended): the columns `id int autoincrement pk` and
`name string size:50` of the declaration `User`, which has no index struct, give the two
column clauses in this order and no index clause. -/
theorem CreateTableQuery_statement_witness :
    userAST.Columns Ext.sample = .ok
      [ { Name := "id", Typ := "int", PrimaryKey := true, AutoIncrement := true },
        { Name := "name", Typ := "string", Size := 50 } ] ∧
    userAST.Indexes = .ok [] ∧
    [ columnSQL Ext.sample MySQL.dialect
        { Name := "id", Typ := "int", PrimaryKey := true, AutoIncrement := true },
      columnSQL Ext.sample MySQL.dialect { Name := "name", Typ := "string", Size := 50 } ] =
      [ "`id` INT NOT NULL PRIMARY KEY AUTO_INCREMENT", "`name` VARCHAR(50) NOT NULL" ] ∧
    userAST.CreateTableQuery Ext.sample MySQL.dialect = .ok
      [ "CREATE TABLE `user` (\n  `id` INT NOT NULL PRIMARY KEY AUTO_INCREMENT, " ++
        "`name` VARCHAR(50) NOT NULL\n)" ] :=
  ⟨by decide, by decide, by decide,
    ((CreateTableQuery_statement Ext.sample MySQL.dialect userAST
      [ { Name := "id", Typ := "int", PrimaryKey := true, AutoIncrement := true },
        { Name := "name", Typ := "string", Size := 50 } ] [] (by decide) (by decide)).2
      rfl).trans (by decide)⟩

/-- C5: `AlterTableQueries` returns no statement when the five clause lists are all
empty, and otherwise the single statement `ALTER TABLE <quoted table name> <clauses>`
whose clauses are the column adds, column drops, column modifies, index drops and index
adds, in this order, joined by a comma and a blank. -/
theorem AlterTableQueries_statement (x : Ext) (ρ : IterOrder) (d : Dialect) (t : TableAST)
    (currentTable : Table) (addSQLs dropSQLs modifySQLs dropIndexSQLs addIndexSQLs : List String)
    (hAdd : t.GenerateAddFieldSQLs x d currentTable.ColumnMap = .ok addSQLs)
    (hDrop : t.GenerateDropFieldSQLs x ρ d currentTable.ColumnMap = .ok dropSQLs)
    (hModify : t.GenerateModifyFieldSQLs x d currentTable.ColumnMap = .ok modifySQLs)
    (hDropIndex : t.GenerateDropIndexSQLs ρ d currentTable.IndexMap = .ok dropIndexSQLs)
    (hAddIndex : t.GenerateAddIndexSQLs ρ d currentTable.IndexMap = .ok addIndexSQLs) :
    t.AlterTableQueries x ρ d currentTable =
      .ok (if addSQLs = [] ∧ dropSQLs = [] ∧ modifySQLs = [] ∧ dropIndexSQLs = [] ∧
            addIndexSQLs = [] then []
        else ["ALTER TABLE " ++ d.Quote (toSchemaTableName x t.Name) ++ " " ++
          join (addSQLs ++ dropSQLs ++ modifySQLs ++ dropIndexSQLs ++ addIndexSQLs) ", "]) :=
  TableAST.AlterTableQueries_eq x ρ d t currentTable addSQLs dropSQLs modifySQLs dropIndexSQLs
    addIndexSQLs hAdd hDrop hModify hDropIndex hAddIndex

/-- Witness of C5: the declarations `User`, `UserIndex` against the observed table with a
non-unique `idx_name` and an index `idx_old`: one ALTER statement with the index drops
before the index add; and against the table they describe: no statement. -/
theorem AlterTableQueries_statement_witness :
    userIndexedAST.AlterTableQueries Ext.sample id MySQL.dialect userIndexedTable =
      .ok [ "ALTER TABLE `user` DROP INDEX `idx_name`, DROP INDEX `idx_old`, " ++
        "ADD UNIQUE INDEX `idx_name` (`name`)" ] ∧
    userIndexedAST.AlterTableQueries Ext.sample id MySQL.dialect userSameTable = .ok [] :=
  ⟨(AlterTableQueries_statement Ext.sample id MySQL.dialect userIndexedAST userIndexedTable
      [] [] [] ["DROP INDEX `idx_name`", "DROP INDEX `idx_old`"]
      ["ADD UNIQUE INDEX `idx_name` (`name`)"]
      (by decide) (by decide) (by decide) (by decide) (by decide)).trans (by decide),
    (AlterTableQueries_statement Ext.sample id MySQL.dialect userIndexedAST userSameTable
      [] [] [] [] [] (by decide) (by decide) (by decide) (by decide) (by decide)).trans
      (by decide)⟩

/-- C6: for a desired column list and an observed column map, `GenerateAddFieldSQLs`
returns the ADD clauses as the spec words them: one clause `ADD <columnSQL> <position>`
for every desired column whose name is absent from the observed map, in declared order.
The position of the first desired column is `FIRST`; the position of any other column is
`AFTER` and the quoted name of the desired column right before it, whether or not that
column is new itself. -/
theorem GenerateAddFieldSQLs_clauses (x : Ext) (d : Dialect) (t : TableAST)
    (cur : GoMap columnSchema) (cols : List Column) (hc : t.Columns x = .ok cols) :
    t.GenerateAddFieldSQLs x d cur = .ok (addFieldClauses x d cur none cols) ∧
    List.Forall₂ (fun col s => ∃ position, s = "ADD " ++ columnSQL x d col ++ " " ++ position)
      (cols.filter (fun col => (cur.get? col.Name).isNone))
      (addFieldClauses x d cur none cols) ∧
    (∀ col rest, cols = col :: rest → cur.get? col.Name = none →
      (addFieldClauses x d cur none cols).head? =
        some ("ADD " ++ columnSQL x d col ++ " " ++ "FIRST")) ∧
    (∀ pre prev col post, cols = pre ++ prev :: col :: post → cur.get? col.Name = none →
      ("ADD " ++ columnSQL x d col ++ " " ++ ("AFTER " ++ d.Quote prev.Name)) ∈
        addFieldClauses x d cur none cols) := by
  refine ⟨TableAST.GenerateAddFieldSQLs_eq x d t cur cols hc,
    addFieldClauses_forall₂ x d cur none cols, ?_, ?_⟩
  · intro col rest h hg
    subst h
    simp [addFieldClauses, hg, positionClause]
  · intro pre prev col post h hg
    subst h
    rw [addFieldClauses_append]
    apply List.mem_append_right
    simp [addFieldClauses, hg, positionClause]

/-- Witness of C6: the desired columns `created_at`, `id` of the declaration `Event`
against an observed table whose only column is `id` give one clause, ending in `FIRST`. -/
theorem GenerateAddFieldSQLs_clauses_witness :
    eventAST.Columns Ext.sample = .ok
      [ { Name := "created_at", Typ := "time.Time" }, { Name := "id", Typ := "int" } ] ∧
    eventAST.GenerateAddFieldSQLs Ext.sample MySQL.dialect eventTable.ColumnMap =
      .ok ["ADD `created_at` DATETIME NOT NULL FIRST"] :=
  ⟨by decide,
    (GenerateAddFieldSQLs_clauses Ext.sample MySQL.dialect eventAST eventTable.ColumnMap
      [ { Name := "created_at", Typ := "time.Time" }, { Name := "id", Typ := "int" } ]
      (by decide)).1.trans (by decide)⟩

/-- C7 (violated by the code): `GenerateDropFieldSQLs` names the snake-case form of the
observed column name, not the observed column.  For the declaration `Account` with the
one column `user_id` and an observed table with the columns `userId` and `user_id`, the
only observed column absent from the desired ones is `userId`, and the clause returned
for it is DROP `user_id`, which names the desired column. -/
theorem GenerateDropFieldSQLs_names_snake_case :
    accountAST.Columns Ext.sample = .ok [ { Name := "user_id", Typ := "int" } ] ∧
    accountTable.ColumnMap.keys = ["userId", "user_id"] ∧
    accountAST.GenerateDropFieldSQLs Ext.sample id MySQL.dialect accountTable.ColumnMap =
      .ok ["DROP `user_id`"] ∧
    "DROP " ++ MySQL.Quote "userId" = "DROP `userId`" ∧
    accountAST.GenerateDropFieldSQLs Ext.sample id MySQL.dialect accountTable.ColumnMap ≠
      .ok ["DROP " ++ MySQL.Quote "userId"] :=
  ⟨by decide, by decide, by decide, by decide, by decide⟩

/-- C8: for a desired column list and an observed column map, `GenerateModifyFieldSQLs`
returns, in declared order, one clause `MODIFY <columnSQL>` for every desired column that
has an observed column of its name with `hasDifference` holding of the two, and nothing
else.  A desired column with an ADD clause (name absent from the observed map) shares its
name with no column that has a MODIFY clause.  When both sides have the same column names
and exactly one desired column differs, the plan holds the single MODIFY clause and no
ADD or DROP column clause. -/
theorem GenerateModifyFieldSQLs_clauses (x : Ext) (ρ : IterOrder) (d : Dialect) (t : TableAST)
    (cur : GoMap columnSchema) (cols : List Column) (hc : t.Columns x = .ok cols) :
    t.GenerateModifyFieldSQLs x d cur =
      .ok ((cols.filter (needsModify x cur)).map (fun col => "MODIFY " ++ columnSQL x d col)) ∧
    (∀ col, needsModify x cur col = true ↔
      ∃ o, cur.get? col.Name = some o ∧ x.hasDifference o col = true) ∧
    (∃ adds, t.GenerateAddFieldSQLs x d cur = .ok adds ∧
      List.Forall₂ (fun col s => ∃ position, s = "ADD " ++ columnSQL x d col ++ " " ++ position)
        (cols.filter (fun col => (cur.get? col.Name).isNone)) adds) ∧
    (∀ a ∈ cols.filter (fun col => (cur.get? col.Name).isNone),
      ∀ m ∈ cols.filter (needsModify x cur), a.Name ≠ m.Name) ∧
    (∀ col, (∀ k, k ∈ cols.map Column.Name ↔ k ∈ cur.keys) →
      cols.filter (needsModify x cur) = [col] →
      t.GenerateModifyFieldSQLs x d cur = .ok ["MODIFY " ++ columnSQL x d col] ∧
      t.GenerateAddFieldSQLs x d cur = .ok [] ∧
      t.GenerateDropFieldSQLs x ρ d cur = .ok []) := by
  have hmod := TableAST.GenerateModifyFieldSQLs_eq x d t cur cols hc
  have hiff : ∀ col, needsModify x cur col = true ↔
      ∃ o, cur.get? col.Name = some o ∧ x.hasDifference o col = true := by
    intro col
    have hn : needsModify x cur col = match cur.get? col.Name with
        | some currentColum => x.hasDifference currentColum col
        | none => false := rfl
    rw [hn]
    split
    · rename_i o hg
      simp [hg]
    · rename_i hg
      simp [hg]
  refine ⟨hmod, hiff, ⟨_, TableAST.GenerateAddFieldSQLs_eq x d t cur cols hc,
    addFieldClauses_forall₂ x d cur none cols⟩, ?_, ?_⟩
  · intro a ha m hm hname
    have h1 := (List.mem_filter.mp ha).2
    obtain ⟨o, ho, _⟩ := (hiff m).mp (List.mem_filter.mp hm).2
    rw [hname, ho] at h1
    simp at h1
  · intro col hnames hone
    refine ⟨by rw [hmod, hone]; rfl, ?_, ?_⟩
    · rw [TableAST.GenerateAddFieldSQLs_eq x d t cur cols hc, addFieldClauses_nil]
      intro c hcm
      exact (GoMap.get?_isSome_iff cur c.Name).mpr ((hnames _).mp (List.mem_map_of_mem _ hcm))
    · rw [TableAST.GenerateDropFieldSQLs_eq x ρ d t cur cols hc]
      have : (cur.range ρ).filter (fun e => !decide (e.1 ∈ cols.map Column.Name)) = [] := by
        rw [List.filter_eq_nil_iff]
        intro e he
        have hg := GoMap.range_get? ρ _ e he
        have hk : e.1 ∈ cur.keys := (GoMap.get?_isSome_iff cur e.1).mp (by rw [hg]; rfl)
        simp [(hnames e.1).mpr hk]
      rw [this]
      rfl

/-- Witness of C8: the declaration `User` (`name string size:50`) against the observed
table whose `name` column has length 100: the column names agree, only `name` differs,
and the plan is the single clause MODIFY `name` VARCHAR(50) NOT NULL. -/
theorem GenerateModifyFieldSQLs_clauses_witness :
    userAST.Columns Ext.sample = .ok
      [ { Name := "id", Typ := "int", PrimaryKey := true, AutoIncrement := true },
        { Name := "name", Typ := "string", Size := 50 } ] ∧
    userAST.GenerateModifyFieldSQLs Ext.sample MySQL.dialect userTable100.ColumnMap =
      .ok ["MODIFY `name` VARCHAR(50) NOT NULL"] ∧
    userAST.GenerateAddFieldSQLs Ext.sample MySQL.dialect userTable100.ColumnMap = .ok [] ∧
    userAST.GenerateDropFieldSQLs Ext.sample List.reverse MySQL.dialect userTable100.ColumnMap =
      .ok [] :=
  ⟨by decide,
    ((GenerateModifyFieldSQLs_clauses Ext.sample List.reverse MySQL.dialect userAST
      userTable100.ColumnMap
      [ { Name := "id", Typ := "int", PrimaryKey := true, AutoIncrement := true },
        { Name := "name", Typ := "string", Size := 50 } ] (by decide)).1).trans (by decide),
    ((GenerateModifyFieldSQLs_clauses Ext.sample List.reverse MySQL.dialect userAST
      userTable100.ColumnMap
      [ { Name := "id", Typ := "int", PrimaryKey := true, AutoIncrement := true },
        { Name := "name", Typ := "string", Size := 50 } ] (by decide)).2.2.2.2
      { Name := "name", Typ := "string", Size := 50 }
      (by intro k; simp [userTable100, Table.ColumnMap, GoMap.keys, GoMap.set, GoMap.assign,
        GoMap.empty])
      (by decide)).2⟩

/-- Counterexample to C9 as stated: the desired index of the tag `pk` and an observed
index `PRIMARY` with an empty slice of column names have the same name, the same unique
flag and the same (empty) ordered column list, so by the rule of the claim they are equal
and get no clause; but `reflect.DeepEqual` tells the slice that was never set from the
empty one, and the observed index gets the clause `DROP PRIMARY KEY` and the desired one
an ADD clause. -/
theorem index_clauses_follow_equivalence_counterexample :
    userPkTagAST.Indexes = .ok [ { Name := "PRIMARY", Unique := true, ColumnNames := none } ] ∧
    userEmptyPrimaryTable.Indexes =
      [ { Name := "PRIMARY", Unique := true, ColumnNames := some [] } ] ∧
    ({ Name := "PRIMARY", Unique := true, ColumnNames := none } : Index).columnList =
      ({ Name := "PRIMARY", Unique := true, ColumnNames := some [] } : Index).columnList ∧
    deepEqualIndex { Name := "PRIMARY", Unique := true, ColumnNames := some [] }
      { Name := "PRIMARY", Unique := true, ColumnNames := none } = false ∧
    userPkTagAST.GenerateDropIndexSQLs id MySQL.dialect userEmptyPrimaryTable.IndexMap =
      .ok ["DROP PRIMARY KEY"] ∧
    userPkTagAST.GenerateAddIndexSQLs id MySQL.dialect userEmptyPrimaryTable.IndexMap =
      .ok ["ADD " ++ ({ Name := "PRIMARY", Unique := true, ColumnNames := none } :
        Index).AsCreateTableDefinition MySQL.dialect] :=
  ⟨by decide, by decide, by decide, by decide, by decide, by decide⟩

/-- C9 (amended): index clauses follow the equivalence rule of `reflect.DeepEqual`: two
indexes are equal iff name and unique flag are equal and the column names are both not
set, or both set and the same in the same order; when one of the two indexes has a
column, this is the rule that name, unique flag and ordered column list are equal.  For
a desired index list and an observed table whose index names are distinct, and for every
iteration order of each of the two loops, `GenerateDropIndexSQLs` returns one drop clause
per index of `dropped` and `GenerateAddIndexSQLs` one clause `ADD <definition>` per index
of `added`, where an observed index is in `dropped` iff no desired index of its name is
equal to it, and a desired index is in `added` iff no observed index of its name is equal
to it.  So an index on both sides gets no clause, and an index whose name is on both
sides with another unique flag or column list gets a drop clause and an add clause.  When
every observed index has a column, as the indexes read from the database have, an
observed index is in `dropped` iff no desired index has its name, unique flag and ordered
column list, and likewise for `added`. -/
theorem index_clauses_follow_equivalence (ρ ρ' : IterOrder) (hρ : ρ.Valid) (hρ' : ρ'.Valid)
    (d : Dialect) (t : TableAST) (c : Table) (idxs : List Index) (hi : t.Indexes = .ok idxs)
    (hn : (idxs.map Index.Name).Nodup) (hc : (c.Indexes.map Index.Name).Nodup) :
    (∀ a b : Index,
      deepEqualIndex a b = true ↔
        a.Name = b.Name ∧ a.Unique = b.Unique ∧
        ((a.ColumnNames = none ∧ b.ColumnNames = none) ∨
          ∃ l, a.ColumnNames = some l ∧ b.ColumnNames = some l)) ∧
    (∀ a b : Index, a.columnList ≠ [] ∨ b.columnList ≠ [] →
      (deepEqualIndex a b = true ↔
        a.Name = b.Name ∧ a.Unique = b.Unique ∧ a.columnList = b.columnList)) ∧
    ∃ dropped added : List Index,
      t.GenerateDropIndexSQLs ρ d c.IndexMap = .ok (dropped.map (dropIndexClause d)) ∧
      t.GenerateAddIndexSQLs ρ' d c.IndexMap =
        .ok (added.map (fun n => "ADD " ++ n.AsCreateTableDefinition d)) ∧
      dropped.Nodup ∧ added.Nodup ∧
      (∀ o, o ∈ dropped ↔
        o ∈ c.Indexes ∧ ∀ n ∈ idxs, n.Name = o.Name → deepEqualIndex o n = false) ∧
      (∀ n, n ∈ added ↔
        n ∈ idxs ∧ ∀ o ∈ c.Indexes, o.Name = n.Name → deepEqualIndex n o = false) ∧
      (∀ i, i ∈ idxs → i ∈ c.Indexes → i ∉ dropped ∧ i ∉ added) ∧
      (∀ o n, o ∈ c.Indexes → n ∈ idxs → o.Name = n.Name →
        (o.Unique ≠ n.Unique ∨ o.columnList ≠ n.columnList) → o ∈ dropped ∧ n ∈ added) ∧
      ((∀ o ∈ c.Indexes, o.columnList ≠ []) →
        (∀ o, o ∈ dropped ↔
          o ∈ c.Indexes ∧ ¬ ∃ n ∈ idxs,
            n.Name = o.Name ∧ n.Unique = o.Unique ∧ n.columnList = o.columnList) ∧
        (∀ n, n ∈ added ↔
          n ∈ idxs ∧ ¬ ∃ o ∈ c.Indexes,
            o.Name = n.Name ∧ o.Unique = n.Unique ∧ o.columnList = n.columnList)) := by
  obtain ⟨dropped, hdp, hd⟩ := dropIndex_perm ρ hρ d t c idxs hi hn hc
  obtain ⟨added, hap, ha⟩ := addIndex_perm ρ' hρ' d t c idxs hi hn hc
  have hmd : ∀ o, o ∈ dropped ↔ o ∈ c.Indexes ∧ o ∉ idxs := by
    intro o
    rw [hdp.mem_iff]
    simp [List.mem_filter]
  have hma : ∀ n, n ∈ added ↔ n ∈ idxs ∧ n ∉ c.Indexes := by
    intro n
    rw [hap.mem_iff]
    simp [List.mem_filter]
  have hnot : ∀ (l : List Index) (v : Index),
      (∀ w ∈ l, w.Name = v.Name → deepEqualIndex v w = false) ↔ v ∉ l := by
    intro l v
    constructor
    · intro h hv
      have := h v hv rfl
      rw [deepEqualIndex_eq_false_iff] at this
      exact this rfl
    · intro h w hw _
      rw [deepEqualIndex_eq_false_iff]
      intro hvw
      exact h (hvw ▸ hw)
  have hrule : ∀ a b : Index, a.columnList ≠ [] ∨ b.columnList ≠ [] →
      (deepEqualIndex a b = true ↔
        a.Name = b.Name ∧ a.Unique = b.Unique ∧ a.columnList = b.columnList) := by
    intro a b hab
    obtain ⟨an, au, ac⟩ := a
    obtain ⟨bn, bu, bc⟩ := b
    cases ac <;> cases bc <;>
      simp [deepEqualIndex, deepEqualStrings, Index.columnList, and_assoc] at hab ⊢
    · intro _ _ h
      exact hab h
    · intro _ _ h
      exact hab h
  have hlist : ∀ (l : List Index) (v : Index), (l.map Index.Name).Nodup →
      (v.columnList ≠ [] ∨ ∀ w ∈ l, w.columnList ≠ []) →
      (v ∉ l ↔ ¬ ∃ w ∈ l, w.Name = v.Name ∧ w.Unique = v.Unique ∧
        w.columnList = v.columnList) := by
    intro l v _ hcol
    constructor
    · rintro hv ⟨w, hw, h1, h2, h3⟩
      have hor : w.columnList ≠ [] ∨ v.columnList ≠ [] := by
        rcases hcol with h | h
        · exact Or.inr h
        · exact Or.inl (h w hw)
      have := (hrule w v hor).mpr ⟨h1, h2, h3⟩
      rw [deepEqualIndex_iff] at this
      exact hv (this ▸ hw)
    · intro h hv
      exact h ⟨v, hv, rfl, rfl, rfl⟩
  refine ⟨?_, hrule, dropped, added, hd, ha, ?_, ?_, ?_, ?_, ?_, ?_, ?_⟩
  · intro a b
    obtain ⟨an, au, ac⟩ := a
    obtain ⟨bn, bu, bc⟩ := b
    cases ac <;> cases bc <;> simp [deepEqualIndex, deepEqualStrings, and_assoc]
    intro _ _
    exact eq_comm
  · exact hdp.nodup_iff.mpr ((List.Nodup.of_map _ hc).filter _)
  · exact hap.nodup_iff.mpr ((List.Nodup.of_map _ hn).filter _)
  · intro o
    rw [hmd, hnot]
  · intro n
    rw [hma, hnot]
  · intro i h1 h2
    exact ⟨fun h => ((hmd i).mp h).2 h1, fun h => ((hma i).mp h).2 h2⟩
  · intro o n ho hn' hname hdiff
    have hne : o ≠ n := by
      intro h
      rw [h] at hdiff
      rcases hdiff with h1 | h1 <;> exact h1 rfl
    refine ⟨(hmd o).mpr ⟨ho, ?_⟩, (hma n).mpr ⟨hn', ?_⟩⟩
    · intro ho'
      exact hne (List.inj_on_of_nodup_map hn ho' hn' hname)
    · intro hn''
      exact hne (List.inj_on_of_nodup_map hc ho hn'' hname)
  · intro hobs
    refine ⟨?_, ?_⟩
    · intro o
      rw [hmd]
      constructor
      · rintro ⟨ho, hno⟩
        exact ⟨ho, (hlist idxs o hn (Or.inl (hobs o ho))).mp hno⟩
      · rintro ⟨ho, hno⟩
        exact ⟨ho, (hlist idxs o hn (Or.inl (hobs o ho))).mpr hno⟩
    · intro n
      rw [hma, hlist c.Indexes n hc (Or.inr hobs)]

/-- Witness of C9 (amended): the declaration `UserIndex` (primary key on `id`, unique
index `idx_name`) against an observed table with the same primary key, a non-unique
`idx_name` and an index `idx_old`: the changed `idx_name` and the removed `idx_old` are
dropped, the changed `idx_name` is added, and the primary key gets no clause. -/
theorem index_clauses_follow_equivalence_witness :
    IterOrder.Valid id ∧
    userIndexedAST.Indexes = .ok
      [ { Name := "PRIMARY", Unique := true, ColumnNames := some ["id"] },
        { Name := "idx_name", Unique := true, ColumnNames := some ["name"] } ] ∧
    userIndexedAST.GenerateDropIndexSQLs id MySQL.dialect userIndexedTable.IndexMap =
      .ok ["DROP INDEX `idx_name`", "DROP INDEX `idx_old`"] ∧
    userIndexedAST.GenerateAddIndexSQLs id MySQL.dialect userIndexedTable.IndexMap =
      .ok ["ADD UNIQUE INDEX `idx_name` (`name`)"] ∧
    ∀ a b : Index, a.columnList ≠ [] ∨ b.columnList ≠ [] →
      (deepEqualIndex a b = true ↔
        a.Name = b.Name ∧ a.Unique = b.Unique ∧ a.columnList = b.columnList) :=
  ⟨fun _ => List.Perm.refl _, by decide, by decide, by decide,
    (index_clauses_follow_equivalence id id (fun _ => List.Perm.refl _)
      (fun _ => List.Perm.refl _) MySQL.dialect
      userIndexedAST userIndexedTable
      [ { Name := "PRIMARY", Unique := true, ColumnNames := some ["id"] },
        { Name := "idx_name", Unique := true, ColumnNames := some ["name"] } ]
      (by decide) (by decide) (by decide)).2.1⟩

/-- C10: for a desired index list and an observed table whose index names are distinct,
`GenerateDropIndexSQLs` returns one clause for every observed index that is not among the
desired ones: the literal `DROP PRIMARY KEY` when the index is the primary key (name
`PRIMARY`), else `DROP INDEX` and the quoted index name.  When the observed table has a
`PRIMARY` index and no desired index has this name, `DROP PRIMARY KEY` is among the
clauses; and under the MySQL dialect the clause DROP INDEX `PRIMARY` is never emitted,
whatever the desired and observed indexes and the iteration order are. -/
theorem dropIndex_primary_key (ρ : IterOrder) (hρ : ρ.Valid) (d : Dialect) (t : TableAST)
    (c : Table) (idxs : List Index) (hi : t.Indexes = .ok idxs)
    (hn : (idxs.map Index.Name).Nodup) (hc : (c.Indexes.map Index.Name).Nodup) :
    (∃ dropped : List Index,
      dropped.Perm (c.Indexes.filter (fun o => !decide (o ∈ idxs))) ∧
      t.GenerateDropIndexSQLs ρ d c.IndexMap =
        .ok (dropped.map (fun o =>
          if o.isPrimaryKey then "DROP PRIMARY KEY" else "DROP INDEX " ++ d.Quote o.Name))) ∧
    (∀ o ∈ c.Indexes, o.Name = "PRIMARY" → (∀ n ∈ idxs, n.Name ≠ "PRIMARY") →
      ∃ sqls, t.GenerateDropIndexSQLs ρ d c.IndexMap = .ok sqls ∧ "DROP PRIMARY KEY" ∈ sqls) ∧
    (∀ (ρ' : IterOrder) (t' : TableAST) (c' : Table) (sqls : List String),
      t'.GenerateDropIndexSQLs ρ' MySQL.dialect c'.IndexMap = .ok sqls →
      "DROP INDEX `PRIMARY`" ∉ sqls) := by
  have hclause : ∀ (d' : Dialect) (o : Index), dropIndexClause d' o =
      if o.isPrimaryKey then "DROP PRIMARY KEY" else "DROP INDEX " ++ d'.Quote o.Name := by
    intro d' o
    by_cases hp : o.Name = "PRIMARY" <;> simp [dropIndexClause, Index.isPrimaryKey, hp]
  refine ⟨?_, ?_, ?_⟩
  · obtain ⟨dropped, hdp, hd⟩ := dropIndex_perm ρ hρ d t c idxs hi hn hc
    refine ⟨dropped, hdp, ?_⟩
    rw [hd]
    congr 1
    exact List.map_congr_left (fun o _ => hclause d o)
  · intro o ho hname hnone
    obtain ⟨dropped, hdp, hd⟩ := dropIndex_perm ρ hρ d t c idxs hi hn hc
    refine ⟨_, hd, ?_⟩
    have hmem : o ∈ dropped := by
      rw [hdp.mem_iff, List.mem_filter]
      refine ⟨ho, ?_⟩
      have : o ∉ idxs := fun h => hnone o h hname
      simp [this]
    have := List.mem_map_of_mem (dropIndexClause d) hmem
    simpa [dropIndexClause, hname] using this
  · intro ρ' t' c' sqls hs
    exact dropIndex_never_quoted_primary ρ' t' c' sqls hs

/-- Witness of C10: the declaration `User` without index struct against an observed
table whose only index is `PRIMARY`: the single clause is `DROP PRIMARY KEY`. -/
theorem dropIndex_primary_key_witness :
    IterOrder.Valid id ∧ userAST.Indexes = .ok [] ∧
    userAST.GenerateDropIndexSQLs id MySQL.dialect userPrimaryTable.IndexMap =
      .ok ["DROP PRIMARY KEY"] ∧
    "DROP INDEX `PRIMARY`" ∉ ["DROP PRIMARY KEY"] :=
  ⟨fun _ => List.Perm.refl _, by decide, by decide,
    (dropIndex_primary_key id (fun _ => List.Perm.refl _) MySQL.dialect userAST
      userPrimaryTable [] (by decide) (by decide) (by decide)).2.2 id userAST userPrimaryTable
      _ (by decide)⟩

/-- C11 (violated by the code): the DROP TABLE statement of `Diff` names the snake-case
form of the observed table name, not the observed table.  For the desired schema `User`
with `UserIndex` and an observed schema with the table `user`, in the state the
declarations describe, and a second table `User`, the only observed name absent from the
desired schema is `User`, and the one statement returned is DROP TABLE `user`, which
names the table that is present on both sides. -/
theorem Diff_drop_names_snake_case :
    (⟨[("user", userIndexedAST)]⟩ : GoMap TableAST).keys = ["user"] ∧
    capitalCurrent.keys = ["user", "User"] ∧
    Diff Ext.sample id ⟨[("user", userIndexedAST)]⟩ capitalCurrent =
      .ok ["DROP TABLE `user`"] ∧
    "DROP TABLE " ++ MySQL.Quote "User" = "DROP TABLE `User`" ∧
    Diff Ext.sample id ⟨[("user", userIndexedAST)]⟩ capitalCurrent ≠
      .ok ["DROP TABLE " ++ MySQL.Quote "User"] :=
  ⟨by decide, by decide, by decide, by decide, by decide⟩

/-- C12: for every column, `columnSQL` returns the tokens joined by one blank, in this
order: the quoted column name, the SQL type of `ColumnType`, `NOT NULL` iff `ColumnType`
reports not nullable, `DEFAULT` and the literal iff the default is non-empty,
`PRIMARY KEY` iff the column is a primary key, the auto-increment keyword of the dialect
iff the column is auto-increment and the keyword is non-empty, `UNIQUE` iff the column is
unique, `COMMENT` and the quoted comment iff the comment is non-empty; and no other
token.  The name that is quoted is the schema form of the column name, which is the
column name itself for a name in schema form, as every column that `Columns` returns has
it when the snake-case function leaves its own results unchanged. -/
theorem columnSQL_tokens (x : Ext) (d : Dialect) (f : Column) :
    columnSQL x d f =
      join ([d.Quote (toSchemaFieldName x f.Name),
          (d.ColumnType f.Typ f.Size f.AutoIncrement).1] ++
        (if (d.ColumnType f.Typ f.Size f.AutoIncrement).2 = true then [] else ["NOT NULL"]) ++
        (if f.Default ≠ "" then ["DEFAULT", formatDefault d f.Typ f.Default] else []) ++
        (if f.PrimaryKey = true then ["PRIMARY KEY"] else []) ++
        (if f.AutoIncrement = true ∧ d.AutoIncrement ≠ "" then [d.AutoIncrement] else []) ++
        (if f.Unique = true then ["UNIQUE"] else []) ++
        (if f.Comment ≠ "" then ["COMMENT", d.QuoteString f.Comment] else [])) " " ∧
    (toSchemaFieldName x f.Name = f.Name →
      columnSQL x d f =
        join ([d.Quote f.Name, (d.ColumnType f.Typ f.Size f.AutoIncrement).1] ++
          (if (d.ColumnType f.Typ f.Size f.AutoIncrement).2 = true then []
            else ["NOT NULL"]) ++
          (if f.Default ≠ "" then ["DEFAULT", formatDefault d f.Typ f.Default] else []) ++
          (if f.PrimaryKey = true then ["PRIMARY KEY"] else []) ++
          (if f.AutoIncrement = true ∧ d.AutoIncrement ≠ "" then [d.AutoIncrement] else []) ++
          (if f.Unique = true then ["UNIQUE"] else []) ++
          (if f.Comment ≠ "" then ["COMMENT", d.QuoteString f.Comment] else [])) " ") ∧
    (∀ (t : TableAST) (cols : List Column),
      (∀ s, x.SnakeCase (x.SnakeCase s) = x.SnakeCase s) → t.Columns x = .ok cols →
      f ∈ cols → toSchemaFieldName x f.Name = f.Name) := by
  refine ⟨columnSQL_eq x d f, ?_, ?_⟩
  · intro hname
    rw [columnSQL_eq, hname]
  · intro t cols hidem hc hf
    exact TableAST.Columns_schema_form x hidem t cols hc f hf

/-- Witness of C12: a unique auto-increment primary key column `id` of type `int64` with
the default `1` and the comment `row id` renders all eight tokens. -/
theorem columnSQL_tokens_witness :
    toSchemaFieldName Ext.sample "id" = "id" ∧
    columnSQL Ext.sample MySQL.dialect
        { Name := "id", Typ := "int64", Comment := "row id", Unique := true,
          PrimaryKey := true, AutoIncrement := true, Default := "1" } =
      "`id` BIGINT NOT NULL DEFAULT 1 PRIMARY KEY AUTO_INCREMENT UNIQUE COMMENT 'row id'" :=
  ⟨by decide,
    ((columnSQL_tokens Ext.sample MySQL.dialect
      { Name := "id", Typ := "int64", Comment := "row id", Unique := true,
        PrimaryKey := true, AutoIncrement := true, Default := "1" }).2.1 (by decide)).trans
      (by decide)⟩

/-- C13 (violated by the code): `formatDefault` quotes the default only for the logical
type `string`; for the string types `*string` and `sql.NullString` the default text is
emitted as it is.  The field `Nick *string` with the option `default:guest` renders as
`nick` VARCHAR(255) DEFAULT guest, without quotes around the literal. -/
theorem formatDefault_quotes_string_only :
    isSizeRequiredType "*string" = true ∧ isSizeRequiredType "sql.NullString" = true ∧
    formatDefault MySQL.dialect "string" "guest" = "'guest'" ∧
    formatDefault MySQL.dialect "*string" "guest" = "guest" ∧
    formatDefault MySQL.dialect "sql.NullString" "guest" = "guest" ∧
    MySQL.QuoteString "guest" = "'guest'" ∧
    profileAST.Columns Ext.sample =
      .ok [ { Name := "nick", Typ := "*string", Default := "guest", Size := 255 } ] ∧
    columnSQL Ext.sample MySQL.dialect
        { Name := "nick", Typ := "*string", Default := "guest", Size := 255 } =
      "`nick` VARCHAR(255) DEFAULT guest" ∧
    profileAST.CreateTableQuery Ext.sample MySQL.dialect =
      .ok ["CREATE TABLE `profile` (\n  `nick` VARCHAR(255) DEFAULT guest\n)"] :=
  ⟨by decide, by decide, by decide, by decide, by decide, by decide, by decide, by decide,
    by decide⟩

/-- C14: the MySQL sized-string mapping.  For every size `n`: `n = 0` gives VARCHAR(255);
`1 <= n < 21846` gives VARCHAR(n); `21846 <= n <= 65535` gives TEXT;
`65536 <= n < 16777216` gives MEDIUMTEXT; `n >= 16777216` gives LONGTEXT.  The five
ranges are exhaustive and pairwise disjoint, and the mapping is the SQL type of the
logical types `string`, `*string` and `sql.NullString`. -/
theorem varchar_ranges (n : Nat) :
    (n = 0 → MySQL.varchar n = "VARCHAR(255)") ∧
    (1 ≤ n ∧ n < 21846 → MySQL.varchar n = "VARCHAR(" ++ toString n ++ ")") ∧
    (21846 ≤ n ∧ n ≤ 65535 → MySQL.varchar n = "TEXT") ∧
    (65536 ≤ n ∧ n < 16777216 → MySQL.varchar n = "MEDIUMTEXT") ∧
    (16777216 ≤ n → MySQL.varchar n = "LONGTEXT") ∧
    (n = 0 ∨ (1 ≤ n ∧ n < 21846) ∨ (21846 ≤ n ∧ n ≤ 65535) ∨ (65536 ≤ n ∧ n < 16777216) ∨
      16777216 ≤ n) ∧
    ¬ (n = 0 ∧ 1 ≤ n ∧ n < 21846) ∧ ¬ (n = 0 ∧ 21846 ≤ n ∧ n ≤ 65535) ∧
    ¬ (n = 0 ∧ 65536 ≤ n ∧ n < 16777216) ∧ ¬ (n = 0 ∧ 16777216 ≤ n) ∧
    ¬ ((1 ≤ n ∧ n < 21846) ∧ 21846 ≤ n ∧ n ≤ 65535) ∧
    ¬ ((1 ≤ n ∧ n < 21846) ∧ 65536 ≤ n ∧ n < 16777216) ∧
    ¬ ((1 ≤ n ∧ n < 21846) ∧ 16777216 ≤ n) ∧
    ¬ ((21846 ≤ n ∧ n ≤ 65535) ∧ 65536 ≤ n ∧ n < 16777216) ∧
    ¬ ((21846 ≤ n ∧ n ≤ 65535) ∧ 16777216 ≤ n) ∧
    ¬ ((65536 ≤ n ∧ n < 16777216) ∧ 16777216 ≤ n) ∧
    (∀ autoIncrement : Bool,
      MySQL.ColumnType "string" n autoIncrement = (MySQL.varchar n, false) ∧
      MySQL.ColumnType "*string" n autoIncrement = (MySQL.varchar n, true) ∧
      MySQL.ColumnType "sql.NullString" n autoIncrement = (MySQL.varchar n, true)) := by
  refine ⟨?_, ?_, ?_, ?_, ?_, by omega, by omega, by omega, by omega, by omega, by omega,
    by omega, by omega, by omega, by omega, by omega, ?_⟩
  · intro h
    subst h
    decide
  · intro h
    have h0 : ¬ n = 0 := by omega
    simp [MySQL.varchar, h0, h.2]
  · intro h
    have h0 : ¬ n = 0 := by omega
    have h1 : ¬ n < 21846 := by omega
    simp [MySQL.varchar, h0, h1, h.2]
  · intro h
    have h0 : ¬ n = 0 := by omega
    have h1 : ¬ n < 21846 := by omega
    have h2 : ¬ n ≤ 65535 := by omega
    simp [MySQL.varchar, h0, h1, h2, h.2]
  · intro h
    have h0 : ¬ n = 0 := by omega
    have h1 : ¬ n < 21846 := by omega
    have h2 : ¬ n ≤ 65535 := by omega
    have h3 : ¬ n < 16777216 := by omega
    simp [MySQL.varchar, h0, h1, h2, h3]
  · intro autoIncrement
    exact ⟨rfl, rfl, rfl⟩

/-- C15: `ColumnType` is total: it returns a pair for every input.  For every logical
type name outside the recognised list, and every size and auto-increment flag, it
returns VARCHAR(255) marked nullable.  The recognised non-pointer base types are the
names it reports not nullable, and for each of them the name with a leading `*` has the
same SQL type and is nullable. -/
theorem ColumnType_fallback_and_pointer (name : String) (size : Nat) (autoIncrement : Bool) :
    (name ∉ MySQL.recognisedTypes →
      MySQL.ColumnType name size autoIncrement = ("VARCHAR(255)", true)) ∧
    ((MySQL.ColumnType name size autoIncrement).2 = false ↔ name ∈ MySQL.baseTypes) ∧
    (name ∈ MySQL.baseTypes →
      (MySQL.ColumnType name size autoIncrement).2 = false ∧
      MySQL.ColumnType ("*" ++ name) size autoIncrement =
        ((MySQL.ColumnType name size autoIncrement).1, true)) := by
  have hbase : name ∈ MySQL.baseTypes →
      (MySQL.ColumnType name size autoIncrement).2 = false ∧
      MySQL.ColumnType ("*" ++ name) size autoIncrement =
        ((MySQL.ColumnType name size autoIncrement).1, true) := by
    intro h
    simp only [MySQL.baseTypes, List.mem_cons, List.mem_singleton, List.not_mem_nil,
      or_false] at h
    rcases h with h | h | h | h | h | h | h | h | h | h | h | h | h | h | h <;> subst h <;>
      exact ⟨rfl, rfl⟩
  have hfall : name ∉ MySQL.recognisedTypes →
      MySQL.ColumnType name size autoIncrement = ("VARCHAR(255)", true) := by
    intro h
    simp only [MySQL.recognisedTypes, List.mem_cons, List.mem_singleton, List.not_mem_nil,
      or_false, not_or] at h
    simp only [MySQL.ColumnType, h, or_self, if_false]
  refine ⟨hfall, ⟨?_, fun h => (hbase h).1⟩, hbase⟩
  intro h
  by_cases hr : name ∈ MySQL.recognisedTypes
  · simp only [MySQL.recognisedTypes, List.mem_cons, List.mem_singleton, List.not_mem_nil,
      or_false] at hr
    rcases hr with hr | hr | hr | hr | hr | hr | hr | hr | hr | hr | hr | hr | hr | hr | hr |
      hr | hr | hr | hr | hr | hr | hr | hr | hr | hr | hr | hr | hr | hr | hr | hr | hr | hr |
      hr | hr <;> subst hr <;>
      first
        | decide
        | (change true = false at h; exact Bool.noConfusion h)
  · rw [hfall hr] at h
    exact Bool.noConfusion h

/-- C16: for every string `s`, `Quote s` is a backtick, then `s` with every backtick
doubled, then a backtick, and `QuoteString s` is a single quote, then `s` with every
single quote doubled, then a single quote.  Both are injective and reversible: stripping
the outer quote characters and replacing each doubled quote character by a single one
returns `s`; and in the text between the outer quotes every quote character stands in a
pair. -/
theorem Quote_reversible (s : String) :
    (MySQL.Quote s).data =
      Char.ofNat 96 ::
        (s.data.flatMap (fun c =>
          if c = Char.ofNat 96 then [Char.ofNat 96, Char.ofNat 96] else [c]) ++
        [Char.ofNat 96]) ∧
    (MySQL.QuoteString s).data =
      Char.ofNat 39 ::
        (s.data.flatMap (fun c =>
          if c = Char.ofNat 39 then [Char.ofNat 39, Char.ofNat 39] else [c]) ++
        [Char.ofNat 39]) ∧
    (∀ t, MySQL.Quote s = MySQL.Quote t → s = t) ∧
    (∀ t, MySQL.QuoteString s = MySQL.QuoteString t → s = t) ∧
    unquoteWith (Char.ofNat 96) (MySQL.Quote s) = s ∧
    unquoteWith (Char.ofNat 39) (MySQL.QuoteString s) = s ∧
    quotesDoubled (Char.ofNat 96) (MySQL.Quote s).data.tail.dropLast = true ∧
    quotesDoubled (Char.ofNat 39) (MySQL.QuoteString s).data.tail.dropLast = true := by
  refine ⟨?_, ?_, fun t h => MySQL.Quote_injective s t h,
    fun t h => MySQL.QuoteString_injective s t h, ?_, ?_, ?_, ?_⟩
  · rw [← replaceChar_eq_flatMap]
    simp [MySQL.Quote, String.data_append]
  · rw [← replaceChar_eq_flatMap]
    simp [MySQL.QuoteString, String.data_append]
  · simp only [unquoteWith, MySQL.Quote_data, undoubleChars_replaceChar]
  · simp only [unquoteWith, MySQL.QuoteString_data, undoubleChars_replaceChar]
  · rw [MySQL.Quote_data]
    exact quotesDoubled_replaceChar _ _
  · rw [MySQL.QuoteString_data]
    exact quotesDoubled_replaceChar _ _

/-- C18: for the option `default:<v>`, `parseStructTag` stores the normalised default
when the logical type of the column is `bool` and `v` as it is for every other logical
type.  The normalised default is `1` iff `v` is one of the 21 spellings of `1`, `true`
and `on` in small and capital letters (the strings whose lower-cased form is one of the
three), and `0` for every other `v`: so `default:TRUE` and `default:On` store `1` and
`default:yes` stores `0` on a `bool` column, and `default:TRUE` stores `TRUE` on a `string`
column.  Normalising `0` or `1`, or any normalised value, returns it unchanged. -/
theorem default_option_normalised (f : Column) (v : String) :
    parseStructTag.option f ("default:" ++ v) =
      .ok { f with Default := if f.Typ = "bool" then normalizeBoolDefaultTagTo0or1 v else v } ∧
    (';' ∉ v.data →
      parseStructTag f ("default:" ++ v) =
        .ok { f with
          Default := if f.Typ = "bool" then normalizeBoolDefaultTagTo0or1 v else v }) ∧
    (f.Typ = "bool" → ';' ∉ v.data → v ∈ boolTrueLiterals →
      parseStructTag f ("default:" ++ v) = .ok { f with Default := "1" }) ∧
    (f.Typ = "bool" → ';' ∉ v.data → v ∉ boolTrueLiterals →
      parseStructTag f ("default:" ++ v) = .ok { f with Default := "0" }) ∧
    (f.Typ ≠ "bool" → ';' ∉ v.data →
      parseStructTag f ("default:" ++ v) = .ok { f with Default := v }) ∧
    (normalizeBoolDefaultTagTo0or1 v = "1" ∨ normalizeBoolDefaultTagTo0or1 v = "0") ∧
    (normalizeBoolDefaultTagTo0or1 v = "1" ↔ v ∈ boolTrueLiterals) ∧
    (normalizeBoolDefaultTagTo0or1 v = "0" ↔ v ∉ boolTrueLiterals) ∧
    (v ∈ boolTrueLiterals ↔ toLower v ∈ ["1", "true", "on"]) ∧
    parseStructTag { Typ := "bool" } "default:TRUE" = .ok { Typ := "bool", Default := "1" } ∧
    parseStructTag { Typ := "bool" } "default:On" = .ok { Typ := "bool", Default := "1" } ∧
    parseStructTag { Typ := "bool" } "default:true" = .ok { Typ := "bool", Default := "1" } ∧
    parseStructTag { Typ := "bool" } "default:yes" = .ok { Typ := "bool", Default := "0" } ∧
    parseStructTag { Typ := "bool" } "default:FALSE" = .ok { Typ := "bool", Default := "0" } ∧
    parseStructTag { Typ := "string" } "default:TRUE" =
      .ok { Typ := "string", Default := "TRUE" } ∧
    toLower "TRUE" = "true" ∧ toLower "On" = "on" ∧
    normalizeBoolDefaultTagTo0or1 "0" = "0" ∧ normalizeBoolDefaultTagTo0or1 "1" = "1" ∧
    normalizeBoolDefaultTagTo0or1 (normalizeBoolDefaultTagTo0or1 v) =
      normalizeBoolDefaultTagTo0or1 v := by
  have hsplit : splitN2 ("default:" ++ v) ':' = ("default", some v) :=
    splitN2_prefix "default" v ':' (by decide)
  have hopt : parseStructTag.option f ("default:" ++ v) =
      .ok { f with
        Default := if f.Typ = "bool" then normalizeBoolDefaultTagTo0or1 v else v } := by
    simp only [parseStructTag.option, hsplit, tagDefault, if_true]
    by_cases hb : f.Typ = "bool" <;> simp [hb]
  have hcases : normalizeBoolDefaultTagTo0or1 v = "1" ∨ normalizeBoolDefaultTagTo0or1 v = "0" := by
    unfold normalizeBoolDefaultTagTo0or1
    simp only []
    split
    · exact Or.inl rfl
    · exact Or.inr rfl
  have hone := normalizeBoolDefaultTagTo0or1_eq_one_iff v
  have hzero : normalizeBoolDefaultTagTo0or1 v = "0" ↔ v ∉ boolTrueLiterals := by
    rw [← hone]
    rcases hcases with h | h
    · rw [h]
      decide
    · rw [h]
      decide
  have hparse : ';' ∉ v.data →
      parseStructTag f ("default:" ++ v) =
        .ok { f with
          Default := if f.Typ = "bool" then normalizeBoolDefaultTagTo0or1 v else v } := by
    intro hsemi
    have hs : ';' ∉ ("default:" ++ v).data := by
      rw [String.data_append, List.mem_append, not_or]
      exact ⟨by decide, hsemi⟩
    have hne : ("default:" ++ v) ≠ "" := by
      intro h
      have := congrArg String.data h
      simp [String.data_append] at this
    unfold parseStructTag
    rw [if_neg hne]
    rw [show split ("default:" ++ v) tagSeparater = ["default:" ++ v] from
      split_of_not_mem _ _ hs]
    simp only [parseStructTag.loop, hopt]
  have hlower : v ∈ boolTrueLiterals ↔ toLower v ∈ ["1", "true", "on"] := by
    rw [← hone]
    unfold normalizeBoolDefaultTagTo0or1
    simp only [List.mem_cons, List.mem_singleton, List.not_mem_nil, or_false]
    split
    · rename_i h
      exact ⟨fun _ => h, fun _ => rfl⟩
    · rename_i h
      exact ⟨fun h0 => absurd h0 (by decide), fun h1 => absurd h1 h⟩
  refine ⟨hopt, hparse, ?_, ?_, ?_, hcases, hone, hzero, hlower, by decide, by decide,
    by decide, by decide, by decide, by decide, by decide, by decide, by decide, by decide, ?_⟩
  · intro hb hsemi hv
    rw [hparse hsemi, if_pos hb, hone.mpr hv]
  · intro hb hsemi hv
    rw [hparse hsemi, if_pos hb, hzero.mpr hv]
  · intro hb hsemi
    rw [hparse hsemi, if_neg hb]
  · rcases hcases with h | h <;> rw [h] <;> decide

/-- C19: a column marked ignore never reaches the diff.  For every table declaration
whose columns `Columns` returns, no returned column has the Ignore flag set; the returned
list is, in declared order, the columns of the fields that are not ignored, and a field
is ignored exactly when its options include `-`.  Removing an ignored field from the
declaration changes neither the returned columns nor the ADD clauses (with their
FIRST/AFTER positions) nor the MODIFY clauses. -/
theorem Columns_without_ignored (x : Ext) (t : TableAST) (cols : List Column)
    (hc : t.Columns x = .ok cols) :
    (∀ c ∈ cols, c.Ignore = false) ∧
    (∃ fields parsed, t.ColumnAST = some fields ∧
      List.Forall₂ (fun fld f => ∃ typeName, detectTypeName.ofField fld = .ok typeName ∧
        newColumnFromAST typeName fld = .ok f) fields parsed ∧
      cols = declaredColumns x (fields.zip parsed) ∧
      ∀ p ∈ fields.zip parsed,
        (p.2.Ignore = true ↔
          ∃ v, p.1.Tag = some (.migu v) ∧ v ≠ "" ∧
            ∃ opt ∈ split v tagSeparater, (splitN2 opt ':').1 = tagIgnore)) ∧
    (∀ pre fld post typeName f, t.ColumnAST = some (pre ++ fld :: post) →
      detectTypeName.ofField fld = .ok typeName → newColumnFromAST typeName fld = .ok f →
      f.Ignore = true →
      ({ t with ColumnAST := some (pre ++ post) } : TableAST).Columns x = .ok cols ∧
      ∀ d cur,
        t.GenerateAddFieldSQLs x d cur =
          ({ t with ColumnAST := some (pre ++ post) } : TableAST).GenerateAddFieldSQLs x d cur ∧
        t.GenerateModifyFieldSQLs x d cur =
          ({ t with ColumnAST := some (pre ++ post) } : TableAST).GenerateModifyFieldSQLs x d
            cur) := by
  cases hf : t.ColumnAST with
  | none => simp [TableAST.Columns, hf] at hc
  | some fields =>
    have hloop : TableAST.Columns.loop x fields [] = .ok cols := by
      simpa [TableAST.Columns, hf] using hc
    obtain ⟨parsed, hp, hcols⟩ := TableAST.Columns.loop_spec x fields [] cols hloop
    rw [List.nil_append] at hcols
    refine ⟨?_, ⟨fields, parsed, rfl, hp, hcols, ?_⟩, ?_⟩
    · rw [hcols]
      exact declaredColumns_not_ignored x _
    · intro p hmem
      obtain ⟨typeName, _, hn⟩ := List.forall₂_zip hp (show (p.1, p.2) ∈ _ from hmem)
      exact newColumnFromAST_Ignore typeName p.1 p.2 hn
    · intro pre fld post typeName f hsplit hd hn hi
      injection hsplit with hsplit
      have heq : ({ t with ColumnAST := some (pre ++ post) } : TableAST).Columns x =
          t.Columns x := by
        simp only [TableAST.Columns, hf, hsplit]
        exact (TableAST.Columns.loop_skip x pre fld post [] typeName f hd hn hi).symm
      refine ⟨by rw [heq, hc], ?_⟩
      intro d cur
      simp only [TableAST.GenerateAddFieldSQLs, TableAST.GenerateModifyFieldSQLs,
        TableAST.MustColumns, heq, and_self]

/-- Witness of C19: in `type Note struct { ID int; Secret string "migu:-"; Body string }`
the field `Secret` is ignored: the columns are `id` and `body`, as without the field, and
against an observed table with the column `id` the one ADD clause places `body` after
`id`. -/
theorem Columns_without_ignored_witness :
    noteAST.Columns Ext.sample = .ok
      [ { Name := "id", Typ := "int" }, { Name := "body", Typ := "string", Size := 255 } ] ∧
    noteWithoutSecretAST.Columns Ext.sample = .ok
      [ { Name := "id", Typ := "int" }, { Name := "body", Typ := "string", Size := 255 } ] ∧
    noteAST.GenerateAddFieldSQLs Ext.sample MySQL.dialect noteTable.ColumnMap =
      .ok ["ADD `body` VARCHAR(255) NOT NULL AFTER `id`"] ∧
    ∀ c ∈ [ ({ Name := "id", Typ := "int" } : Column),
        { Name := "body", Typ := "string", Size := 255 } ], c.Ignore = false :=
  ⟨by decide, by decide, by decide,
    (Columns_without_ignored Ext.sample noteAST
      [ { Name := "id", Typ := "int" }, { Name := "body", Typ := "string", Size := 255 } ]
      (by decide)).1⟩

/-- C20: for every index option string that parses and has an option with the key `pk`
among its `;`-separated options, the index has the name `PRIMARY` and is unique, wherever
the option stands, whatever name an `index` option gives and whether or not there is a
`unique` option. -/
theorem parseIndexStructTag_pk (migu : String) (index : Index)
    (hok : parseIndexStructTag migu = .ok index)
    (hpk : ∃ opt ∈ split migu tagSeparater, (splitN2 opt ':').1 = tagPrimaryKey) :
    index.Name = "PRIMARY" ∧ index.Unique = true := by
  unfold parseIndexStructTag at hok
  by_cases h : migu = ""
  · rw [if_pos h] at hok
    exact Res.noConfusion hok
  · rw [if_neg h] at hok
    cases hl : parseIndexStructTag.loop {} (split migu tagSeparater) with
    | err e => simp [hl] at hok
    | panic e => simp [hl] at hok
    | ok st =>
      have hp := parseIndexStructTag.loop_isPrimaryKey {} st _ hl
      have hany : (split migu tagSeparater).any
          (fun opt => decide ((splitN2 opt ':').1 = tagPrimaryKey)) = true := by
        rw [List.any_eq_true]
        obtain ⟨opt, hm, hk⟩ := hpk
        exact ⟨opt, hm, by simp [hk]⟩
      rw [hany, Bool.or_true] at hp
      simp only [hl, hp, if_true] at hok
      injection hok with hok
      rw [← hok]
      exact ⟨rfl, rfl⟩

/-- Witness of C20: the option string `index:idx_email,email;pk` names the index
`idx_email` and has no `unique` option; the parsed index is the unique index `PRIMARY`
on `email`. -/
theorem parseIndexStructTag_pk_witness :
    parseIndexStructTag "index:idx_email,email;pk" =
      .ok { Name := "PRIMARY", Unique := true, ColumnNames := some ["email"] } ∧
    (∃ opt ∈ split "index:idx_email,email;pk" tagSeparater,
      (splitN2 opt ':').1 = tagPrimaryKey) ∧
    (({ Name := "PRIMARY", Unique := true, ColumnNames := some ["email"] } : Index).Name =
        "PRIMARY" ∧
      ({ Name := "PRIMARY", Unique := true, ColumnNames := some ["email"] } : Index).Unique = true) :=
  ⟨by decide, ⟨"pk", by decide, by decide⟩,
    parseIndexStructTag_pk "index:idx_email,email;pk"
      { Name := "PRIMARY", Unique := true, ColumnNames := some ["email"] } (by decide)
      ⟨"pk", by decide, by decide⟩⟩

/-- C21: for every index option `index:<p1>,...,<pk>` whose parameters hold neither
`,` nor `;`, alone or together with `unique` options before or after it and without a
`pk` option, `parseIndexStructTag` returns the index with the name `p1`, with the columns
`p2, ..., pk` in the given order when `k ≥ 2` and the one column `p1` when `k = 1`, and
unique iff a `unique` option is present. -/
theorem parseIndexStructTag_index_option (p1 : String) (ps pre post : List String)
    (hp : ∀ p ∈ p1 :: ps, ',' ∉ p.data ∧ ';' ∉ p.data)
    (hu : ∀ o ∈ pre ++ post, o = "unique") :
    parseIndexStructTag (join (pre ++ ("index:" ++ join (p1 :: ps) ",") :: post) ";") =
      .ok { Name := p1
            ColumnNames := some (if ps = [] then [p1] else ps)
            Unique := decide ("unique" ∈ pre ++ post) } := by
  have hpre : ∀ o ∈ pre, o = "unique" := fun o ho => hu o (List.mem_append_left _ ho)
  have hpost : ∀ o ∈ post, o = "unique" := fun o ho => hu o (List.mem_append_right _ ho)
  have hsemi : ∀ o ∈ pre ++ ("index:" ++ join (p1 :: ps) ",") :: post, ';' ∉ o.data := by
    intro o ho
    rcases List.mem_append.mp ho with ho | ho
    · rw [hpre o ho]
      decide
    · rcases List.mem_cons.mp ho with ho | ho
      · rw [ho]
        exact index_option_no_separator p1 ps (fun p hm => (hp p hm).2)
      · rw [hpost o ho]
        decide
  have hsplit := split_options (pre ++ ("index:" ++ join (p1 :: ps) ",") :: post) (by simp) hsemi
  have hne : join (pre ++ ("index:" ++ join (p1 :: ps) ",") :: post) ";" ≠ "" := by
    intro h
    rw [h] at hsplit
    have hmem : ("index:" ++ join (p1 :: ps) ",") ∈ split "" tagSeparater := by
      rw [hsplit]
      simp
    have hempty : split "" tagSeparater = [""] := by decide
    rw [hempty, List.mem_singleton] at hmem
    exact index_option_ne_empty _ hmem
  unfold parseIndexStructTag
  rw [if_neg hne, hsplit, parseIndexStructTag.loop_append,
    parseIndexStructTag.loop_unique _ pre hpre]
  simp only [parseIndexStructTag.loop]
  rw [parseIndexStructTag.option_index _ p1 ps (fun q hq => (hp q hq).1)]
  simp only
  rw [parseIndexStructTag.loop_unique _ post hpost]
  simp only [Bool.false_eq_true, if_false]
  rw [unique_mem_iff (pre ++ post) hu]
  cases pre <;> cases post <;> rfl

/-- Witness of C21: the tags `index:idx_name,first,last;unique`, `unique;index:email` and
`index:email`. -/
theorem parseIndexStructTag_index_option_witness :
    parseIndexStructTag "index:idx_name,first,last;unique" =
      .ok { Name := "idx_name", ColumnNames := some ["first", "last"], Unique := true } ∧
    parseIndexStructTag "unique;index:email" =
      .ok { Name := "email", ColumnNames := some ["email"], Unique := true } ∧
    parseIndexStructTag "index:email" =
      .ok { Name := "email", ColumnNames := some ["email"], Unique := false } :=
  ⟨parseIndexStructTag_index_option "idx_name" ["first", "last"] [] ["unique"]
      (by decide) (by decide),
    parseIndexStructTag_index_option "email" [] ["unique"] [] (by decide) (by decide),
    parseIndexStructTag_index_option "email" [] [] [] (by decide) (by decide)⟩

/-- C22: `parseIndexStructTag` returns an error for the empty option string, for every
option string one of whose `;`-separated options has a key other than `pk`, `index` and
`unique`, and for every option string with an `index` option without `:` and parameter
list; these are all its errors.  An option string it accepts is not empty and each of its
options, of which there is at least one, is a recognised one; and `Indexes` returns an
error when the tag of a field of the index struct is not accepted. -/
theorem parseIndexStructTag_rejects (migu : String) :
    parseIndexStructTag "" = .err "migu: parseIndexStructTag: index tag must not be empty" ∧
    ((∃ opt ∈ split migu tagSeparater,
        (splitN2 opt ':').1 ∉ [tagPrimaryKey, tagIndex, tagUnique]) →
      ∃ e, parseIndexStructTag migu = .err e) ∧
    ((∃ opt ∈ split migu tagSeparater,
        (splitN2 opt ':').1 = tagIndex ∧ (splitN2 opt ':').2 = none) →
      ∃ e, parseIndexStructTag migu = .err e) ∧
    ((∃ e, parseIndexStructTag migu = .err e) ↔
      migu = "" ∨ ∃ opt ∈ split migu tagSeparater,
        (splitN2 opt ':').1 ∉ [tagPrimaryKey, tagIndex, tagUnique] ∨
        ((splitN2 opt ':').1 = tagIndex ∧ (splitN2 opt ':').2 = none)) ∧
    (∀ index, parseIndexStructTag migu = .ok index →
      migu ≠ "" ∧ split migu tagSeparater ≠ [] ∧
      ∀ opt ∈ split migu tagSeparater,
        (splitN2 opt ':').1 ∈ [tagPrimaryKey, tagIndex, tagUnique] ∧
        ((splitN2 opt ':').1 = tagIndex → (splitN2 opt ':').2 ≠ none)) ∧
    (∀ (t : TableAST) (fields : List Field) (fld : Field) (v : String),
      t.IndexAST = some fields → fld ∈ fields → fld.Tag = some (.migu v) →
      (∃ e, parseIndexStructTag v = .err e) → ∃ e, t.Indexes = .err e) := by
  have hbad : ∀ opt, badIndexOption opt = true ↔
      ((splitN2 opt ':').1 ∉ [tagPrimaryKey, tagIndex, tagUnique] ∨
        ((splitN2 opt ':').1 = tagIndex ∧ (splitN2 opt ':').2 = none)) := by
    intro opt
    unfold badIndexOption indexOptionKeys
    rcases splitN2 opt ':' with ⟨key, val⟩
    cases val <;> simp
  have hiff : (∃ e, parseIndexStructTag migu = .err e) ↔
      migu = "" ∨ ∃ opt ∈ split migu tagSeparater,
        (splitN2 opt ':').1 ∉ [tagPrimaryKey, tagIndex, tagUnique] ∨
        ((splitN2 opt ':').1 = tagIndex ∧ (splitN2 opt ':').2 = none) := by
    rw [parseIndexStructTag_err_iff]
    simp only [hbad]
  refine ⟨rfl, ?_, ?_, hiff, ?_, ?_⟩
  · rintro ⟨opt, hm, hk⟩
    exact hiff.mpr (Or.inr ⟨opt, hm, Or.inl hk⟩)
  · rintro ⟨opt, hm, hk⟩
    exact hiff.mpr (Or.inr ⟨opt, hm, Or.inr hk⟩)
  · intro index hok
    have hno : ¬ ∃ e, parseIndexStructTag migu = .err e := by
      rintro ⟨e, he⟩
      rw [hok] at he
      exact Res.noConfusion he
    rw [hiff, not_or] at hno
    refine ⟨hno.1, ?_, ?_⟩
    · intro h
      have := split_length_pos migu tagSeparater
      rw [h] at this
      simp at this
    · intro opt hm
      have h := hno.2
      simp only [not_exists, not_and, not_or] at h
      have ho := h opt hm
      exact ⟨not_not.mp ho.1, ho.2⟩
  · intro t fields fld v hf hm ht he
    simp only [TableAST.Indexes, hf]
    exact TableAST.Indexes.loop_err fields [] fld v hm ht he

/-- C23 (violated by the code): for a desired table that already exists in the observed
schema, a failure of `Columns` is not returned as an error: `AlterTableQueries` calls
`GenerateAddFieldSQLs`, which reads the columns with `MustColumns`, and panics with the
error, and so does `Diff`.  This holds for every table whose columns fail to parse and
is evaluated for a column tag with a bad size, a column tag with an unknown option and a
table without column declaration; when the same table is absent from the observed schema
`Diff` returns the error. -/
theorem AlterTableQueries_panics_on_column_error :
    (∀ (x : Ext) (ρ : IterOrder) (d : Dialect) (t : TableAST) (currentTable : Table)
        (e : String), t.Columns x = .err e →
      t.AlterTableQueries x ρ d currentTable = .panic e) ∧
    (∀ (x : Ext) (ρ : IterOrder) (name : String) (t : TableAST) (C : GoMap Table)
        (currentTable : Table) (e : String), C.get? name = some currentTable →
      t.Columns x = .err e → Diff x ρ ⟨[(name, t)]⟩ C = .panic e) ∧
    userBadSizeAST.Columns Ext.sample =
      .err "migu: TableAST.Columns error: strconv.ParseUint: parsing \"big\": invalid syntax" ∧
    userBadSizeAST.AlterTableQueries Ext.sample id MySQL.dialect userTable100 =
      .panic "migu: TableAST.Columns error: strconv.ParseUint: parsing \"big\": invalid syntax" ∧
    Diff Ext.sample id ⟨[("user", userBadSizeAST)]⟩ ⟨[("user", userTable100)]⟩ =
      .panic "migu: TableAST.Columns error: strconv.ParseUint: parsing \"big\": invalid syntax" ∧
    Diff Ext.sample id ⟨[("user", userBadSizeAST)]⟩ ⟨[]⟩ =
      .err ("migu: Diff error. migu: TableAST.CreateTableQuery error. " ++
        "migu: TableAST.Columns error: strconv.ParseUint: parsing \"big\": invalid syntax") ∧
    Diff Ext.sample id ⟨[("user", userUnknownOptionAST)]⟩ ⟨[("user", userTable100)]⟩ =
      .panic "migu: TableAST.Columns error: unknown option: `nullable'" ∧
    Diff Ext.sample id ⟨[("widget", widgetIndexOnlyAST)]⟩ ⟨[("widget", { Name := "widget" })]⟩ =
      .panic "migu: TableAST.Columns error: Widget schema is empty" :=
  ⟨TableAST.AlterTableQueries_panic, Diff_panic_singleton, by decide, by decide, by decide,
    by decide, by decide, by decide⟩

/-- C24: `Sync` is all-or-nothing.  When `Diff` fails, `Sync` returns its failure and
makes no call on the database: no transaction is begun and no statement is executed.
When `Diff` returns statements and the transaction begins: if statement `i` is the first
whose execution fails, `Sync` has executed the statements up to `i` in returned order,
then rolled back, and returns that error, without a commit; if no execution fails, `Sync`
has executed all statements in returned order and then committed once, and returns the
result of the commit.  Every run has one of these two shapes.  When the transaction
cannot begin, `Sync` returns that error and executes nothing. -/
theorem Sync_all_or_nothing (x : Ext) (ρ : IterOrder) (db : DB) (E : GoMap TableAST)
    (C : GoMap Table) :
    (∀ e, Diff x ρ E C = .err e → Sync x ρ db E C = ([], .err e)) ∧
    (∀ e, Diff x ρ E C = .panic e → Sync x ρ db E C = ([], .panic e)) ∧
    (∀ sqls, Diff x ρ E C = .ok sqls →
      (∀ e, db.Begin = some e → Sync x ρ db E C = ([.Begin], .err e)) ∧
      (db.Begin = none →
        (∀ i s e, sqls[i]? = some s →
          (∀ j t, j < i → sqls[j]? = some t →
            db.Exec (.Begin :: (sqls.take j).map .Exec) t = none) →
          db.Exec (.Begin :: (sqls.take i).map .Exec) s = some e →
          Sync x ρ db E C =
            (.Begin :: (sqls.take (i + 1)).map .Exec ++ [.Rollback], .err e)) ∧
        ((∀ j t, sqls[j]? = some t → db.Exec (.Begin :: (sqls.take j).map .Exec) t = none) →
          Sync x ρ db E C =
            (.Begin :: sqls.map .Exec ++ [.Commit],
              match db.Commit (.Begin :: sqls.map .Exec) with
              | some e => .err e
              | none => .ok ())) ∧
        (((Sync x ρ db E C).1 = .Begin :: sqls.map .Exec ++ [.Commit] ∧
            (Sync x ρ db E C).1.count .Commit = 1 ∧
            TxEvent.Rollback ∉ (Sync x ρ db E C).1) ∨
          ∃ pre s post e, sqls = pre ++ s :: post ∧
            Sync x ρ db E C = (.Begin :: pre.map .Exec ++ [.Exec s, .Rollback], .err e) ∧
            TxEvent.Commit ∉ (Sync x ρ db E C).1))) := by
  refine ⟨?_, ?_, ?_⟩
  · intro e h
    simp [Sync, Sync.apply, h]
  · intro e h
    simp [Sync, Sync.apply, h]
  · intro sqls h
    unfold Sync
    rw [h]
    refine ⟨?_, ?_⟩
    · intro e hb
      simp [Sync.apply, hb]
    · intro hb
      exact ⟨fun i s e => Sync.apply_first_failure db sqls hb i s e,
        Sync.apply_all_ok db sqls hb, Sync.apply_shape db sqls hb⟩

/-- Witness of C24: for the desired schema `User`, `Event` and the observed tables
`user`, `zebra`, `audit`, `Diff` returns four statements.  On a database where the second
statement fails, `Sync` executes the first two and rolls back; on a database where every
call succeeds it executes the four statements and commits. -/
theorem Sync_all_or_nothing_witness :
    Diff Ext.sample id shopExpected shopCurrent =
      .ok ["CREATE TABLE `event` (\n  `created_at` DATETIME NOT NULL, `id` INT NOT NULL\n)",
        "ALTER TABLE `user` MODIFY `name` VARCHAR(50) NOT NULL",
        "DROP TABLE `zebra`", "DROP TABLE `audit`"] ∧
    Sync Ext.sample id secondFailsDB shopExpected shopCurrent =
      ([.Begin,
        .Exec "CREATE TABLE `event` (\n  `created_at` DATETIME NOT NULL, `id` INT NOT NULL\n)",
        .Exec "ALTER TABLE `user` MODIFY `name` VARCHAR(50) NOT NULL",
        .Rollback], .err "disk full") ∧
    Sync Ext.sample id healthyDB shopExpected shopCurrent =
      ([.Begin,
        .Exec "CREATE TABLE `event` (\n  `created_at` DATETIME NOT NULL, `id` INT NOT NULL\n)",
        .Exec "ALTER TABLE `user` MODIFY `name` VARCHAR(50) NOT NULL",
        .Exec "DROP TABLE `zebra`", .Exec "DROP TABLE `audit`",
        .Commit], .ok ()) :=
  ⟨by decide,
    (((Sync_all_or_nothing Ext.sample id secondFailsDB shopExpected shopCurrent).2.2
      ["CREATE TABLE `event` (\n  `created_at` DATETIME NOT NULL, `id` INT NOT NULL\n)",
        "ALTER TABLE `user` MODIFY `name` VARCHAR(50) NOT NULL",
        "DROP TABLE `zebra`", "DROP TABLE `audit`"] (by decide)).2 rfl).1 1
      "ALTER TABLE `user` MODIFY `name` VARCHAR(50) NOT NULL" "disk full" rfl
      (by
        intro j t hj _
        obtain rfl : j = 0 := by omega
        rfl)
      rfl,
    (((Sync_all_or_nothing Ext.sample id healthyDB shopExpected shopCurrent).2.2
      ["CREATE TABLE `event` (\n  `created_at` DATETIME NOT NULL, `id` INT NOT NULL\n)",
        "ALTER TABLE `user` MODIFY `name` VARCHAR(50) NOT NULL",
        "DROP TABLE `zebra`", "DROP TABLE `audit`"] (by decide)).2 rfl).2.1
      (fun _ _ _ => rfl)⟩

/-- C25 (violated by the code): `parseIndexStructTag` accepts an `index` option with an
empty parameter list.  The tag `index:` gives an index whose name is empty and whose one
column name is empty, and `index:,` an index with the empty name and the empty column
name; the error `tag must specify one column at least` is returned for no option string,
since the list of parameters that `SplitN` returns always has an element. -/
theorem parseIndexStructTag_accepts_empty_parameters :
    parseIndexStructTag "index:" = .ok { Name := "", ColumnNames := some [""], Unique := false } ∧
    parseIndexStructTag "index:;unique" =
      .ok { Name := "", ColumnNames := some [""], Unique := true } ∧
    parseIndexStructTag "index:," = .ok { Name := "", ColumnNames := some [""], Unique := false } ∧
    parseIndexStructTag "index:idx," =
      .ok { Name := "idx", ColumnNames := some [""], Unique := false } ∧
    userEmptyIndexAST.Indexes = .ok [ { Name := "", ColumnNames := some [""], Unique := false } ] ∧
    (∀ v : String, 1 ≤ (split v ',').length) ∧
    (∀ migu : String, parseIndexStructTag migu ≠ .err noColumnError) ∧
    noColumnError = "migu: parseIndexStructTag: '" ++ tagIndex ++
      "' tag must specify one column at least" :=
  ⟨by decide, by decide, by decide, by decide, by decide,
    fun v => split_length_pos v ',', parseIndexStructTag_ne_noColumnError, by decide⟩

end Migu
